import Mathlib

/-!
# Event ticket booking system: booking / cancellation engine

A shallow embedding of `services/BookingService.js`, `services/EventService.js`,
the three repositories `data/EventRepository.js`, `data/BookingRepository.js`,
`data/WaitingListRepository.js`, the book handler of
`controllers/EventController.js`, and `services/AuthService.js`.

* SQL tables are lists of rows in insertion order; `AUTO_INCREMENT` keys come
  from one counter per table.
* A repository method is a pure function on the `Store` it is executed against.
* A pooled connection carries the committed store, the working copy of the
  open transaction, and the trace of calls made on it.
* JavaScript values are the `JsValue` type; numbers are integers or `NaN`.
* `bookEach`, `cancelEach` and `fillEvent` run several calls one after the other.
* `bookUnreliable` and `cancelUnreliable` are the same two methods with every
  awaited call recorded and free to throw: the calls on the pool and on the
  connection as well as the repository calls. A `Flow` is a piece of such a
  call; with no fault they settle as `book` and `cancel` do.
* `AuthService` takes `UserRepository`, `bcrypt` and `jwt` as an `AuthEnv`.
-/

namespace Ticketing

/-! ## JavaScript values and errors -/

/-- The JavaScript values the services inspect. Numbers are integers, or `NaN`. -/
inductive JsValue where
  | undefined
  | null
  | bool (b : Bool)
  | number (n : Int)
  | nan
  | string (s : String)
  deriving DecidableEq, Repr

/-- JavaScript truthiness, so that `!v` is `!v.truthy`. -/
def JsValue.truthy : JsValue → Bool
  | .undefined => false
  | .null => false
  | .bool b => b
  | .number n => n != 0
  | .nan => false
  | .string s => s != ""

/-- The test `typeof v === 'number'`. -/
def JsValue.isNumber : JsValue → Bool
  | .number _ => true
  | .nan => true
  | _ => false

/-- The test `typeof v === 'string'`. -/
def JsValue.isString : JsValue → Bool
  | .string _ => true
  | _ => false

/-- The integer bound to a SQL placeholder by a numeric argument. -/
def JsValue.sqlInt : JsValue → Int
  | .number n => n
  | _ => 0

/-- The comparison `v <= k` on a value that is a number. -/
def JsValue.numLe (v : JsValue) (k : Int) : Bool :=
  match v with
  | .number n => n ≤ k
  | _ => false

/-- The text bound to a SQL placeholder by a string argument. -/
def JsValue.sqlText : JsValue → String
  | .string s => s
  | _ => ""

/-- The error classes imported from `utils/errors`, and the runtime `TypeError`
raised by a property access on `null`. -/
inductive ErrorKind where
  | ValidationError
  | NotFoundError
  | ConflictError
  | UnauthorizedError
  | TypeError
  deriving DecidableEq, Repr

/-- A thrown application error: its class and its message. -/
structure AppError where
  kind : ErrorKind
  message : String
  deriving DecidableEq, Repr

/-! ## Rows and tables -/

/-- Column `bookings.status`. -/
inductive BookingStatus where
  | confirmed
  | cancelled
  deriving DecidableEq, Repr

/-- Column `waiting_list.status`. -/
inductive WaitingStatus where
  | waiting
  | promoted
  deriving DecidableEq, Repr

/-- A row of table `events`. -/
structure EventRow where
  id : Int
  name : String
  total_tickets : Int
  available_tickets : Int
  deriving DecidableEq, Repr

/-- A row of table `bookings`. -/
structure BookingRow where
  id : Int
  event_id : Int
  user_id : Int
  status : BookingStatus
  deriving DecidableEq, Repr

/-- A row of table `waiting_list`. -/
structure WaitingRow where
  id : Int
  event_id : Int
  user_id : Int
  position : Int
  status : WaitingStatus
  deriving DecidableEq, Repr

/-- Modelled from the spec: the table declarations (the schema behind
`config/database`) are not among the sources. The three tables are lists of rows
in insertion order, and each table has the counter its `insertId` values are
drawn from. -/
structure Store where
  events : List EventRow
  bookings : List BookingRow
  waiting_list : List WaitingRow
  nextEventId : Int
  nextBookingId : Int
  nextWaitingId : Int
  deriving DecidableEq, Repr

/-- The store before any call: empty tables, counters at 1. -/
def Store.empty : Store :=
  { events := [], bookings := [], waiting_list := [],
    nextEventId := 1, nextBookingId := 1, nextWaitingId := 1 }

/-! ## EventRepository -/

namespace EventRepository

/-- SQL `INSERT INTO events (name, total_tickets, available_tickets) VALUES (?, ?, ?)`
with `[name, totalTickets, totalTickets]`; returns `insertId`. -/
def create (name : String) (totalTickets : Int) (s : Store) : Int × Store :=
  (s.nextEventId,
   { s with
     events := s.events ++ [{ id := s.nextEventId, name := name,
                              total_tickets := totalTickets,
                              available_tickets := totalTickets }],
     nextEventId := s.nextEventId + 1 })

/-- SQL `SELECT * FROM events WHERE id = ?`, first row or null. -/
def findById (eventId : Int) (s : Store) : Option EventRow :=
  s.events.find? (fun e => e.id = eventId)

/-- SQL `SELECT * FROM events WHERE id = ? FOR UPDATE`, first row or null. -/
def findByIdForUpdate (eventId : Int) (s : Store) : Option EventRow :=
  s.events.find? (fun e => e.id = eventId)

/-- SQL `UPDATE events SET available_tickets = available_tickets - 1
WHERE id = ? AND available_tickets > 0`; returns `affectedRows > 0`. -/
def decrementAvailableTickets (eventId : Int) (s : Store) : Bool × Store :=
  (s.events.any (fun e => e.id = eventId ∧ e.available_tickets > 0),
   { s with
     events := s.events.map (fun e =>
       if e.id = eventId ∧ e.available_tickets > 0 then
         { e with available_tickets := e.available_tickets - 1 }
       else e) })

/-- SQL `UPDATE events SET available_tickets = available_tickets + 1 WHERE id = ?`;
returns `affectedRows > 0`. -/
def incrementAvailableTickets (eventId : Int) (s : Store) : Bool × Store :=
  (s.events.any (fun e => e.id = eventId),
   { s with
     events := s.events.map (fun e =>
       if e.id = eventId then
         { e with available_tickets := e.available_tickets + 1 }
       else e) })

end EventRepository

/-! ## BookingRepository -/

namespace BookingRepository

/-- SQL `INSERT INTO bookings (event_id, user_id, status) VALUES (?, ?, 'confirmed')`;
returns `insertId`. -/
def create (eventId userId : Int) (s : Store) : Int × Store :=
  (s.nextBookingId,
   { s with
     bookings := s.bookings ++ [{ id := s.nextBookingId, event_id := eventId,
                                  user_id := userId, status := .confirmed }],
     nextBookingId := s.nextBookingId + 1 })

/-- SQL `SELECT * FROM bookings WHERE id = ? FOR UPDATE`, first row or null. -/
def findByIdForUpdate (bookingId : Int) (s : Store) : Option BookingRow :=
  s.bookings.find? (fun b => b.id = bookingId)

/-- SQL `SELECT * FROM bookings WHERE event_id = ? AND user_id = ? AND status = 'confirmed'`,
first row or null. -/
def findActiveByEventAndUser (eventId userId : Int) (s : Store) : Option BookingRow :=
  s.bookings.find? (fun b =>
    b.event_id = eventId ∧ b.user_id = userId ∧ b.status = .confirmed)

/-- SQL `SELECT COUNT(*) FROM bookings WHERE event_id = ? AND status = 'confirmed'`. -/
def countByEvent (eventId : Int) (s : Store) : Nat :=
  s.bookings.countP (fun b => b.event_id = eventId ∧ b.status = .confirmed)

/-- SQL `UPDATE bookings SET status = 'cancelled' WHERE id = ?`; returns
`affectedRows > 0`. -/
def cancel (bookingId : Int) (s : Store) : Bool × Store :=
  (s.bookings.any (fun b => b.id = bookingId),
   { s with
     bookings := s.bookings.map (fun b =>
       if b.id = bookingId then { b with status := .cancelled } else b) })

end BookingRepository

/-! ## WaitingListRepository -/

/-- SQL `MAX` over a column: `NULL` (none) on no rows. -/
def sqlMax : List Int → Option Int
  | [] => none
  | x :: xs =>
    match sqlMax xs with
    | none => some x
    | some m => some (max x m)

/-- SQL `ORDER BY position ASC LIMIT 1`: the row with the least position, the
earliest inserted one among equals; none on no rows. -/
def firstByPosition : List WaitingRow → Option WaitingRow
  | [] => none
  | w :: ws =>
    match firstByPosition ws with
    | none => some w
    | some m => if w.position ≤ m.position then some w else some m

namespace WaitingListRepository

/-- The rows matched by `WHERE event_id = ? AND status = 'waiting'`. -/
def waitingOf (eventId : Int) (s : Store) : List WaitingRow :=
  s.waiting_list.filter (fun w => w.event_id = eventId ∧ w.status = .waiting)

/-- SQL `SELECT COALESCE(MAX(position), 0) + 1 ... WHERE event_id = ? AND status = 'waiting'`
followed by the `INSERT` of the new 'waiting' row; returns `{id, position}`. -/
def add (eventId userId : Int) (s : Store) : (Int × Int) × Store :=
  let position := ((sqlMax ((waitingOf eventId s).map (fun w => w.position))).getD 0) + 1
  ((s.nextWaitingId, position),
   { s with
     waiting_list := s.waiting_list ++ [{ id := s.nextWaitingId, event_id := eventId,
                                          user_id := userId, position := position,
                                          status := .waiting }],
     nextWaitingId := s.nextWaitingId + 1 })

/-- SQL `SELECT * FROM waiting_list WHERE event_id = ? AND status = 'waiting'
ORDER BY position ASC LIMIT 1 FOR UPDATE`, first row or null. -/
def findNextInLine (eventId : Int) (s : Store) : Option WaitingRow :=
  firstByPosition (waitingOf eventId s)

/-- SQL `UPDATE waiting_list SET status = 'promoted' WHERE id = ?`; returns
`affectedRows > 0`. -/
def promote (waitingListId : Int) (s : Store) : Bool × Store :=
  (s.waiting_list.any (fun w => w.id = waitingListId),
   { s with
     waiting_list := s.waiting_list.map (fun w =>
       if w.id = waitingListId then { w with status := .promoted } else w) })

/-- SQL `SELECT COUNT(*) FROM waiting_list WHERE event_id = ? AND status = 'waiting'`. -/
def countByEvent (eventId : Int) (s : Store) : Nat :=
  s.waiting_list.countP (fun w => w.event_id = eventId ∧ w.status = .waiting)

/-- SQL `SELECT * FROM waiting_list WHERE event_id = ? AND user_id = ? AND status = 'waiting'`,
first row or null. -/
def findByEventAndUser (eventId userId : Int) (s : Store) : Option WaitingRow :=
  s.waiting_list.find? (fun w =>
    w.event_id = eventId ∧ w.user_id = userId ∧ w.status = .waiting)

end WaitingListRepository

/-! ## The pool and its connections -/

/-- The calls a service makes on the pool and on the connection it obtained. -/
inductive ConnCall where
  | getConnection
  | beginTransaction
  | commit
  | rollback
  | release
  deriving DecidableEq, Repr

/-- Modelled from the spec: `config/database` (the pool) is not among the
sources. The persistence layer offers `begin()`, `commit()`, `rollback()`; a
connection holds the committed store, the working copy its statements run
against, and the trace of the calls made so far. -/
structure Connection where
  committed : Store
  work : Store
  calls : List ConnCall
  deriving DecidableEq, Repr

namespace Connection

/-- Call `connection.beginTransaction()`. -/
def beginTransaction (c : Connection) : Connection :=
  { c with work := c.committed, calls := c.calls ++ [.beginTransaction] }

/-- Call `connection.commit()`: the working copy becomes the committed store. -/
def commit (c : Connection) : Connection :=
  { c with committed := c.work, calls := c.calls ++ [.commit] }

/-- Call `connection.rollback()`: the working copy is discarded. -/
def rollback (c : Connection) : Connection :=
  { c with work := c.committed, calls := c.calls ++ [.rollback] }

/-- Call `connection.release()`. -/
def release (c : Connection) : Connection :=
  { c with calls := c.calls ++ [.release] }

/-- Call `connection.execute(...)`: run a repository statement against the working copy. -/
def execute {α : Type} (c : Connection) (stmt : Store → α × Store) : α × Connection :=
  ((stmt c.work).1, { c with work := (stmt c.work).2 })

end Connection

/-- Call `pool.getConnection()` on a database whose committed content is `db`. -/
def pool.getConnection (db : Store) : Connection :=
  { committed := db, work := db, calls := [.getConnection] }

/-- What a settled service call leaves behind: the returned value or the thrown
error, the committed store, and the trace of pool and connection calls. -/
structure Outcome (α : Type) where
  result : Except AppError α
  db : Store
  calls : List ConnCall

/-- A call that settles with `result` after its connection reached state `c`. -/
def Outcome.settle {α : Type} (result : Except AppError α) (c : Connection) : Outcome α :=
  { result := result, db := c.committed, calls := c.calls }

/-! ## BookingService -/

/-- The two shapes of object `BookingService.book` returns. -/
inductive BookResult where
  | booked (bookingId : Int) (eventId userId : JsValue) (status : String)
  | waitlisted (waitingListId : Int) (eventId userId : JsValue) (position : Int)
      (message : String)
  deriving DecidableEq, Repr

/-- The object `reassignedTo` of a cancel result. -/
structure Reassigned where
  userId : Int
  bookingId : Int
  deriving DecidableEq, Repr

/-- The object `BookingService.cancel` returns. -/
structure CancelResult where
  message : String
  reassigned : Bool
  reassignedTo : Option Reassigned
  deriving DecidableEq, Repr

namespace BookingService

/-- The `try` block of `book`: the value returned or the error thrown, and the
connection as the block leaves it. -/
def bookTry (eventId userId : JsValue) (connection : Connection) :
    Except AppError BookResult × Connection :=
  match EventRepository.findByIdForUpdate eventId.sqlInt connection.work with
  | none => (.error ⟨.NotFoundError, "Event not found"⟩, connection.rollback)
  | some event =>
    match BookingRepository.findActiveByEventAndUser eventId.sqlInt userId.sqlInt
        connection.work with
    | some _ =>
      (.error ⟨.ConflictError, "User already has a booking for this event"⟩,
       connection.rollback)
    | none =>
      match WaitingListRepository.findByEventAndUser eventId.sqlInt userId.sqlInt
          connection.work with
      | some _ =>
        (.error ⟨.ConflictError, "User is already on the waiting list for this event"⟩,
         connection.rollback)
      | none =>
        if event.available_tickets > 0 then
          let (bookingId, c1) :=
            connection.execute (BookingRepository.create eventId.sqlInt userId.sqlInt)
          let (_, c2) :=
            c1.execute (EventRepository.decrementAvailableTickets eventId.sqlInt)
          (.ok (.booked bookingId eventId userId "confirmed"), c2.commit)
        else
          let (waitingList, c1) :=
            connection.execute (WaitingListRepository.add eventId.sqlInt userId.sqlInt)
          (.ok (.waitlisted waitingList.1 eventId userId waitingList.2
                  "Event is sold out. You have been added to the waiting list."),
           c1.commit)

/-- Method `BookingService.book(eventId, userId)` run on a database whose committed
content is `db`. -/
def book (eventId userId : JsValue) (db : Store) : Outcome BookResult :=
  if !eventId.truthy || !eventId.isNumber then
    { result := .error ⟨.ValidationError, "Valid event ID is required"⟩,
      db := db, calls := [] }
  else if !userId.truthy || !userId.isNumber then
    { result := .error ⟨.ValidationError, "Valid user ID is required"⟩,
      db := db, calls := [] }
  else
    let connection := (pool.getConnection db).beginTransaction
    match bookTry eventId userId connection with
    | (.ok r, c) => Outcome.settle (.ok r) c.release
    | (.error e, c) => Outcome.settle (.error e) c.rollback.release

/-- The `try` block of `cancel`. -/
def cancelTry (bookingId : JsValue) (connection : Connection) :
    Except AppError CancelResult × Connection :=
  match BookingRepository.findByIdForUpdate bookingId.sqlInt connection.work with
  | none => (.error ⟨.NotFoundError, "Booking not found"⟩, connection.rollback)
  | some booking =>
    if booking.status = .cancelled then
      (.error ⟨.ConflictError, "Booking is already cancelled"⟩, connection.rollback)
    else
      let (_, c1) := connection.execute (BookingRepository.cancel bookingId.sqlInt)
      match WaitingListRepository.findNextInLine booking.event_id c1.work with
      | some nextInLine =>
        let (newBookingId, c2) :=
          c1.execute (BookingRepository.create booking.event_id nextInLine.user_id)
        let (_, c3) := c2.execute (WaitingListRepository.promote nextInLine.id)
        (.ok { message := "Booking cancelled successfully", reassigned := true,
               reassignedTo := some { userId := nextInLine.user_id,
                                      bookingId := newBookingId } },
         c3.commit)
      | none =>
        let (_, c2) :=
          c1.execute (EventRepository.incrementAvailableTickets booking.event_id)
        (.ok { message := "Booking cancelled successfully", reassigned := false,
               reassignedTo := none },
         c2.commit)

/-- Method `BookingService.cancel(bookingId)` run on a database whose committed content
is `db`. -/
def cancel (bookingId : JsValue) (db : Store) : Outcome CancelResult :=
  if !bookingId.truthy || !bookingId.isNumber then
    { result := .error ⟨.ValidationError, "Valid booking ID is required"⟩,
      db := db, calls := [] }
  else
    let connection := (pool.getConnection db).beginTransaction
    match cancelTry bookingId connection with
    | (.ok r, c) => Outcome.settle (.ok r) c.release
    | (.error e, c) => Outcome.settle (.error e) c.rollback.release

end BookingService

/-! ## EventService -/

/-- The object `EventService.initialize` returns. -/
structure InitializeResult where
  eventId : Int
  name : String
  totalTickets : Int
  availableTickets : Int
  deriving DecidableEq, Repr

/-- The object `EventService.getStatus` returns. -/
structure StatusResult where
  eventId : Int
  name : String
  totalTickets : Int
  availableTickets : Int
  bookedTickets : Nat
  waitingListCount : Nat
  deriving DecidableEq, Repr

namespace EventService

/-- Method `EventService.initialize(name, totalTickets)` (the bare name is reserved in
Lean); its statements run on the pool itself, each committed at once. -/
def initializeEvent (name totalTickets : JsValue) (db : Store) : Outcome InitializeResult :=
  if !name.truthy || !name.isString then
    { result := .error ⟨.ValidationError, "Event name is required and must be a string"⟩,
      db := db, calls := [] }
  else if !totalTickets.truthy || !totalTickets.isNumber || totalTickets.numLe 0 then
    { result := .error ⟨.ValidationError, "Total tickets must be a positive number"⟩,
      db := db, calls := [] }
  else
    let (eventId, db1) := EventRepository.create name.sqlText totalTickets.sqlInt db
    match EventRepository.findById eventId db1 with
    | some event =>
      { result := .ok { eventId := event.id, name := event.name,
                        totalTickets := event.total_tickets,
                        availableTickets := event.available_tickets },
        db := db1, calls := [] }
    | none =>
      { result := .error ⟨.TypeError, "Cannot read properties of null"⟩,
        db := db1, calls := [] }

/-- Method `EventService.getStatus(eventId)`; reads on the pool, no transaction. -/
def getStatus (eventId : JsValue) (db : Store) : Outcome StatusResult :=
  if !eventId.truthy || !eventId.isNumber then
    { result := .error ⟨.ValidationError, "Valid event ID is required"⟩,
      db := db, calls := [] }
  else
    match EventRepository.findById eventId.sqlInt db with
    | none => { result := .error ⟨.NotFoundError, "Event not found"⟩, db := db, calls := [] }
    | some event =>
      { result := .ok { eventId := event.id, name := event.name,
                        totalTickets := event.total_tickets,
                        availableTickets := event.available_tickets,
                        bookedTickets := BookingRepository.countByEvent eventId.sqlInt db,
                        waitingListCount :=
                          WaitingListRepository.countByEvent eventId.sqlInt db },
        db := db, calls := [] }

end EventService

/-! ## Serial executions -/

/-- One service call with its arguments. -/
inductive Call where
  | initializeEvent (name totalTickets : JsValue)
  | book (eventId userId : JsValue)
  | cancel (bookingId : JsValue)
  deriving DecidableEq, Repr

/-- The committed store after running one call, whether it succeeds or fails. -/
def Call.run (c : Call) (db : Store) : Store :=
  match c with
  | .initializeEvent name totalTickets => (EventService.initializeEvent name totalTickets db).db
  | .book eventId userId => (BookingService.book eventId userId db).db
  | .cancel bookingId => (BookingService.cancel bookingId db).db

/-- The committed store after running the calls one after the other. -/
def runCalls (calls : List Call) (db : Store) : Store :=
  calls.foldl (fun s c => c.run s) db

/-- The stores reachable from the empty store by a serial sequence of calls. -/
def Reachable (s : Store) : Prop :=
  ∃ calls : List Call, runCalls calls Store.empty = s

/-! ## Well-formed stores -/

/-- The primary keys of a table: pairwise distinct, positive, and below the
counter the next `insertId` is drawn from. -/
def keysOk (ids : List Int) (next : Int) : Prop :=
  ids.Pairwise (fun a b => a ≠ b) ∧ ∀ i ∈ ids, 0 < i ∧ i < next

instance (ids : List Int) (next : Int) : Decidable (keysOk ids next) := by
  unfold keysOk; infer_instance

/-- A store whose three tables respect their primary keys. -/
def Store.WellFormed (s : Store) : Prop :=
  keysOk (s.events.map (fun e => e.id)) s.nextEventId ∧
  keysOk (s.bookings.map (fun b => b.id)) s.nextBookingId ∧
  keysOk (s.waiting_list.map (fun w => w.id)) s.nextWaitingId

instance (s : Store) : Decidable s.WellFormed := by
  unfold Store.WellFormed; infer_instance

/-- The test that lets an id argument past the `ValidationError` guard. -/
def passesValidation (v : JsValue) : Prop :=
  v.truthy = true ∧ v.isNumber = true

instance (v : JsValue) : Decidable (passesValidation v) := by
  unfold passesValidation; infer_instance

/-! ## Committed state changes -/

/-- The ways one service call can change the committed store: not at all, or by
the statements of one of its five committing paths. -/
inductive Step : Store → Store → Prop where
  | stay (s : Store) : Step s s
  | created (s : Store) (name : String) (n : Int) (hn : 0 < n) :
      Step s (EventRepository.create name n s).2
  | booked (s : Store) (e u : Int) (ev : EventRow)
      (hev : EventRepository.findByIdForUpdate e s = some ev)
      (hav : 0 < ev.available_tickets)
      (hb : BookingRepository.findActiveByEventAndUser e u s = none)
      (hw : WaitingListRepository.findByEventAndUser e u s = none) :
      Step s (EventRepository.decrementAvailableTickets e
        (BookingRepository.create e u s).2).2
  | waitlisted (s : Store) (e u : Int) (ev : EventRow)
      (hev : EventRepository.findByIdForUpdate e s = some ev)
      (hav : ¬ 0 < ev.available_tickets)
      (hb : BookingRepository.findActiveByEventAndUser e u s = none)
      (hw : WaitingListRepository.findByEventAndUser e u s = none) :
      Step s (WaitingListRepository.add e u s).2
  | promoted (s : Store) (k : Int) (b : BookingRow) (w : WaitingRow)
      (hb : BookingRepository.findByIdForUpdate k s = some b)
      (hst : b.status = .confirmed)
      (hw : WaitingListRepository.findNextInLine b.event_id s = some w) :
      Step s (WaitingListRepository.promote w.id
        (BookingRepository.create b.event_id w.user_id
          (BookingRepository.cancel k s).2).2).2
  | released (s : Store) (k : Int) (b : BookingRow)
      (hb : BookingRepository.findByIdForUpdate k s = some b)
      (hst : b.status = .confirmed)
      (hw : WaitingListRepository.findNextInLine b.event_id s = none) :
      Step s (EventRepository.incrementAvailableTickets b.event_id
        (BookingRepository.cancel k s).2).2


/-! ## Invariants of serial executions -/

/-- Keys handed out by `AUTO_INCREMENT`: increasing in insertion order,
positive, and below the counter. -/
def keysSorted (ids : List Int) (next : Int) : Prop :=
  ids.Pairwise (fun a b => a < b) ∧ (∀ i ∈ ids, 0 < i ∧ i < next) ∧ 0 < next

instance (ids : List Int) (next : Int) : Decidable (keysSorted ids next) := by
  unfold keysSorted; infer_instance

/-- The number of 'confirmed' bookings of user `u` for event `e`. -/
def confirmedFor (e u : Int) (s : Store) : Nat :=
  s.bookings.countP (fun b => b.event_id = e ∧ b.user_id = u ∧ b.status = .confirmed)

/-- The number of 'waiting' entries of user `u` for event `e`. -/
def waitingFor (e u : Int) (s : Store) : Nat :=
  s.waiting_list.countP (fun w => w.event_id = e ∧ w.user_id = u ∧ w.status = .waiting)

/-- Queue order between an earlier and a later row of `waiting_list`: if both are
'waiting' for the same event, the earlier one has the smaller position. -/
def queueOrdered (a b : WaitingRow) : Prop :=
  a.event_id = b.event_id → a.status = .waiting → b.status = .waiting →
    a.position < b.position

instance (a b : WaitingRow) : Decidable (queueOrdered a b) := by
  unfold queueOrdered; infer_instance

/-- What every serial execution maintains. -/
structure Store.Inv (s : Store) : Prop where
  eventKeys : keysSorted (s.events.map (fun e => e.id)) s.nextEventId
  bookingKeys : keysSorted (s.bookings.map (fun b => b.id)) s.nextBookingId
  waitingKeys : keysSorted (s.waiting_list.map (fun w => w.id)) s.nextWaitingId
  bookingRefs : ∀ b ∈ s.bookings, ∃ e ∈ s.events, e.id = b.event_id
  waitingRefs : ∀ w ∈ s.waiting_list, ∃ e ∈ s.events, e.id = w.event_id
  conserved : ∀ e ∈ s.events, 0 ≤ e.available_tickets ∧
    e.available_tickets + (BookingRepository.countByEvent e.id s : Int) = e.total_tickets
  onePerUser : ∀ e u : Int, confirmedFor e u s + waitingFor e u s ≤ 1
  fifo : s.waiting_list.Pairwise queueOrdered

/-! ## Sample executions -/

/-- A serial execution on a one-ticket event: user 7 books, users 8 and 9 queue
up, then booking 1 is cancelled and user 8 is promoted. -/
def sampleCalls : List Call :=
  [.initializeEvent (.string "Concert") (.number 1),
   .book (.number 1) (.number 7),
   .book (.number 1) (.number 8),
   .book (.number 1) (.number 9),
   .cancel (.number 1)]

/-- The store `sampleCalls` leaves behind. -/
def queuedStore : Store :=
  { events := [{ id := 1, name := "Concert", total_tickets := 1, available_tickets := 0 }],
    bookings := [{ id := 1, event_id := 1, user_id := 7, status := .cancelled },
                 { id := 2, event_id := 1, user_id := 8, status := .confirmed }],
    waiting_list := [{ id := 1, event_id := 1, user_id := 8, position := 1,
                       status := .promoted },
                     { id := 2, event_id := 1, user_id := 9, position := 2,
                       status := .waiting }],
    nextEventId := 2, nextBookingId := 3, nextWaitingId := 3 }

/-- A two-ticket event with one confirmed booking and nobody waiting. -/
def openStore : Store :=
  { events := [{ id := 1, name := "Concert", total_tickets := 2, available_tickets := 1 }],
    bookings := [{ id := 1, event_id := 1, user_id := 7, status := .confirmed }],
    waiting_list := [],
    nextEventId := 2, nextBookingId := 2, nextWaitingId := 1 }

/-! ## Fault plans and sessions -/

/-- Which awaited calls of one service call throw: `faults n = some e` makes the
call with index `n` throw `e` instead of taking effect. The calls on the pool,
on the connection and on the repositories are counted together from 0, in the
order the service makes them. -/
abbrev Faults := Nat → Option AppError

/-- No call throws. -/
def noFaults : Faults := fun _ => none

/-- A connection together with the repository methods called on it so far. -/
structure Session where
  connection : Connection
  repoCalls : List String
  deriving DecidableEq, Repr

namespace Session

/-- Call `connection.release()` in a session. -/
def release (s : Session) : Session :=
  { s with connection := s.connection.release }

end Session

/-- What a settled service call leaves behind when repository calls are
recorded too. -/
structure TracedOutcome (α : Type) where
  result : Except AppError α
  db : Store
  calls : List ConnCall
  repoCalls : List String

/-- A call that settles with `result` after its session reached state `s`. -/
def TracedOutcome.settle {α : Type} (result : Except AppError α) (s : Session) :
    TracedOutcome α :=
  { result := result, db := s.connection.committed, calls := s.connection.calls,
    repoCalls := s.repoCalls }

/-- A fault plan in which the fifth call of a service call (index 4) throws. -/
def sampleFaults : Faults :=
  fun n => if n = 4 then some ⟨.TypeError, "connection lost"⟩ else none

/-! ## Row lifecycles -/

/-- How a later store may show a booking row of an earlier store: same id, event
and user, and a status that is the same or went from 'confirmed' to 'cancelled'. -/
def bookingKept (b later : BookingRow) : Prop :=
  later.id = b.id ∧ later.event_id = b.event_id ∧ later.user_id = b.user_id ∧
    (later.status = b.status ∨ (b.status = .confirmed ∧ later.status = .cancelled))

instance (b later : BookingRow) : Decidable (bookingKept b later) := by
  unfold bookingKept; infer_instance

/-- How a later store may show a waiting-list row of an earlier store: same id,
event, user and position, and a status that is the same or went from 'waiting'
to 'promoted'. -/
def waitingKept (w later : WaitingRow) : Prop :=
  later.id = w.id ∧ later.event_id = w.event_id ∧ later.user_id = w.user_id ∧
    later.position = w.position ∧
    (later.status = w.status ∨ (w.status = .waiting ∧ later.status = .promoted))

instance (w later : WaitingRow) : Decidable (waitingKept w later) := by
  unfold waitingKept; infer_instance

/-- A one-ticket event on which user 8 queued and was promoted, after which user
9 queued on the then empty waiting list. -/
def requeueCalls : List Call :=
  [.initializeEvent (.string "Concert") (.number 1),
   .book (.number 1) (.number 7),
   .book (.number 1) (.number 8),
   .cancel (.number 1),
   .book (.number 1) (.number 9)]

/-- A one-ticket event with one confirmed booking and users 8 and 9 waiting. -/
def lineStore : Store :=
  { events := [{ id := 1, name := "Concert", total_tickets := 1, available_tickets := 0 }],
    bookings := [{ id := 1, event_id := 1, user_id := 7, status := .confirmed }],
    waiting_list := [{ id := 1, event_id := 1, user_id := 8, position := 1,
                       status := .waiting },
                     { id := 2, event_id := 1, user_id := 9, position := 2,
                       status := .waiting }],
    nextEventId := 2, nextBookingId := 2, nextWaitingId := 3 }

/-! ## The rows of one event -/

/-- The store with the rows of every event other than `eventId` removed (the
`AUTO_INCREMENT` counters are table state, not rows, and stay). -/
def Store.restrictTo (eventId : Int) (s : Store) : Store :=
  { s with
    events := s.events.filter (fun e => e.id = eventId),
    bookings := s.bookings.filter (fun b => b.event_id = eventId),
    waiting_list := s.waiting_list.filter (fun w => w.event_id = eventId) }

/-- The rows of event `eventId` are the same in `s` and `t`: its event row, its
bookings and its waiting-list entries. -/
def sameRowsOf (eventId : Int) (s t : Store) : Prop :=
  t.events.filter (fun e => e.id = eventId) = s.events.filter (fun e => e.id = eventId) ∧
  t.bookings.filter (fun b => b.event_id = eventId)
    = s.bookings.filter (fun b => b.event_id = eventId) ∧
  t.waiting_list.filter (fun w => w.event_id = eventId)
    = s.waiting_list.filter (fun w => w.event_id = eventId)

instance (eventId : Int) (s t : Store) : Decidable (sameRowsOf eventId s t) := by
  unfold sameRowsOf; infer_instance

/-- A second event, with two tickets and one confirmed booking, next to the
sold-out event of `queuedStore`. -/
def twoEventStore : Store :=
  { events := [{ id := 1, name := "Concert", total_tickets := 1, available_tickets := 0 },
               { id := 2, name := "Play", total_tickets := 2, available_tickets := 1 }],
    bookings := [{ id := 1, event_id := 1, user_id := 7, status := .confirmed },
                 { id := 2, event_id := 2, user_id := 7, status := .confirmed }],
    waiting_list := [{ id := 1, event_id := 1, user_id := 8, position := 1,
                       status := .waiting }],
    nextEventId := 3, nextBookingId := 3, nextWaitingId := 2 }

/-! ## Runs of many calls -/

/-- Serial `book` calls on one event, one per user in the order of the list: the
settled results in call order and the committed store after the last call. -/
def bookEach (eventId : Int) :
    List Int → Store → List (Except AppError BookResult) × Store
  | [], db => ([], db)
  | u :: us, db =>
    let out := BookingService.book (.number eventId) (.number u) db
    let rest := bookEach eventId us out.db
    (out.result :: rest.1, rest.2)

/-- Serial `cancel` calls, one per booking id in the order of the list: the
settled results in call order and the committed store after the last call. -/
def cancelEach : List Int → Store → List (Except AppError CancelResult) × Store
  | [], db => ([], db)
  | k :: ks, db =>
    let out := BookingService.cancel (.number k) db
    let rest := cancelEach ks out.db
    (out.result :: rest.1, rest.2)

/-- A result of `book` that carries `status: 'confirmed'`. -/
def isConfirmedResult : Except AppError BookResult → Bool
  | .ok (.booked _ _ _ status) => status == "confirmed"
  | _ => false

/-- A result of `book` that carries a `waitingListId`. -/
def isWaitlistedResult : Except AppError BookResult → Bool
  | .ok (.waitlisted _ _ _ _ _) => true
  | _ => false

/-- An event with `totalTickets` tickets is initialized in store `s`, then the
users book it one after the other. -/
def fillEvent (name : String) (totalTickets : Nat) (users : List Int) (s : Store) :
    List (Except AppError BookResult) × Store :=
  bookEach s.nextEventId users
    (EventService.initializeEvent (.string name) (.number totalTickets) s).db

/-- The result the `i`-th call (counting from 0) of a run of `book` calls by
distinct users on a fresh event with `totalTickets` tickets is to settle with:
a confirmed booking while tickets last, then waiting-list places 1, 2, ... The
ids continue from the counters `nextBooking` and `nextWaiting` of the store the
event was initialized in. -/
def expectedBookResult (eventId : Int) (totalTickets : Nat) (nextBooking nextWaiting : Int)
    (i : Nat) (u : Int) : Except AppError BookResult :=
  if i < totalTickets then
    .ok (.booked (nextBooking + i) (.number eventId) (.number u) "confirmed")
  else
    .ok (.waitlisted (nextWaiting + ((i - totalTickets : Nat) : Int)) (.number eventId)
      (.number u) (((i - totalTickets : Nat) : Int) + 1)
      "Event is sold out. You have been added to the waiting list.")

/-- User `u` has neither a confirmed booking nor a 'waiting' entry for event `e`,
as `book` checks it. -/
def freshUser (e u : Int) (s : Store) : Prop :=
  BookingRepository.findActiveByEventAndUser e u s = none ∧
  WaitingListRepository.findByEventAndUser e u s = none

instance (e u : Int) (s : Store) : Decidable (freshUser e u s) := by
  unfold freshUser; infer_instance

/-- The store after `j` distinct users booked a fresh event with `totalTickets`
tickets. -/
structure FillState (eventId : Int) (name : String) (totalTickets : Nat)
    (nextBooking nextWaiting : Int) (j : Nat) (s : Store) : Prop where
  inv : s.Inv
  nonzero : eventId ≠ 0
  event : EventRepository.findByIdForUpdate eventId s
    = some { id := eventId, name := name, total_tickets := totalTickets,
             available_tickets := ((totalTickets - j : Nat) : Int) }
  maxPosition : (sqlMax ((WaitingListRepository.waitingOf eventId s).map
    (fun w => w.position))).getD 0 = ((j - totalTickets : Nat) : Int)
  confirmed : BookingRepository.countByEvent eventId s = min j totalTickets
  waiting : WaitingListRepository.countByEvent eventId s = j - totalTickets
  nextBookingId : s.nextBookingId = nextBooking + ((min j totalTickets : Nat) : Int)
  nextWaitingId : s.nextWaitingId = nextWaiting + ((j - totalTickets : Nat) : Int)

/-- The number of 'promoted' waiting-list entries of an event. -/
def promotedCountOf (eventId : Int) (s : Store) : Nat :=
  s.waiting_list.countP (fun w => w.event_id = eventId ∧ w.status = .promoted)

/-- The waiting list of `s` with the first `m` 'waiting' entries of the event (in
table order) marked 'promoted' and every other row as it is. -/
def promoteFirst (eventId : Int) (m : Nat) (s : Store) : List WaitingRow :=
  s.waiting_list.map (fun x =>
    if x ∈ (WaitingListRepository.waitingOf eventId s).take m then
      { x with status := .promoted }
    else x)

/-- A sold-out two-ticket event with users 7 and 8 confirmed and users 9 and 10
waiting. -/
def busyStore : Store :=
  { events := [{ id := 1, name := "Concert", total_tickets := 2, available_tickets := 0 }],
    bookings := [{ id := 1, event_id := 1, user_id := 7, status := .confirmed },
                 { id := 2, event_id := 1, user_id := 8, status := .confirmed }],
    waiting_list := [{ id := 1, event_id := 1, user_id := 9, position := 1,
                       status := .waiting },
                     { id := 2, event_id := 1, user_id := 10, position := 2,
                       status := .waiting }],
    nextEventId := 2, nextBookingId := 3, nextWaitingId := 3 }

/-! ## Nobody waits while a ticket is free -/

/-- Every event with a 'waiting' entry has no ticket available. -/
def noIdleTicket (s : Store) : Prop :=
  ∀ e ∈ s.events,
    (∃ w ∈ s.waiting_list, w.event_id = e.id ∧ w.status = .waiting) →
      e.available_tickets = 0

instance (s : Store) : Decidable (noIdleTicket s) := by
  unfold noIdleTicket; infer_instance

/-! ## Users in the tables -/

/-- Every booking and every waiting-list entry carries a user id that passes
validation. -/
def usersValid (s : Store) : Prop :=
  (∀ b ∈ s.bookings, b.user_id ≠ 0) ∧ (∀ w ∈ s.waiting_list, w.user_id ≠ 0)

instance (s : Store) : Decidable (usersValid s) := by
  unfold usersValid; infer_instance

/-! ## EventController -/

/-- The property `bookingId` read off an object `BookingService.book` returned:
the booking id on a confirmed booking, `undefined` on a waiting-list placement,
which has no such property. -/
def BookResult.bookingId : BookResult → JsValue
  | .booked bookingId _ _ _ => .number bookingId
  | .waitlisted _ _ _ _ _ => .undefined

/-- The fields the book handler reads from `req.body`. -/
structure BookRequestBody where
  eventId : JsValue
  userId : JsValue
  deriving DecidableEq, Repr

/-- What a handler calls on `res` and on `next`, in order. -/
inductive HandlerCall where
  | status (code : Nat)
  | json (body : BookResult)
  | next (error : AppError)
  deriving DecidableEq, Repr

/-- A handled request: the calls made on `res` and `next`, and the store left
behind. -/
structure Handled where
  calls : List HandlerCall
  db : Store

namespace EventController

/-- Method `book(req, res, next)`: calls `BookingService.book(eventId, userId)`
with the two fields of the body, then `res.status(result.bookingId ? 201 : 200)`
and `.json(result)`; a thrown error goes to `next(error)`. -/
def book (body : BookRequestBody) (db : Store) : Handled :=
  let out := BookingService.book body.eventId body.userId db
  match out.result with
  | .ok result =>
    let statusCode := if result.bookingId.truthy then 201 else 200
    { calls := [.status statusCode, .json result], db := out.db }
  | .error error => { calls := [.next error], db := out.db }

end EventController

/-! ## AuthService -/

/-- The property `length` of a value: the number of UTF-16 code units of a
string, `undefined` on the other values here. -/
def JsValue.length : JsValue → JsValue
  | .string s => .number ((s.toList.map (fun c => if c.val < 0x10000 then (1 : Int) else 2)).sum)
  | _ => .undefined

/-- The comparison `v < k` on a value that is a number or `undefined`; with
`undefined` the comparison is against `NaN` and is false. -/
def JsValue.numLt (v : JsValue) (k : Int) : Bool :=
  match v with
  | .number n => n < k
  | _ => false

/-- A JavaScript object: its own enumerable properties in insertion order. -/
structure JsObject where
  props : List (String × JsValue)
  deriving DecidableEq, Repr

/-- Property read `o[k]`: the value of the property, `undefined` when the object
has no such property. -/
def JsObject.get (o : JsObject) (k : String) : JsValue :=
  match o.props.find? (fun p => p.1 == k) with
  | some p => p.2
  | none => .undefined

/-- Whether the object has an own property `k`. -/
def JsObject.hasProperty (o : JsObject) (k : String) : Bool :=
  o.props.any (fun p => p.1 == k)

/-- Module `config/auth`. -/
structure AuthConfig where
  jwtSecret : String
  jwtExpiresIn : String
  bcryptSaltRounds : Nat
  deriving DecidableEq, Repr

/-- The calls `AuthService` makes outside itself, each run against a world `σ`
(the database behind the pool and whatever else the libraries read) and free to
return or to throw: the four methods of `UserRepository`, whose queries return
`rows[0] || null`, `bcrypt.hash`, `bcrypt.compare`, `jwt.sign`, and the
`authConfig` module. -/
structure AuthEnv (σ : Type) where
  create : JsValue → JsValue → JsValue → StateT σ (Except AppError) JsValue
  findByEmail : JsValue → StateT σ (Except AppError) (Option JsObject)
  findById : JsValue → StateT σ (Except AppError) (Option JsObject)
  findByUsername : JsValue → StateT σ (Except AppError) (Option JsObject)
  hash : JsValue → Nat → StateT σ (Except AppError) JsValue
  compare : JsValue → JsValue → StateT σ (Except AppError) Bool
  sign : JsObject → String → String → StateT σ (Except AppError) JsValue
  authConfig : AuthConfig

/-- The object `AuthService.login` returns. -/
structure LoginResult where
  token : JsValue
  user : JsObject
  deriving DecidableEq, Repr

namespace AuthService

/-- Method `_sanitizeUser(user)`: `const { password_hash, ...sanitizedUser } = user`
and return `sanitizedUser`, the own properties of `user` other than
`password_hash`, in their order. -/
def _sanitizeUser (user : JsObject) : JsObject :=
  { props := user.props.filter (fun p => p.1 != "password_hash") }

/-- Method `register(username, email, password)`. The last line destructures
the row `findById` returned, which throws a `TypeError` when that is `null`. -/
def register {σ : Type} (env : AuthEnv σ) (username email password : JsValue) :
    StateT σ (Except AppError) JsObject :=
  if !username.truthy || !email.truthy || !password.truthy then
    throw ⟨.ValidationError, "Username, email, and password are required"⟩
  else if password.length.numLt 6 then
    throw ⟨.ValidationError, "Password must be at least 6 characters long"⟩
  else do
    let existingUser ← env.findByEmail email
    if existingUser.isSome then
      throw ⟨.ConflictError, "User with this email already exists"⟩
    else do
      let existingUsername ← env.findByUsername username
      if existingUsername.isSome then
        throw ⟨.ConflictError, "Username already taken"⟩
      else do
        let passwordHash ← env.hash password env.authConfig.bcryptSaltRounds
        let userId ← env.create username email passwordHash
        let user ← env.findById userId
        match user with
        | none => throw ⟨.TypeError, "Cannot destructure property password_hash of null"⟩
        | some user => pure (_sanitizeUser user)

/-- Method `login(email, password)`. -/
def login {σ : Type} (env : AuthEnv σ) (email password : JsValue) :
    StateT σ (Except AppError) LoginResult :=
  if !email.truthy || !password.truthy then
    throw ⟨.ValidationError, "Email and password are required"⟩
  else do
    let user ← env.findByEmail email
    match user with
    | none => throw ⟨.UnauthorizedError, "Invalid credentials"⟩
    | some user => do
      let isValidPassword ← env.compare password (user.get "password_hash")
      if !isValidPassword then
        throw ⟨.UnauthorizedError, "Invalid credentials"⟩
      else do
        let token ← env.sign
          { props := [("userId", user.get "id"), ("email", user.get "email")] }
          env.authConfig.jwtSecret env.authConfig.jwtExpiresIn
        pure { token := token, user := _sanitizeUser user }

end AuthService

/-- The first row of an in-memory `users` table whose column `k` holds `v`. -/
def firstUserWith (k : String) (v : JsValue) (users : List JsObject) : Option JsObject :=
  users.find? (fun r => r.get k == v)

/-- An in-memory stand-in for the collaborators, used to run the service on
examples: the world is the `users` table, `findById` selects the four columns
`id, username, email, created_at`, hashing prepends a marker, and every token is
the same string. -/
def memoryEnv : AuthEnv (List JsObject) where
  create := fun username email passwordHash => do
    let users ← get
    let id := JsValue.number (users.length + 1)
    set (users ++ [({ props := [("id", id), ("username", username), ("email", email),
      ("password_hash", passwordHash), ("created_at", .string "2024-01-01")] } : JsObject)])
    return id
  findByEmail := fun email => do
    return firstUserWith "email" email (← get)
  findById := fun userId => do
    return (firstUserWith "id" userId (← get)).map (fun r =>
      ({ props := r.props.filter (fun p =>
          p.1 == "id" || p.1 == "username" || p.1 == "email" || p.1 == "created_at") }
        : JsObject))
  findByUsername := fun username => do
    return firstUserWith "username" username (← get)
  hash := fun password _ => do
    return match password with
      | .string s => .string ("hashed:" ++ s)
      | _ => .undefined
  compare := fun password passwordHash => do
    return match password with
      | .string s => passwordHash == .string ("hashed:" ++ s)
      | _ => false
  sign := fun _ _ _ => return .string "mock-token"
  authConfig := { jwtSecret := "your_super_secret_jwt_key", jwtExpiresIn := "24h",
                  bcryptSaltRounds := 10 }

/-- The `users` table after `register("testuser", "test@example.com", "password123")`
on an empty table. -/
def oneUser : List JsObject :=
  [{ props := [("id", .number 1), ("username", .string "testuser"),
               ("email", .string "test@example.com"),
               ("password_hash", .string "hashed:password123"),
               ("created_at", .string "2024-01-01")] }]

/-! ## Calls that may throw

The two methods of `BookingService` with every awaited call free to throw: the
calls on the pool and on the connection as well as the repository calls. -/

namespace Session

/-- The session of a service call that has not asked the pool for a connection
yet. -/
def idle (db : Store) : Session :=
  { connection := { committed := db, work := db, calls := [] }, repoCalls := [] }

/-- The number of calls made so far on the pool, the connection and the
repositories; it is the index of the next call in a fault plan. -/
def made (s : Session) : Nat :=
  s.connection.calls.length + s.repoCalls.length

/-- The number of `connection.release()` calls made so far. -/
def releases (s : Session) : Nat :=
  s.connection.calls.count .release

end Session

/-- A piece of a service call: it starts in a session, returns or throws, and
leaves the session it reached. -/
def Flow (α : Type) : Type := Session → Except AppError α × Session

namespace Flow

/-- Statement `throw error`. -/
def throw {α : Type} (error : AppError) : Flow α :=
  fun s => (.error error, s)

/-- Statement `try { body } catch (error) { handler }`. -/
def tryCatch {α : Type} (body : Flow α) (handler : AppError → Flow α) : Flow α :=
  fun s =>
    match body s with
    | (.ok a, t) => (.ok a, t)
    | (.error error, t) => handler error t

/-- Statement `try { body } finally { cleanup }` for a cleanup that does not
throw: it runs however the body ends, and the body's outcome stands. -/
def tryFinally {α : Type} (body : Flow α) (cleanup : Session → Session) : Flow α :=
  fun s => ((body s).1, cleanup (body s).2)

/-- A piece of a service call that never calls `connection.release()`. -/
def quiet {α : Type} (m : Flow α) : Prop :=
  ∀ s, (m s).2.releases = s.releases

end Flow

instance : Monad Flow where
  pure a := fun s => (.ok a, s)
  bind m f := fun s =>
    match m s with
    | (.ok a, t) => f a t
    | (.error error, t) => (.error error, t)

namespace Session

/-- Call `await pool.getConnection()`: recorded in the trace, and thrown from
when the fault plan says so. -/
def getConnectionAt (faults : Faults) : Flow Unit :=
  fun s =>
    let t : Session :=
      { s with connection := { s.connection with
          calls := s.connection.calls ++ [.getConnection] } }
    match faults s.made with
    | some e => (.error e, t)
    | none => (.ok (), t)

/-- Call `await connection.beginTransaction()`: when it throws, the call is
recorded and no transaction is open. -/
def beginTransactionAt (faults : Faults) : Flow Unit :=
  fun s =>
    match faults s.made with
    | some e =>
      (.error e, { s with connection := { s.connection with
          calls := s.connection.calls ++ [.beginTransaction] } })
    | none => (.ok (), { s with connection := s.connection.beginTransaction })

/-- Call `await connection.commit()`: when it throws, the call is recorded and
nothing is published. -/
def commitAt (faults : Faults) : Flow Unit :=
  fun s =>
    match faults s.made with
    | some e =>
      (.error e, { s with connection := { s.connection with
          calls := s.connection.calls ++ [.commit] } })
    | none => (.ok (), { s with connection := s.connection.commit })

/-- Call `await connection.rollback()`: when it throws, the call is recorded. -/
def rollbackAt (faults : Faults) : Flow Unit :=
  fun s =>
    match faults s.made with
    | some e =>
      (.error e, { s with connection := { s.connection with
          calls := s.connection.calls ++ [.rollback] } })
    | none => (.ok (), { s with connection := s.connection.rollback })

/-- An awaited repository call: it throws when the fault plan says so, and
otherwise runs its statement against the working copy. -/
def repoAt {α : Type} (faults : Faults) (method : String) (stmt : Store → α × Store) :
    Flow α :=
  fun s =>
    match faults s.made with
    | some e => (.error e, { s with repoCalls := s.repoCalls ++ [method] })
    | none =>
      (.ok (stmt s.connection.work).1,
       { connection := { s.connection with work := (stmt s.connection.work).2 },
         repoCalls := s.repoCalls ++ [method] })

end Session

namespace BookingService

/-- The `try` block of `book` when every awaited call may throw. -/
def bookTryUnreliable (faults : Faults) (eventId userId : JsValue) : Flow BookResult := do
  let event ← Session.repoAt faults "EventRepository.findByIdForUpdate"
    (fun w => (EventRepository.findByIdForUpdate eventId.sqlInt w, w))
  match event with
  | none => do
    Session.rollbackAt faults
    Flow.throw ⟨.NotFoundError, "Event not found"⟩
  | some event => do
    let existingBooking ← Session.repoAt faults "BookingRepository.findActiveByEventAndUser"
      (fun w => (BookingRepository.findActiveByEventAndUser eventId.sqlInt userId.sqlInt w, w))
    match existingBooking with
    | some _ => do
      Session.rollbackAt faults
      Flow.throw ⟨.ConflictError, "User already has a booking for this event"⟩
    | none => do
      let existingWaitingList ← Session.repoAt faults
        "WaitingListRepository.findByEventAndUser"
        (fun w => (WaitingListRepository.findByEventAndUser eventId.sqlInt userId.sqlInt w, w))
      match existingWaitingList with
      | some _ => do
        Session.rollbackAt faults
        Flow.throw ⟨.ConflictError, "User is already on the waiting list for this event"⟩
      | none =>
        if event.available_tickets > 0 then do
          let bookingId ← Session.repoAt faults "BookingRepository.create"
            (BookingRepository.create eventId.sqlInt userId.sqlInt)
          let _ ← Session.repoAt faults "EventRepository.decrementAvailableTickets"
            (EventRepository.decrementAvailableTickets eventId.sqlInt)
          Session.commitAt faults
          pure (.booked bookingId eventId userId "confirmed")
        else do
          let waitingList ← Session.repoAt faults "WaitingListRepository.add"
            (WaitingListRepository.add eventId.sqlInt userId.sqlInt)
          Session.commitAt faults
          pure (.waitlisted waitingList.1 eventId userId waitingList.2
            "Event is sold out. You have been added to the waiting list.")

/-- The body of `book` past validation when every awaited call may throw:
`pool.getConnection()` and `connection.beginTransaction()` come before the
`try`; the `catch` rolls back and rethrows; the `finally` releases. -/
def bookFlow (faults : Faults) (eventId userId : JsValue) : Flow BookResult := do
  Session.getConnectionAt faults
  Session.beginTransactionAt faults
  Flow.tryFinally
    (Flow.tryCatch (bookTryUnreliable faults eventId userId)
      (fun error => do
        Session.rollbackAt faults
        Flow.throw error))
    Session.release

/-- Method `BookingService.book(eventId, userId)` when every awaited call may
throw. -/
def bookUnreliable (faults : Faults) (eventId userId : JsValue) (db : Store) :
    TracedOutcome BookResult :=
  if !eventId.truthy || !eventId.isNumber then
    { result := .error ⟨.ValidationError, "Valid event ID is required"⟩,
      db := db, calls := [], repoCalls := [] }
  else if !userId.truthy || !userId.isNumber then
    { result := .error ⟨.ValidationError, "Valid user ID is required"⟩,
      db := db, calls := [], repoCalls := [] }
  else
    TracedOutcome.settle (bookFlow faults eventId userId (Session.idle db)).1
      (bookFlow faults eventId userId (Session.idle db)).2

/-- The `try` block of `cancel` when every awaited call may throw. -/
def cancelTryUnreliable (faults : Faults) (bookingId : JsValue) : Flow CancelResult := do
  let booking ← Session.repoAt faults "BookingRepository.findByIdForUpdate"
    (fun w => (BookingRepository.findByIdForUpdate bookingId.sqlInt w, w))
  match booking with
  | none => do
    Session.rollbackAt faults
    Flow.throw ⟨.NotFoundError, "Booking not found"⟩
  | some booking =>
    if booking.status = .cancelled then do
      Session.rollbackAt faults
      Flow.throw ⟨.ConflictError, "Booking is already cancelled"⟩
    else do
      let _ ← Session.repoAt faults "BookingRepository.cancel"
        (BookingRepository.cancel bookingId.sqlInt)
      let nextInLine ← Session.repoAt faults "WaitingListRepository.findNextInLine"
        (fun w => (WaitingListRepository.findNextInLine booking.event_id w, w))
      match nextInLine with
      | some nextInLine => do
        let newBookingId ← Session.repoAt faults "BookingRepository.create"
          (BookingRepository.create booking.event_id nextInLine.user_id)
        let _ ← Session.repoAt faults "WaitingListRepository.promote"
          (WaitingListRepository.promote nextInLine.id)
        Session.commitAt faults
        pure { message := "Booking cancelled successfully", reassigned := true,
               reassignedTo := some { userId := nextInLine.user_id,
                                      bookingId := newBookingId } }
      | none => do
        let _ ← Session.repoAt faults "EventRepository.incrementAvailableTickets"
          (EventRepository.incrementAvailableTickets booking.event_id)
        Session.commitAt faults
        pure { message := "Booking cancelled successfully", reassigned := false,
               reassignedTo := none }

/-- The body of `cancel` past validation when every awaited call may throw. -/
def cancelFlow (faults : Faults) (bookingId : JsValue) : Flow CancelResult := do
  Session.getConnectionAt faults
  Session.beginTransactionAt faults
  Flow.tryFinally
    (Flow.tryCatch (cancelTryUnreliable faults bookingId)
      (fun error => do
        Session.rollbackAt faults
        Flow.throw error))
    Session.release

/-- Method `BookingService.cancel(bookingId)` when every awaited call may throw. -/
def cancelUnreliable (faults : Faults) (bookingId : JsValue) (db : Store) :
    TracedOutcome CancelResult :=
  if !bookingId.truthy || !bookingId.isNumber then
    { result := .error ⟨.ValidationError, "Valid booking ID is required"⟩,
      db := db, calls := [], repoCalls := [] }
  else
    TracedOutcome.settle (cancelFlow faults bookingId (Session.idle db)).1
      (cancelFlow faults bookingId (Session.idle db)).2

end BookingService

/-- A fault plan in which `connection.beginTransaction()`, the second call of a
service call, throws. -/
def beginFails : Faults :=
  fun n => if n = 1 then some ⟨.TypeError, "connection lost"⟩ else none

/-- A fault plan in which `connection.commit()` throws when it is the eighth
call, as in a `book` that confirms. -/
def commitFails : Faults :=
  fun n => if n = 7 then some ⟨.TypeError, "connection lost"⟩ else none

/-! ## Failures after the transaction has begun -/

/-- The session of a service call once `pool.getConnection()` and
`connection.beginTransaction()` have returned. -/
def Session.begun (db : Store) : Session :=
  { connection := (pool.getConnection db).beginTransaction, repoCalls := [] }

/-- The ways a piece of a `try` block may end in an error when every call before
it returned. The committed store is as it was, and the error `e` leaves one of
three traces: no connection call, and `e` was thrown by the first awaited call
that failed (a repository call); one `rollback`, and `e` is the service's own
error (`own e`) thrown after it, or was thrown by that `rollback`; one `commit`,
which threw `e`. -/
def Flow.orderly {α : Type} (faults : Faults) (own : AppError → Prop) (m : Flow α) : Prop :=
  ∀ s e t, (∀ j, j < s.made → faults j = none) → m s = (.error e, t) →
    t.connection.committed = s.connection.committed ∧
    ((t.connection.calls = s.connection.calls ∧
        ∃ i, faults i = some e ∧ ∀ j, j < i → faults j = none) ∨
     (t.connection.calls = s.connection.calls ++ [.rollback] ∧
        (own e ∨ ∃ i, faults i = some e ∧ ∀ j, j < i → faults j = none)) ∨
     (t.connection.calls = s.connection.calls ++ [.commit] ∧
        ∃ i, faults i = some e ∧ ∀ j, j < i → faults j = none))

/-- The errors `book` throws itself inside its `try` block. -/
def bookOwnError (e : AppError) : Prop :=
  e = ⟨.NotFoundError, "Event not found"⟩ ∨
  e = ⟨.ConflictError, "User already has a booking for this event"⟩ ∨
  e = ⟨.ConflictError, "User is already on the waiting list for this event"⟩

/-- The errors `cancel` throws itself inside its `try` block. -/
def cancelOwnError (e : AppError) : Prop :=
  e = ⟨.NotFoundError, "Booking not found"⟩ ∨
  e = ⟨.ConflictError, "Booking is already cancelled"⟩

/-- A fault plan in which the seventh call of a service call (index 6) throws:
in a `book` that confirms it is `decrementAvailableTickets`, after the booking
row was created; in a `cancel` that promotes it is `promote`, after the booking
was marked cancelled and its replacement created. -/
def lateFault : Faults :=
  fun n => if n = 6 then some ⟨.TypeError, "connection lost"⟩ else none

/-- The plan `lateFault` with the next call, the `rollback` of the `catch`
block, throwing as well. -/
def rollbackFails : Faults :=
  fun n =>
    if n = 6 then some ⟨.TypeError, "connection lost"⟩
    else if n = 7 then some ⟨.TypeError, "rollback failed"⟩
    else none

/-! ## What `book` gets back from the decrement -/

namespace BookingService

/-- The `try` block of `book` once more, keeping the value that
`decrementAvailableTickets` returned to it (the source discards it): `none` when
the block did not call it. -/
def bookTryObserved (eventId userId : JsValue) (connection : Connection) :
    (Except AppError BookResult × Connection) × Option Bool :=
  match EventRepository.findByIdForUpdate eventId.sqlInt connection.work with
  | none => ((.error ⟨.NotFoundError, "Event not found"⟩, connection.rollback), none)
  | some event =>
    match BookingRepository.findActiveByEventAndUser eventId.sqlInt userId.sqlInt
        connection.work with
    | some _ =>
      ((.error ⟨.ConflictError, "User already has a booking for this event"⟩,
        connection.rollback), none)
    | none =>
      match WaitingListRepository.findByEventAndUser eventId.sqlInt userId.sqlInt
          connection.work with
      | some _ =>
        ((.error ⟨.ConflictError, "User is already on the waiting list for this event"⟩,
          connection.rollback), none)
      | none =>
        if event.available_tickets > 0 then
          let (bookingId, c1) :=
            connection.execute (BookingRepository.create eventId.sqlInt userId.sqlInt)
          let (decremented, c2) :=
            c1.execute (EventRepository.decrementAvailableTickets eventId.sqlInt)
          ((.ok (.booked bookingId eventId userId "confirmed"), c2.commit), some decremented)
        else
          let (waitingList, c1) :=
            connection.execute (WaitingListRepository.add eventId.sqlInt userId.sqlInt)
          ((.ok (.waitlisted waitingList.1 eventId userId waitingList.2
                   "Event is sold out. You have been added to the waiting list."),
            c1.commit), none)

/-- Method `BookingService.book(eventId, userId)` together with the value that
`decrementAvailableTickets` returned to it, `none` when it was not called. -/
def bookObserved (eventId userId : JsValue) (db : Store) :
    Outcome BookResult × Option Bool :=
  if !eventId.truthy || !eventId.isNumber then
    ({ result := .error ⟨.ValidationError, "Valid event ID is required"⟩,
       db := db, calls := [] }, none)
  else if !userId.truthy || !userId.isNumber then
    ({ result := .error ⟨.ValidationError, "Valid user ID is required"⟩,
       db := db, calls := [] }, none)
  else
    let connection := (pool.getConnection db).beginTransaction
    match bookTryObserved eventId userId connection with
    | ((.ok r, c), decremented) => (Outcome.settle (.ok r) c.release, decremented)
    | ((.error e, c), decremented) =>
      (Outcome.settle (.error e) c.rollback.release, decremented)

end BookingService

/-! ## A ticket count that is not a whole number -/

/-- Modelled from the spec: tickets are counted in whole numbers, so the columns
`total_tickets` and `available_tickets` hold integers; the table declaration is
not among the sources. `column q` is the integer such a column takes when the
number `q` is bound to it.

Method `EventService.initialize(name, totalTickets)` called with a number
`totalTickets` that need not be whole, the fraction `q` (`JsValue.number` holds
the integers only): `!totalTickets` is `q = 0`, `typeof totalTickets` is
`'number'`, and both placeholders of the `INSERT` are bound to `q`. -/
def EventService.initializeFraction (column : ℚ → Int) (name : JsValue) (q : ℚ)
    (db : Store) : Outcome InitializeResult :=
  if !name.truthy || !name.isString then
    { result := .error ⟨.ValidationError, "Event name is required and must be a string"⟩,
      db := db, calls := [] }
  else if decide (q = 0) || decide (q ≤ 0) then
    { result := .error ⟨.ValidationError, "Total tickets must be a positive number"⟩,
      db := db, calls := [] }
  else
    let (eventId, db1) := EventRepository.create name.sqlText (column q) db
    match EventRepository.findById eventId db1 with
    | some event =>
      { result := .ok { eventId := event.id, name := event.name,
                        totalTickets := event.total_tickets,
                        availableTickets := event.available_tickets },
        db := db1, calls := [] }
    | none =>
      { result := .error ⟨.TypeError, "Cannot read properties of null"⟩,
        db := db1, calls := [] }

/-! # Theorems -/

/-! ## Basic facts -/

theorem passesValidation_iff (v : JsValue) :
    passesValidation v ↔ ∃ n : Int, n ≠ 0 ∧ v = .number n := by
  cases v <;> simp [passesValidation, JsValue.truthy, JsValue.isNumber]

theorem keysOk_unique {α : Type} (l : List α) (key : α → Int) (next : Int)
    (h : keysOk (l.map key) next) {a b : α} (ha : a ∈ l) (hb : b ∈ l)
    (hab : key a = key b) : a = b := by
  have hp := h.1
  rw [List.pairwise_map] at hp
  induction l with
  | nil => cases ha
  | cons x xs ih =>
    rw [List.pairwise_cons] at hp
    have h2 : keysOk (xs.map key) next := by
      refine ⟨?_, fun i hi => h.2 i (by simp at hi ⊢; exact Or.inr hi)⟩
      rw [List.pairwise_map]; exact hp.2
    rcases List.mem_cons.1 ha with rfl | ha'
    · rcases List.mem_cons.1 hb with rfl | hb'
      · rfl
      · exact absurd hab (hp.1 b hb')
    · rcases List.mem_cons.1 hb with rfl | hb'
      · exact absurd hab.symm (hp.1 a ha')
      · exact ih h2 ha' hb' hp.2

theorem keysOk_pos {α : Type} (l : List α) (key : α → Int) (next : Int)
    (h : keysOk (l.map key) next) {a : α} (ha : a ∈ l) : key a ≠ 0 := by
  have := (h.2 (key a) (List.mem_map.2 ⟨a, ha, rfl⟩)).1
  omega

theorem find?_key {α : Type} (l : List α) (key : α → Int) (next : Int)
    (h : keysOk (l.map key) next) {a : α} (ha : a ∈ l) :
    l.find? (fun x => decide (key x = key a)) = some a := by
  cases hf : l.find? (fun x => decide (key x = key a)) with
  | none =>
    rw [List.find?_eq_none] at hf
    exact absurd (by simp) (hf a ha)
  | some b =>
    have hb := List.mem_of_find?_eq_some hf
    have hk := List.find?_some hf
    simp at hk
    rw [keysOk_unique l key next h hb ha hk]

theorem map_key_eq {α : Type} [DecidableEq α] (l : List α) (key : α → Int) (next : Int)
    (h : keysOk (l.map key) next) {a : α} (ha : a ∈ l) (f : α → α) :
    l.map (fun x => if key x = key a then f x else x)
      = l.map (fun x => if x = a then f a else x) := by
  apply List.map_congr_left
  intro x hx
  by_cases hk : key x = key a
  · have := keysOk_unique l key next h hx ha hk
    subst this; simp
  · have : x ≠ a := fun hxa => hk (by rw [hxa])
    simp [hk, this]

/-- Past validation, `book` is its `try` block followed by `catch` and `finally`. -/
theorem book_unfold (e u : Int) (he : e ≠ 0) (hu : u ≠ 0) (db : Store) :
    BookingService.book (.number e) (.number u) db =
      match BookingService.bookTry (.number e) (.number u)
          { committed := db, work := db, calls := [.getConnection, .beginTransaction] } with
      | (.ok r, c) => Outcome.settle (.ok r) c.release
      | (.error err, c) => Outcome.settle (.error err) c.rollback.release := by
  simp [BookingService.book, JsValue.truthy, JsValue.isNumber, he, hu, pool.getConnection,
    Connection.beginTransaction]

/-- Past validation, `cancel` is its `try` block followed by `catch` and `finally`. -/
theorem cancel_unfold (k : Int) (hk : k ≠ 0) (db : Store) :
    BookingService.cancel (.number k) db =
      match BookingService.cancelTry (.number k)
          { committed := db, work := db, calls := [.getConnection, .beginTransaction] } with
      | (.ok r, c) => Outcome.settle (.ok r) c.release
      | (.error err, c) => Outcome.settle (.error err) c.rollback.release := by
  simp [BookingService.cancel, JsValue.truthy, JsValue.isNumber, hk, pool.getConnection,
    Connection.beginTransaction]

theorem findEvent_of_mem (db : Store) (hwf : db.WellFormed) {ev : EventRow}
    (hev : ev ∈ db.events) : EventRepository.findByIdForUpdate ev.id db = some ev :=
  find?_key db.events (fun x => x.id) db.nextEventId hwf.1 hev

theorem findBooking_of_mem (db : Store) (hwf : db.WellFormed) {b : BookingRow}
    (hb : b ∈ db.bookings) : BookingRepository.findByIdForUpdate b.id db = some b :=
  find?_key db.bookings (fun x => x.id) db.nextBookingId hwf.2.1 hb

theorem sqlMax_eq_none {l : List Int} : sqlMax l = none ↔ l = [] := by
  cases l with
  | nil => simp [sqlMax]
  | cons x xs => cases h : sqlMax xs <;> simp [sqlMax, h]

theorem sqlMax_spec {l : List Int} {m : Int} (h : sqlMax l = some m) :
    m ∈ l ∧ ∀ x ∈ l, x ≤ m := by
  induction l generalizing m with
  | nil => simp [sqlMax] at h
  | cons x xs ih =>
    cases hx : sqlMax xs with
    | none =>
      have hnil := sqlMax_eq_none.1 hx
      subst hnil
      simp [sqlMax] at h
      subst h; simp
    | some m0 =>
      have ⟨hm0, hle⟩ := ih hx
      simp [sqlMax, hx] at h
      subst h
      constructor
      · rcases le_total x m0 with hxm | hxm
        · rw [max_eq_right hxm]; exact List.mem_cons_of_mem _ hm0
        · rw [max_eq_left hxm]; exact List.mem_cons_self _ _
      · intro y hy
        rcases List.mem_cons.1 hy with rfl | hy'
        · exact le_max_left _ _
        · exact le_trans (hle y hy') (le_max_right _ _)

theorem mem_waitingOf {eventId : Int} {s : Store} {w : WaitingRow} :
    w ∈ WaitingListRepository.waitingOf eventId s ↔
      w ∈ s.waiting_list ∧ w.event_id = eventId ∧ w.status = .waiting := by
  simp [WaitingListRepository.waitingOf, List.mem_filter]

theorem firstByPosition_eq_none {l : List WaitingRow} : firstByPosition l = none ↔ l = [] := by
  cases l with
  | nil => simp [firstByPosition]
  | cons x xs =>
    cases h : firstByPosition xs with
    | none => simp [firstByPosition, h]
    | some m => by_cases hle : x.position ≤ m.position <;> simp [firstByPosition, h, hle]

theorem firstByPosition_spec {l : List WaitingRow} {w : WaitingRow}
    (h : firstByPosition l = some w) : w ∈ l ∧ ∀ x ∈ l, w.position ≤ x.position := by
  induction l generalizing w with
  | nil => simp [firstByPosition] at h
  | cons x xs ih =>
    cases hx : firstByPosition xs with
    | none =>
      have hnil := firstByPosition_eq_none.1 hx
      subst hnil
      simp [firstByPosition] at h
      subst h; simp
    | some m =>
      obtain ⟨hm, hle⟩ := ih hx
      by_cases hxm : x.position ≤ m.position
      · simp [firstByPosition, hx, hxm] at h
        subst h
        refine ⟨List.mem_cons_self _ _, ?_⟩
        intro y hy
        rcases List.mem_cons.1 hy with rfl | hy'
        · exact le_refl _
        · exact le_trans hxm (hle y hy')
      · simp [firstByPosition, hx, hxm] at h
        subst h
        refine ⟨List.mem_cons_of_mem _ hm, ?_⟩
        intro y hy
        rcases List.mem_cons.1 hy with rfl | hy'
        · omega
        · exact hle y hy'

/-- What `findNextInLine` returns is a 'waiting' entry of the event whose
position no other 'waiting' entry of the event undercuts. -/
theorem findNextInLine_spec {eventId : Int} {s : Store} {w : WaitingRow}
    (h : WaitingListRepository.findNextInLine eventId s = some w) :
    w ∈ s.waiting_list ∧ w.event_id = eventId ∧ w.status = .waiting ∧
      ∀ x ∈ s.waiting_list, x.event_id = eventId → x.status = .waiting →
        w.position ≤ x.position := by
  obtain ⟨hm, hle⟩ := firstByPosition_spec h
  rw [mem_waitingOf] at hm
  exact ⟨hm.1, hm.2.1, hm.2.2, fun x hx he hs => hle x (mem_waitingOf.2 ⟨hx, he, hs⟩)⟩

theorem findNextInLine_eq_none {eventId : Int} {s : Store} :
    WaitingListRepository.findNextInLine eventId s = none ↔
      ∀ w ∈ s.waiting_list, ¬ (w.event_id = eventId ∧ w.status = .waiting) := by
  rw [WaitingListRepository.findNextInLine, firstByPosition_eq_none,
    List.eq_nil_iff_forall_not_mem]
  constructor
  · intro h w hw hp; exact h w (mem_waitingOf.2 ⟨hw, hp.1, hp.2⟩)
  · intro h w hw; rw [mem_waitingOf] at hw; exact h w hw.1 hw.2

/-! ## Every call is a step -/

theorem book_step (eventId userId : JsValue) (s : Store) :
    Step s (BookingService.book eventId userId s).db := by
  by_cases hE : passesValidation eventId
  swap
  · have : (BookingService.book eventId userId s).db = s := by
      cases eventId <;>
        simp_all [passesValidation, BookingService.book, JsValue.truthy, JsValue.isNumber]
    rw [this]; exact Step.stay s
  by_cases hU : passesValidation userId
  swap
  · have : (BookingService.book eventId userId s).db = s := by
      cases userId <;> cases eventId <;>
        simp_all [passesValidation, BookingService.book, JsValue.truthy, JsValue.isNumber]
    rw [this]; exact Step.stay s
  obtain ⟨e, he, rfl⟩ := (passesValidation_iff eventId).1 hE
  obtain ⟨u, hu, rfl⟩ := (passesValidation_iff userId).1 hU
  rw [book_unfold e u he hu]
  cases hev : EventRepository.findByIdForUpdate e s with
  | none =>
    simp [BookingService.bookTry, JsValue.sqlInt, hev, Outcome.settle, Connection.rollback,
      Connection.release]
    exact Step.stay s
  | some ev =>
    cases hb : BookingRepository.findActiveByEventAndUser e u s with
    | some b0 =>
      simp [BookingService.bookTry, JsValue.sqlInt, hev, hb, Outcome.settle,
        Connection.rollback, Connection.release]
      exact Step.stay s
    | none =>
      cases hw : WaitingListRepository.findByEventAndUser e u s with
      | some w0 =>
        simp [BookingService.bookTry, JsValue.sqlInt, hev, hb, hw, Outcome.settle,
          Connection.rollback, Connection.release]
        exact Step.stay s
      | none =>
        by_cases hav : 0 < ev.available_tickets
        · simp [BookingService.bookTry, JsValue.sqlInt, hev, hb, hw, hav, Outcome.settle,
            Connection.commit, Connection.release, Connection.execute]
          exact Step.booked s e u ev hev hav hb hw
        · simp [BookingService.bookTry, JsValue.sqlInt, hev, hb, hw, hav, Outcome.settle,
            Connection.commit, Connection.release, Connection.execute]
          exact Step.waitlisted s e u ev hev hav hb hw

theorem cancel_step (bookingId : JsValue) (s : Store) :
    Step s (BookingService.cancel bookingId s).db := by
  by_cases hK : passesValidation bookingId
  swap
  · have : (BookingService.cancel bookingId s).db = s := by
      cases bookingId <;>
        simp_all [passesValidation, BookingService.cancel, JsValue.truthy, JsValue.isNumber]
    rw [this]; exact Step.stay s
  obtain ⟨k, hk, rfl⟩ := (passesValidation_iff bookingId).1 hK
  rw [cancel_unfold k hk]
  cases hb : BookingRepository.findByIdForUpdate k s with
  | none =>
    simp [BookingService.cancelTry, JsValue.sqlInt, hb, Outcome.settle, Connection.rollback,
      Connection.release]
    exact Step.stay s
  | some b =>
    by_cases hst : b.status = .cancelled
    · simp [BookingService.cancelTry, JsValue.sqlInt, hb, hst, Outcome.settle,
        Connection.rollback, Connection.release]
      exact Step.stay s
    · have hconf : b.status = .confirmed := by
        cases hs : b.status with
        | confirmed => rfl
        | cancelled => exact absurd hs hst
      cases hw : WaitingListRepository.findNextInLine b.event_id s with
      | some w =>
        have hw2 : WaitingListRepository.findNextInLine b.event_id
            (BookingRepository.cancel k s).2 = some w := hw
        simp [BookingService.cancelTry, JsValue.sqlInt, hb, hst, hw2, Outcome.settle,
          Connection.commit, Connection.release, Connection.execute]
        exact Step.promoted s k b w hb hconf hw
      | none =>
        have hw2 : WaitingListRepository.findNextInLine b.event_id
            (BookingRepository.cancel k s).2 = none := hw
        simp [BookingService.cancelTry, JsValue.sqlInt, hb, hst, hw2, Outcome.settle,
          Connection.commit, Connection.release, Connection.execute]
        exact Step.released s k b hb hconf hw

theorem initializeEvent_step (name totalTickets : JsValue) (s : Store) :
    Step s (EventService.initializeEvent name totalTickets s).db := by
  unfold EventService.initializeEvent
  split
  · exact Step.stay s
  · split
    · exact Step.stay s
    · rename_i h1 h2
      have hn : 0 < totalTickets.sqlInt := by
        cases totalTickets <;> simp_all [JsValue.truthy, JsValue.isNumber, JsValue.numLe,
          JsValue.sqlInt]
      simp only []
      split <;> exact Step.created s _ _ hn

theorem run_step (c : Call) (s : Store) : Step s (c.run s) := by
  cases c with
  | initializeEvent name totalTickets => exact initializeEvent_step name totalTickets s
  | book eventId userId => exact book_step eventId userId s
  | cancel bookingId => exact cancel_step bookingId s

theorem reachable_empty : Reachable Store.empty := ⟨[], rfl⟩

theorem reachable_run {s : Store} (h : Reachable s) (c : Call) : Reachable (c.run s) := by
  obtain ⟨calls, rfl⟩ := h
  exact ⟨calls ++ [c], by simp [runCalls, List.foldl_append]⟩

/-- Induction over serial executions: a property of the empty store that every
step from a reachable store preserves holds in every reachable store. -/
theorem reachable_induction {P : Store → Prop} (h0 : P Store.empty)
    (hstep : ∀ s t, Reachable s → P s → Step s t → P t) :
    ∀ s, Reachable s → P s := by
  rintro s ⟨calls, rfl⟩
  induction calls using List.reverseRecOn with
  | nil => exact h0
  | append_singleton cs c ih =>
    have hr : Reachable (runCalls cs Store.empty) := ⟨cs, rfl⟩
    have : runCalls (cs ++ [c]) Store.empty = c.run (runCalls cs Store.empty) := by
      simp [runCalls, List.foldl_append]
    rw [this]
    exact hstep _ _ hr ih (run_step c _)

/-! ## List facts behind the invariants -/

theorem keysSorted_toKeysOk {ids : List Int} {next : Int} (h : keysSorted ids next) :
    keysOk ids next :=
  ⟨h.1.imp (fun hab => ne_of_lt hab), h.2.1⟩

theorem keysSorted_append {ids : List Int} {next : Int} (h : keysSorted ids next) :
    keysSorted (ids ++ [next]) (next + 1) := by
  refine ⟨?_, ?_, by have := h.2.2; omega⟩
  · rw [List.pairwise_append]
    refine ⟨h.1, List.pairwise_singleton _ _, ?_⟩
    intro a ha b hb
    rw [List.mem_singleton] at hb
    subst hb
    exact (h.2.1 a ha).2
  · intro i hi
    rw [List.mem_append, List.mem_singleton] at hi
    rcases hi with hi | rfl
    · have := h.2.1 i hi; omega
    · have := h.2.2; omega

theorem map_key_of_preserving {α : Type} (l : List α) (key : α → Int) (g : α → α)
    (hg : ∀ x, key (g x) = key x) : (l.map g).map key = l.map key := by
  rw [List.map_map]
  exact List.map_congr_left (fun x _ => hg x)

theorem countP_map_le {α : Type} (p : α → Bool) (g : α → α) (l : List α)
    (hg : ∀ x, p (g x) = true → p x = true) : (l.map g).countP p ≤ l.countP p := by
  induction l with
  | nil => simp
  | cons x xs ih =>
    simp only [List.map_cons, List.countP_cons]
    have := hg x
    by_cases h1 : p (g x) = true
    · rw [if_pos h1, if_pos (this h1)]; omega
    · rw [if_neg h1]; omega

theorem countP_map_lt {α : Type} (p : α → Bool) (g : α → α) (l : List α)
    (hg : ∀ x, p (g x) = true → p x = true) {a : α} (ha : a ∈ l)
    (hpa : p a = true) (hga : p (g a) = false) :
    (l.map g).countP p + 1 ≤ l.countP p := by
  induction l with
  | nil => cases ha
  | cons x xs ih =>
    simp only [List.map_cons, List.countP_cons]
    rcases List.mem_cons.1 ha with rfl | ha'
    · have := countP_map_le p g xs hg
      rw [if_pos hpa, if_neg (by rw [hga]; decide)]; omega
    · have := ih ha'
      have := hg x
      by_cases h1 : p (g x) = true
      · rw [if_pos h1, if_pos (this h1)]; omega
      · rw [if_neg h1]; omega

/-- Updating the one row with the key of `a` moves a count by what it does to `a`. -/
theorem countP_update_key {α : Type} (p : α → Bool) (l : List α) (key : α → Int)
    (next : Int) (h : keysOk (l.map key) next) {a : α} (ha : a ∈ l) (f : α → α) :
    (l.map (fun x => if key x = key a then f x else x)).countP p
        + (if p a = true then 1 else 0)
      = l.countP p + (if p (f a) = true then 1 else 0) := by
  induction l with
  | nil => cases ha
  | cons x xs ih =>
    have hp := h.1
    rw [List.map_cons, List.pairwise_cons] at hp
    have h2 : keysOk (xs.map key) next :=
      ⟨hp.2, fun i hi => h.2 i (by simp at hi ⊢; exact Or.inr hi)⟩
    simp only [List.map_cons, List.countP_cons]
    by_cases hk : key x = key a
    · have hxa : x = a := keysOk_unique (x :: xs) key next h (List.mem_cons_self _ _) ha hk
      subst hxa
      have hid : xs.map (fun y => if key y = key x then f y else y) = xs := by
        conv_rhs => rw [← List.map_id xs]
        apply List.map_congr_left
        intro y hy
        have : key x ≠ key y := hp.1 (key y) (List.mem_map.2 ⟨y, hy, rfl⟩)
        simp [Ne.symm this]
      rw [hid]; simp only [if_true]; omega
    · have ha' : a ∈ xs := by
        rcases List.mem_cons.1 ha with rfl | ha'
        · exact absurd rfl hk
        · exact ha'
      have := ih h2 ha'
      simp only [hk, if_false]; omega

theorem find?_eq_none_countP {α : Type} (p : α → Bool) (l : List α)
    (h : l.find? p = none) : l.countP p = 0 := by
  rw [List.find?_eq_none] at h
  rw [List.countP_eq_zero]
  exact h

/-! ## The invariant is kept by every step -/

theorem inv_wellFormed {s : Store} (h : s.Inv) : s.WellFormed :=
  ⟨keysSorted_toKeysOk h.eventKeys, keysSorted_toKeysOk h.bookingKeys,
    keysSorted_toKeysOk h.waitingKeys⟩

theorem Inv_empty : Store.empty.Inv where
  eventKeys := by simp [Store.empty, keysSorted]
  bookingKeys := by simp [Store.empty, keysSorted]
  waitingKeys := by simp [Store.empty, keysSorted]
  bookingRefs := by simp [Store.empty]
  waitingRefs := by simp [Store.empty]
  conserved := by simp [Store.empty]
  onePerUser := by simp [Store.empty, confirmedFor, waitingFor]
  fifo := by simp [Store.empty]

theorem Inv_created {s : Store} (h : s.Inv) (name : String) (n : Int) (hn : 0 < n) :
    (EventRepository.create name n s).2.Inv where
  eventKeys := by
    simpa [EventRepository.create] using keysSorted_append h.eventKeys
  bookingKeys := h.bookingKeys
  waitingKeys := h.waitingKeys
  bookingRefs := by
    intro b hb
    obtain ⟨e, he, hid⟩ := h.bookingRefs b hb
    exact ⟨e, by simp [EventRepository.create, he], hid⟩
  waitingRefs := by
    intro w hw
    obtain ⟨e, he, hid⟩ := h.waitingRefs w hw
    exact ⟨e, by simp [EventRepository.create, he], hid⟩
  conserved := by
    intro e he
    simp only [EventRepository.create, List.mem_append, List.mem_singleton] at he
    rcases he with he | rfl
    · exact h.conserved e he
    · have hzero : BookingRepository.countByEvent s.nextEventId s = 0 := by
        rw [BookingRepository.countByEvent, List.countP_eq_zero]
        intro b hb hp
        obtain ⟨e, he, hid⟩ := h.bookingRefs b hb
        have := (h.eventKeys.2.1 e.id (List.mem_map.2 ⟨e, he, rfl⟩)).2
        simp at hp
        omega
      have hz2 : BookingRepository.countByEvent s.nextEventId
          (EventRepository.create name n s).2 = 0 := hzero
      simp only [hz2]
      omega
  onePerUser := h.onePerUser
  fifo := h.fifo

theorem exists_key_map {α : Type} (l : List α) (key : α → Int) (g : α → α)
    (hg : ∀ x, key (g x) = key x) {i : Int} (h : ∃ x ∈ l, key x = i) :
    ∃ y ∈ l.map g, key y = i := by
  obtain ⟨x, hx, hk⟩ := h
  exact ⟨g x, List.mem_map.2 ⟨x, hx, rfl⟩, by rw [hg, hk]⟩

theorem findEvent_some {e : Int} {s : Store} {ev : EventRow}
    (h : EventRepository.findByIdForUpdate e s = some ev) : ev ∈ s.events ∧ ev.id = e := by
  refine ⟨List.mem_of_find?_eq_some h, ?_⟩
  have := List.find?_some h
  simpa using this

theorem findBooking_some {k : Int} {s : Store} {b : BookingRow}
    (h : BookingRepository.findByIdForUpdate k s = some b) : b ∈ s.bookings ∧ b.id = k := by
  refine ⟨List.mem_of_find?_eq_some h, ?_⟩
  have := List.find?_some h
  simpa using this

theorem Inv_booked {s : Store} (h : s.Inv) (e u : Int) (ev : EventRow)
    (hev : EventRepository.findByIdForUpdate e s = some ev)
    (hav : 0 < ev.available_tickets)
    (hb : BookingRepository.findActiveByEventAndUser e u s = none)
    (hw : WaitingListRepository.findByEventAndUser e u s = none) :
    (EventRepository.decrementAvailableTickets e (BookingRepository.create e u s).2).2.Inv := by
  obtain ⟨hevm, hevid⟩ := findEvent_some hev
  have hpres : ∀ x : EventRow,
      (if x.id = e ∧ x.available_tickets > 0 then
        { x with available_tickets := x.available_tickets - 1 } else x).id = x.id := by
    intro x; split <;> rfl
  constructor
  · simp only [EventRepository.decrementAvailableTickets, BookingRepository.create]
    rw [map_key_of_preserving _ (fun x : EventRow => x.id) _ hpres]
    exact h.eventKeys
  · simpa [EventRepository.decrementAvailableTickets, BookingRepository.create]
      using keysSorted_append h.bookingKeys
  · exact h.waitingKeys
  · intro b hbm
    simp only [EventRepository.decrementAvailableTickets, BookingRepository.create,
      List.mem_append, List.mem_singleton] at hbm ⊢
    rcases hbm with hbm | rfl
    · exact exists_key_map s.events (fun x => x.id) _ hpres (h.bookingRefs b hbm)
    · exact exists_key_map s.events (fun x => x.id) _ hpres ⟨ev, hevm, hevid⟩
  · intro w hwm
    simp only [EventRepository.decrementAvailableTickets, BookingRepository.create]
    exact exists_key_map s.events (fun x => x.id) _ hpres (h.waitingRefs w hwm)
  · intro x hx
    simp only [EventRepository.decrementAvailableTickets, BookingRepository.create,
      List.mem_map] at hx
    obtain ⟨x0, hx0, rfl⟩ := hx
    have hc := h.conserved x0 hx0
    simp only [BookingRepository.countByEvent, EventRepository.decrementAvailableTickets,
      BookingRepository.create, List.countP_append, List.countP_cons, List.countP_nil,
      hpres] at hc ⊢
    by_cases hid : x0.id = e
    · have hx0ev : x0 = ev :=
        keysOk_unique s.events (fun x => x.id) _ (keysSorted_toKeysOk h.eventKeys) hx0 hevm
          (by simp [hid, hevid])
      subst hx0ev
      simp [hid, hav] at hc ⊢
      omega
    · have hne : ¬ e = x0.id := fun h => hid h.symm
      simp [hid, hne] at hc ⊢
      omega
  · intro e' u'
    have h0 := h.onePerUser e' u'
    have hb0 := find?_eq_none_countP _ _ hb
    have hw0 := find?_eq_none_countP _ _ hw
    simp only [confirmedFor, waitingFor, EventRepository.decrementAvailableTickets,
      BookingRepository.create, List.countP_append, List.countP_cons, List.countP_nil] at h0 ⊢
    by_cases h1 : e = e'
    · by_cases h2 : u = u'
      · subst h1 h2
        simp only [BookingRepository.findActiveByEventAndUser,
          WaitingListRepository.findByEventAndUser] at hb0 hw0
        rw [hb0, hw0]; simp
      · simp [h2] at h0 ⊢
        omega
    · simp [h1] at h0 ⊢
      omega
  · exact h.fifo

theorem Inv_waitlisted {s : Store} (h : s.Inv) (e u : Int) (ev : EventRow)
    (hev : EventRepository.findByIdForUpdate e s = some ev)
    (hb : BookingRepository.findActiveByEventAndUser e u s = none)
    (hw : WaitingListRepository.findByEventAndUser e u s = none) :
    (WaitingListRepository.add e u s).2.Inv := by
  obtain ⟨hevm, hevid⟩ := findEvent_some hev
  constructor
  · exact h.eventKeys
  · exact h.bookingKeys
  · simpa [WaitingListRepository.add] using keysSorted_append h.waitingKeys
  · exact h.bookingRefs
  · intro w hwm
    simp only [WaitingListRepository.add, List.mem_append, List.mem_singleton] at hwm ⊢
    rcases hwm with hwm | rfl
    · exact h.waitingRefs w hwm
    · exact ⟨ev, hevm, hevid⟩
  · exact h.conserved
  · intro e' u'
    have h0 := h.onePerUser e' u'
    have hb0 := find?_eq_none_countP _ _ hb
    have hw0 := find?_eq_none_countP _ _ hw
    simp only [confirmedFor, waitingFor, WaitingListRepository.add, List.countP_append,
      List.countP_cons, List.countP_nil] at h0 ⊢
    by_cases h1 : e = e'
    · by_cases h2 : u = u'
      · subst h1 h2
        simp only [BookingRepository.findActiveByEventAndUser,
          WaitingListRepository.findByEventAndUser] at hb0 hw0
        rw [hb0, hw0]; simp
      · simp [h2] at h0 ⊢
        omega
    · simp [h1] at h0 ⊢
      omega
  · simp only [WaitingListRepository.add]
    rw [List.pairwise_append]
    refine ⟨h.fifo, List.pairwise_singleton _ _, ?_⟩
    intro a ha x hx
    rw [List.mem_singleton] at hx
    subst hx
    intro hae hast _
    simp only at hae ⊢
    have hmem : a.position ∈ (WaitingListRepository.waitingOf e s).map (fun w => w.position) :=
      List.mem_map.2 ⟨a, mem_waitingOf.2 ⟨ha, hae, hast⟩, rfl⟩
    cases hmax : sqlMax ((WaitingListRepository.waitingOf e s).map (fun w => w.position)) with
    | none =>
      rw [sqlMax_eq_none.1 hmax] at hmem
      cases hmem
    | some m =>
      have := (sqlMax_spec hmax).2 _ hmem
      simp only [Option.getD_some]
      omega

theorem cancel_row_id (k : Int) (x : BookingRow) :
    (if x.id = k then { x with status := BookingStatus.cancelled } else x).id = x.id := by
  split <;> rfl

theorem cancel_row_event (k : Int) (x : BookingRow) :
    (if x.id = k then { x with status := BookingStatus.cancelled } else x).event_id
      = x.event_id := by
  split <;> rfl

theorem promote_row_id (k : Int) (x : WaitingRow) :
    (if x.id = k then { x with status := WaitingStatus.promoted } else x).id = x.id := by
  split <;> rfl

theorem promote_row_event (k : Int) (x : WaitingRow) :
    (if x.id = k then { x with status := WaitingStatus.promoted } else x).event_id
      = x.event_id := by
  split <;> rfl

/-- Cancelling the confirmed booking `b` takes one off the confirmed count of its
event and leaves the count of every other event alone. -/
theorem countByEvent_cancel {s : Store} (h : s.Inv) {k : Int} {b : BookingRow}
    (hb : BookingRepository.findByIdForUpdate k s = some b) (hst : b.status = .confirmed)
    (eid : Int) :
    (s.bookings.map (fun x =>
        if x.id = k then { x with status := BookingStatus.cancelled } else x)).countP
        (fun x => x.event_id = eid ∧ x.status = .confirmed)
      + (if b.event_id = eid then 1 else 0)
      = s.bookings.countP (fun x => x.event_id = eid ∧ x.status = .confirmed) := by
  obtain ⟨hbm, hbid⟩ := findBooking_some hb
  have := countP_update_key (fun x : BookingRow => x.event_id = eid ∧ x.status = .confirmed)
    s.bookings (fun x => x.id) _ (keysSorted_toKeysOk h.bookingKeys) hbm
    (fun x => { x with status := BookingStatus.cancelled })
  simp only [hbid] at this
  by_cases he : b.event_id = eid
  · simp [he, hst] at this ⊢
    omega
  · simp [he] at this ⊢
    omega

theorem confirmedFor_cancel_le (s : Store) (k e u : Int) :
    (s.bookings.map (fun x =>
        if x.id = k then { x with status := BookingStatus.cancelled } else x)).countP
        (fun x => x.event_id = e ∧ x.user_id = u ∧ x.status = .confirmed)
      ≤ confirmedFor e u s := by
  apply countP_map_le
  intro x
  by_cases hx : x.id = k <;> simp [hx]

theorem Inv_released {s : Store} (h : s.Inv) (k : Int) (b : BookingRow)
    (hb : BookingRepository.findByIdForUpdate k s = some b) (hst : b.status = .confirmed) :
    (EventRepository.incrementAvailableTickets b.event_id
      (BookingRepository.cancel k s).2).2.Inv := by
  have hpres : ∀ x : EventRow,
      (if x.id = b.event_id then
        { x with available_tickets := x.available_tickets + 1 } else x).id = x.id := by
    intro x; split <;> rfl
  constructor
  · simp only [EventRepository.incrementAvailableTickets, BookingRepository.cancel]
    rw [map_key_of_preserving _ (fun x : EventRow => x.id) _ hpres]
    exact h.eventKeys
  · simp only [EventRepository.incrementAvailableTickets, BookingRepository.cancel]
    rw [map_key_of_preserving _ (fun x : BookingRow => x.id) _ (cancel_row_id k)]
    exact h.bookingKeys
  · exact h.waitingKeys
  · intro x hx
    simp only [EventRepository.incrementAvailableTickets, BookingRepository.cancel,
      List.mem_map] at hx ⊢
    obtain ⟨x0, hx0, rfl⟩ := hx
    obtain ⟨e0, he0, hid⟩ := h.bookingRefs x0 hx0
    exact ⟨_, ⟨e0, he0, rfl⟩, by rw [hpres, cancel_row_event, hid]⟩
  · intro w hwm
    simp only [EventRepository.incrementAvailableTickets, BookingRepository.cancel]
    exact exists_key_map s.events (fun x => x.id) _ hpres (h.waitingRefs w hwm)
  · intro x hx
    simp only [EventRepository.incrementAvailableTickets, BookingRepository.cancel,
      List.mem_map] at hx
    obtain ⟨x0, hx0, rfl⟩ := hx
    have hc := h.conserved x0 hx0
    have hcount := countByEvent_cancel h hb hst x0.id
    simp only [BookingRepository.countByEvent, EventRepository.incrementAvailableTickets,
      BookingRepository.cancel, hpres] at hc ⊢
    by_cases hid : x0.id = b.event_id
    · have hid2 : b.event_id = x0.id := hid.symm
      rw [if_pos hid2] at hcount
      rw [if_pos hid]
      simp only
      omega
    · have hid2 : ¬ b.event_id = x0.id := fun h => hid h.symm
      rw [if_neg hid2] at hcount
      rw [if_neg hid]
      omega
  · intro e' u'
    have h0 := h.onePerUser e' u'
    have h1 := confirmedFor_cancel_le s k e' u'
    simp only [confirmedFor, waitingFor, EventRepository.incrementAvailableTickets,
      BookingRepository.cancel] at h0 h1 ⊢
    omega
  · exact h.fifo

theorem Inv_promoted {s : Store} (h : s.Inv) (k : Int) (b : BookingRow) (w : WaitingRow)
    (hb : BookingRepository.findByIdForUpdate k s = some b) (hst : b.status = .confirmed)
    (hw : WaitingListRepository.findNextInLine b.event_id s = some w) :
    (WaitingListRepository.promote w.id
      (BookingRepository.create b.event_id w.user_id
        (BookingRepository.cancel k s).2).2).2.Inv := by
  obtain ⟨hbm, hbid⟩ := findBooking_some hb
  obtain ⟨hwm, hwe, hws, _⟩ := findNextInLine_spec hw
  constructor
  · exact h.eventKeys
  · simp only [WaitingListRepository.promote, BookingRepository.create,
      BookingRepository.cancel, List.map_append, List.map_cons, List.map_nil]
    rw [map_key_of_preserving _ (fun x : BookingRow => x.id) _ (cancel_row_id k)]
    exact keysSorted_append h.bookingKeys
  · simp only [WaitingListRepository.promote, BookingRepository.create,
      BookingRepository.cancel]
    rw [map_key_of_preserving _ (fun x : WaitingRow => x.id) _ (promote_row_id w.id)]
    exact h.waitingKeys
  · intro x hx
    simp only [WaitingListRepository.promote, BookingRepository.create,
      BookingRepository.cancel, List.mem_append, List.mem_map, List.mem_singleton] at hx ⊢
    rcases hx with ⟨x0, hx0, rfl⟩ | rfl
    · rw [cancel_row_event]; exact h.bookingRefs x0 hx0
    · exact h.bookingRefs b hbm
  · intro x hx
    simp only [WaitingListRepository.promote, BookingRepository.create,
      BookingRepository.cancel, List.mem_map] at hx ⊢
    obtain ⟨x0, hx0, rfl⟩ := hx
    rw [promote_row_event]; exact h.waitingRefs x0 hx0
  · intro x hx
    have hc := h.conserved x hx
    have hcount := countByEvent_cancel h hb hst x.id
    simp only [BookingRepository.countByEvent, WaitingListRepository.promote,
      BookingRepository.create, BookingRepository.cancel, List.countP_append,
      List.countP_cons, List.countP_nil] at hc ⊢
    by_cases hid : b.event_id = x.id
    · simp [hid] at hc hcount ⊢
      omega
    · simp [hid] at hc hcount ⊢
      omega
  · intro e' u'
    have h0 := h.onePerUser e' u'
    have h1 := confirmedFor_cancel_le s k e' u'
    have hmono : ∀ x : WaitingRow,
        (decide ((if x.id = w.id then { x with status := WaitingStatus.promoted } else x).event_id
            = e' ∧
          (if x.id = w.id then { x with status := WaitingStatus.promoted } else x).user_id = u' ∧
          (if x.id = w.id then { x with status := WaitingStatus.promoted } else x).status
            = .waiting)) = true →
        (decide (x.event_id = e' ∧ x.user_id = u' ∧ x.status = .waiting)) = true := by
      intro x
      by_cases hx : x.id = w.id <;> simp [hx]
    have h2 := countP_map_le
      (fun x : WaitingRow => decide (x.event_id = e' ∧ x.user_id = u' ∧ x.status = .waiting))
      (fun x => if x.id = w.id then { x with status := WaitingStatus.promoted } else x)
      s.waiting_list hmono
    simp only [confirmedFor, waitingFor, WaitingListRepository.promote,
      BookingRepository.create, BookingRepository.cancel, List.countP_append,
      List.countP_cons, List.countP_nil] at h0 h1 ⊢
    by_cases hp1 : b.event_id = e'
    · by_cases hp2 : w.user_id = u'
      · have h3 := countP_map_lt
          (fun x : WaitingRow =>
            decide (x.event_id = e' ∧ x.user_id = u' ∧ x.status = .waiting))
          (fun x => if x.id = w.id then { x with status := WaitingStatus.promoted } else x)
          s.waiting_list hmono hwm (by simp [hwe, hp1, hp2, hws]) (by simp)
        simp [hp1, hp2] at h0 h1 h2 h3 ⊢
        omega
      · simp [hp2] at h0 h1 h2 ⊢
        omega
    · simp [hp1] at h0 h1 h2 ⊢
      omega
  · simp only [WaitingListRepository.promote, BookingRepository.create,
      BookingRepository.cancel]
    rw [List.pairwise_map]
    refine h.fifo.imp ?_
    intro x y hxy
    unfold queueOrdered at hxy ⊢
    intro he hsx hsy
    by_cases hx : x.id = w.id
    · simp [hx] at hsx
    · by_cases hy : y.id = w.id
      · simp [hy] at hsy
      · simp only [if_neg hx, if_neg hy] at he hsx hsy ⊢
        exact hxy he hsx hsy

theorem Inv_step {s t : Store} (h : s.Inv) (hst : Step s t) : t.Inv := by
  cases hst with
  | stay => exact h
  | created name n hn => exact Inv_created h name n hn
  | booked e u ev hev hav hb hw => exact Inv_booked h e u ev hev hav hb hw
  | waitlisted e u ev hev hav hb hw => exact Inv_waitlisted h e u ev hev hb hw
  | promoted k b w hb hst hw => exact Inv_promoted h k b w hb hst hw
  | released k b hb hst hw => exact Inv_released h k b hb hst

/-- Every store reachable by a serial execution satisfies the invariant. -/
theorem reachable_inv {s : Store} (h : Reachable s) : s.Inv :=
  reachable_induction Inv_empty (fun _ _ _ hi hstep => Inv_step hi hstep) s h

theorem reachable_wellFormed {s : Store} (h : Reachable s) : s.WellFormed :=
  inv_wellFormed (reachable_inv h)

/-- In a table whose keys increase in insertion order, a relation that holds from
each earlier row to each later row holds between any two rows in key order. -/
theorem pairwise_by_key {α : Type} (l : List α) (key : α → Int) (R : α → α → Prop)
    (hk : l.Pairwise (fun a b => key a < key b)) (hR : l.Pairwise R)
    {a b : α} (ha : a ∈ l) (hb : b ∈ l) (hab : key a < key b) : R a b := by
  have hboth : l.Pairwise (fun x y => (key x < key y → R x y) ∧ (key y < key x → R y x)) := by
    refine (hk.and hR).imp ?_
    rintro x y ⟨hlt, hr⟩
    exact ⟨fun _ => hr, fun hlt2 => absurd hlt2 (by omega)⟩
  have hsymm :
      Symmetric (fun x y : α => (key x < key y → R x y) ∧ (key y < key x → R y x)) :=
    fun x y hxy => ⟨hxy.2, hxy.1⟩
  have hrefl : ∀ x ∈ l, (key x < key x → R x x) ∧ (key x < key x → R x x) :=
    fun x _ => ⟨fun h => absurd h (lt_irrefl _), fun h => absurd h (lt_irrefl _)⟩
  exact (hboth.forall_of_forall hsymm hrefl ha hb).1 hab

theorem queuedStore_reachable : Reachable queuedStore := ⟨sampleCalls, by decide⟩

/-! ## The claims -/

/-- C1. No overselling: in every store reachable from the empty store by a serial
sequence of `initialize`, `book` and `cancel` calls, successful or failing,
every event row has `0 ≤ available_tickets ≤ total_tickets`. -/
theorem no_overselling (s : Store) (h : Reachable s) :
    ∀ e ∈ s.events, 0 ≤ e.available_tickets ∧ e.available_tickets ≤ e.total_tickets := by
  intro e he
  have := (reachable_inv h).conserved e he
  omega

/-- Witness for C1: the theorem applied to a concrete store. -/
theorem no_overselling_witness :
    Reachable queuedStore ∧
      ∀ e ∈ queuedStore.events,
        0 ≤ e.available_tickets ∧ e.available_tickets ≤ e.total_tickets :=
  ⟨queuedStore_reachable, no_overselling queuedStore queuedStore_reachable⟩

/-- C2. In every reachable store and for every pair `(e, u)`, user `u` has at most
one 'confirmed' booking for event `e`, at most one 'waiting' entry for it, and
never both a 'confirmed' booking and a 'waiting' entry. -/
theorem one_reservation_per_user (s : Store) (h : Reachable s) (e u : Int) :
    confirmedFor e u s ≤ 1 ∧ waitingFor e u s ≤ 1 ∧
      ¬ (0 < confirmedFor e u s ∧ 0 < waitingFor e u s) := by
  have := (reachable_inv h).onePerUser e u
  omega

/-- Witness for C2: the theorem applied to a concrete store. -/
theorem one_reservation_per_user_witness :
    confirmedFor 1 8 queuedStore ≤ 1 ∧ waitingFor 1 8 queuedStore ≤ 1 ∧
      ¬ (0 < confirmedFor 1 8 queuedStore ∧ 0 < waitingFor 1 8 queuedStore) :=
  one_reservation_per_user queuedStore queuedStore_reachable 1 8

/-- C3. In a well-formed store where event `ev` has a free ticket and user `u`
(an id that passes validation) has neither a confirmed booking nor a waiting
entry for it, `book` appends exactly one confirmed booking for `(ev.id, u)` with
the next booking id, lowers `available_tickets` of `ev` (and of no other row) by
one, leaves the waiting list as it is, commits, and returns
`{bookingId, eventId, userId, status: "confirmed"}` with that id. -/
theorem book_confirms_when_available (db : Store) (hwf : db.WellFormed)
    (ev : EventRow) (u : Int) (hu : u ≠ 0)
    (hev : ev ∈ db.events) (havail : 0 < ev.available_tickets)
    (hNoBooking : ∀ b ∈ db.bookings,
      ¬ (b.event_id = ev.id ∧ b.user_id = u ∧ b.status = .confirmed))
    (hNoWaiting : ∀ w ∈ db.waiting_list,
      ¬ (w.event_id = ev.id ∧ w.user_id = u ∧ w.status = .waiting)) :
    (BookingService.book (.number ev.id) (.number u) db).result
      = .ok (.booked db.nextBookingId (.number ev.id) (.number u) "confirmed") ∧
    (BookingService.book (.number ev.id) (.number u) db).db.bookings
      = db.bookings ++ [{ id := db.nextBookingId, event_id := ev.id, user_id := u,
                          status := .confirmed }] ∧
    (BookingService.book (.number ev.id) (.number u) db).db.events
      = db.events.map (fun x =>
          if x = ev then { ev with available_tickets := ev.available_tickets - 1 } else x) ∧
    (BookingService.book (.number ev.id) (.number u) db).db.waiting_list
      = db.waiting_list ∧
    (BookingService.book (.number ev.id) (.number u) db).calls
      = [.getConnection, .beginTransaction, .commit, .release] := by
  have he : ev.id ≠ 0 := keysOk_pos db.events (fun x => x.id) _ hwf.1 hev
  have hfind := findEvent_of_mem db hwf hev
  have hb : BookingRepository.findActiveByEventAndUser ev.id u db = none := by
    simp only [BookingRepository.findActiveByEventAndUser, List.find?_eq_none]
    intro b hb; simpa using hNoBooking b hb
  have hw : WaitingListRepository.findByEventAndUser ev.id u db = none := by
    simp only [WaitingListRepository.findByEventAndUser, List.find?_eq_none]
    intro w hw; simpa using hNoWaiting w hw
  have hmap : db.events.map (fun x =>
        if x.id = ev.id ∧ x.available_tickets > 0 then
          { x with available_tickets := x.available_tickets - 1 } else x)
      = db.events.map (fun x =>
          if x = ev then { ev with available_tickets := ev.available_tickets - 1 } else x) := by
    apply List.map_congr_left
    intro x hx
    by_cases hk : x.id = ev.id
    · have := keysOk_unique db.events (fun x => x.id) _ hwf.1 hx hev hk
      subst this; simp [havail]
    · have : x ≠ ev := fun hxa => hk (by rw [hxa])
      simp [hk, this]
  rw [book_unfold ev.id u he hu]
  simp [BookingService.bookTry, JsValue.sqlInt, hfind, hb, hw, havail, Outcome.settle,
    Connection.commit, Connection.release, Connection.execute, BookingRepository.create,
    EventRepository.decrementAvailableTickets, hmap]

/-- Witness for C3: the theorem applied to a concrete store. -/
theorem book_confirms_when_available_witness :
    (BookingService.book (.number 1) (.number 8) openStore).result
      = .ok (.booked 2 (.number 1) (.number 8) "confirmed") ∧
    (BookingService.book (.number 1) (.number 8) openStore).db.bookings
      = openStore.bookings ++ [{ id := 2, event_id := 1, user_id := 8, status := .confirmed }] ∧
    (BookingService.book (.number 1) (.number 8) openStore).db.events
      = openStore.events.map (fun x =>
          if x = { id := 1, name := "Concert", total_tickets := 2, available_tickets := 1 }
          then { id := 1, name := "Concert", total_tickets := 2, available_tickets := 1 - 1 }
          else x) ∧
    (BookingService.book (.number 1) (.number 8) openStore).db.waiting_list
      = openStore.waiting_list ∧
    (BookingService.book (.number 1) (.number 8) openStore).calls
      = [.getConnection, .beginTransaction, .commit, .release] :=
  book_confirms_when_available openStore (by decide)
    { id := 1, name := "Concert", total_tickets := 2, available_tickets := 1 } 8
    (by decide) (by decide) (by decide) (by decide) (by decide)

/-- C4. In a well-formed store where event `ev` has `available_tickets = 0` and
user `u` (an id that passes validation) has neither a confirmed booking nor a
waiting entry for it, `book` creates no booking, changes no event row, appends
exactly one 'waiting' entry for `(ev.id, u)` with the next waiting-list id whose
position is 1 when the event has no 'waiting' entry and otherwise one more than
the greatest position among them, commits, and returns the entry's id and
position with a message containing "waiting list". -/
theorem book_waitlists_when_sold_out (db : Store) (hwf : db.WellFormed)
    (ev : EventRow) (u : Int) (hu : u ≠ 0)
    (hev : ev ∈ db.events) (havail : ev.available_tickets = 0)
    (hNoBooking : ∀ b ∈ db.bookings,
      ¬ (b.event_id = ev.id ∧ b.user_id = u ∧ b.status = .confirmed))
    (hNoWaiting : ∀ w ∈ db.waiting_list,
      ¬ (w.event_id = ev.id ∧ w.user_id = u ∧ w.status = .waiting)) :
    ∃ (position : Int) (message : String),
      (BookingService.book (.number ev.id) (.number u) db).result
        = .ok (.waitlisted db.nextWaitingId (.number ev.id) (.number u) position message) ∧
      (∃ pre post : String, message = pre ++ "waiting list" ++ post) ∧
      ((∀ w ∈ db.waiting_list, ¬ (w.event_id = ev.id ∧ w.status = .waiting)) →
        position = 1) ∧
      ((∃ w ∈ db.waiting_list, w.event_id = ev.id ∧ w.status = .waiting) →
        ∃ m ∈ db.waiting_list, m.event_id = ev.id ∧ m.status = .waiting ∧
          (∀ w ∈ db.waiting_list, w.event_id = ev.id → w.status = .waiting →
            w.position ≤ m.position) ∧
          position = m.position + 1) ∧
      (BookingService.book (.number ev.id) (.number u) db).db.waiting_list
        = db.waiting_list ++ [{ id := db.nextWaitingId, event_id := ev.id, user_id := u,
                                position := position, status := .waiting }] ∧
      (BookingService.book (.number ev.id) (.number u) db).db.bookings = db.bookings ∧
      (BookingService.book (.number ev.id) (.number u) db).db.events = db.events ∧
      (BookingService.book (.number ev.id) (.number u) db).calls
        = [.getConnection, .beginTransaction, .commit, .release] := by
  have he : ev.id ≠ 0 := keysOk_pos db.events (fun x => x.id) _ hwf.1 hev
  have hfind := findEvent_of_mem db hwf hev
  have hb : BookingRepository.findActiveByEventAndUser ev.id u db = none := by
    simp only [BookingRepository.findActiveByEventAndUser, List.find?_eq_none]
    intro b hb; simpa using hNoBooking b hb
  have hw : WaitingListRepository.findByEventAndUser ev.id u db = none := by
    simp only [WaitingListRepository.findByEventAndUser, List.find?_eq_none]
    intro w hw; simpa using hNoWaiting w hw
  refine ⟨(sqlMax ((WaitingListRepository.waitingOf ev.id db).map
      (fun w => w.position))).getD 0 + 1,
    "Event is sold out. You have been added to the waiting list.", ?_,
    ⟨"Event is sold out. You have been added to the ", ".", by decide⟩, ?_, ?_, ?_⟩
  · rw [book_unfold ev.id u he hu]
    simp [BookingService.bookTry, JsValue.sqlInt, hfind, hb, hw, havail, Outcome.settle,
      Connection.commit, Connection.release, Connection.execute, WaitingListRepository.add]
  · intro hnone
    have : WaitingListRepository.waitingOf ev.id db = [] := by
      rw [List.eq_nil_iff_forall_not_mem]
      intro w hw
      rw [mem_waitingOf] at hw
      exact hnone w hw.1 hw.2
    simp [this, sqlMax]
  · rintro ⟨w, hwm, hwe, hws⟩
    cases hmax : sqlMax ((WaitingListRepository.waitingOf ev.id db).map
        (fun w => w.position)) with
    | none =>
      have := sqlMax_eq_none.1 hmax
      simp only [List.map_eq_nil_iff] at this
      have hmem : w ∈ WaitingListRepository.waitingOf ev.id db :=
        mem_waitingOf.2 ⟨hwm, hwe, hws⟩
      rw [this] at hmem; cases hmem
    | some m =>
      obtain ⟨hm, hle⟩ := sqlMax_spec hmax
      obtain ⟨mw, hmw, rfl⟩ := List.mem_map.1 hm
      rw [mem_waitingOf] at hmw
      refine ⟨mw, hmw.1, hmw.2.1, hmw.2.2, ?_, by simp⟩
      intro w2 hw2 he2 hs2
      exact hle _ (List.mem_map.2 ⟨w2, mem_waitingOf.2 ⟨hw2, he2, hs2⟩, rfl⟩)
  · rw [book_unfold ev.id u he hu]
    simp [BookingService.bookTry, JsValue.sqlInt, hfind, hb, hw, havail, Outcome.settle,
      Connection.commit, Connection.release, Connection.execute, WaitingListRepository.add]

/-- Witness for C4: the theorem applied to a concrete store. -/
theorem book_waitlists_when_sold_out_witness :
    ∃ (position : Int) (message : String),
      (BookingService.book (.number 1) (.number 10) queuedStore).result
        = .ok (.waitlisted 3 (.number 1) (.number 10) position message) ∧
      (∃ pre post : String, message = pre ++ "waiting list" ++ post) ∧
      ((∀ w ∈ queuedStore.waiting_list, ¬ (w.event_id = 1 ∧ w.status = .waiting)) →
        position = 1) ∧
      ((∃ w ∈ queuedStore.waiting_list, w.event_id = 1 ∧ w.status = .waiting) →
        ∃ m ∈ queuedStore.waiting_list, m.event_id = 1 ∧ m.status = .waiting ∧
          (∀ w ∈ queuedStore.waiting_list, w.event_id = 1 → w.status = .waiting →
            w.position ≤ m.position) ∧
          position = m.position + 1) ∧
      (BookingService.book (.number 1) (.number 10) queuedStore).db.waiting_list
        = queuedStore.waiting_list ++ [{ id := 3, event_id := 1, user_id := 10,
                                         position := position, status := .waiting }] ∧
      (BookingService.book (.number 1) (.number 10) queuedStore).db.bookings
        = queuedStore.bookings ∧
      (BookingService.book (.number 1) (.number 10) queuedStore).db.events
        = queuedStore.events ∧
      (BookingService.book (.number 1) (.number 10) queuedStore).calls
        = [.getConnection, .beginTransaction, .commit, .release] :=
  book_waitlists_when_sold_out queuedStore (by decide)
    { id := 1, name := "Concert", total_tickets := 1, available_tickets := 0 } 10
    (by decide) (by decide) (by decide) (by decide) (by decide)

/-- C5. In a well-formed store where booking `b` is 'confirmed' and its event has
a 'waiting' entry, `cancel b.id` marks `b` (and no other booking) 'cancelled',
marks 'promoted' one 'waiting' entry `w` of that event (and no other entry)
whose position is the smallest among the event's 'waiting' entries, appends
exactly one 'confirmed' booking for `w.user_id` on the same event, leaves the
events table (so `available_tickets`) unchanged, commits, and returns
`reassigned = true` with `reassignedTo = {userId: w.user_id, bookingId}` where
`bookingId` is the id of the appended booking. -/
theorem cancel_promotes_head_of_queue (db : Store) (hwf : db.WellFormed)
    (b : BookingRow) (hb : b ∈ db.bookings) (hconf : b.status = .confirmed)
    (hqueue : ∃ x ∈ db.waiting_list, x.event_id = b.event_id ∧ x.status = .waiting) :
    ∃ w ∈ db.waiting_list,
      w.event_id = b.event_id ∧ w.status = .waiting ∧
      (∀ x ∈ db.waiting_list, x.event_id = b.event_id → x.status = .waiting →
        w.position ≤ x.position) ∧
      (BookingService.cancel (.number b.id) db).result
        = .ok { message := "Booking cancelled successfully", reassigned := true,
                reassignedTo := some { userId := w.user_id,
                                       bookingId := db.nextBookingId } } ∧
      (BookingService.cancel (.number b.id) db).db.bookings
        = db.bookings.map (fun x => if x = b then { b with status := .cancelled } else x)
          ++ [{ id := db.nextBookingId, event_id := b.event_id, user_id := w.user_id,
                status := .confirmed }] ∧
      (BookingService.cancel (.number b.id) db).db.waiting_list
        = db.waiting_list.map (fun x => if x = w then { w with status := .promoted } else x) ∧
      (BookingService.cancel (.number b.id) db).db.events = db.events ∧
      (BookingService.cancel (.number b.id) db).calls
        = [.getConnection, .beginTransaction, .commit, .release] := by
  have hk : b.id ≠ 0 := keysOk_pos db.bookings (fun x => x.id) _ hwf.2.1 hb
  have hfind := findBooking_of_mem db hwf hb
  have hst : b.status ≠ .cancelled := by rw [hconf]; decide
  cases hnext : WaitingListRepository.findNextInLine b.event_id db with
  | none =>
    obtain ⟨x, hx, hxe, hxs⟩ := hqueue
    exact absurd ⟨hxe, hxs⟩ (findNextInLine_eq_none.1 hnext x hx)
  | some w =>
    obtain ⟨hwm, hwe, hws, hwle⟩ := findNextInLine_spec hnext
    have hnext2 : WaitingListRepository.findNextInLine b.event_id
        (BookingRepository.cancel b.id db).2 = some w := hnext
    have hmapb := map_key_eq db.bookings (fun x => x.id) _ hwf.2.1 hb
      (fun x => { x with status := .cancelled })
    have hmapw := map_key_eq db.waiting_list (fun x => x.id) _ hwf.2.2 hwm
      (fun x => { x with status := .promoted })
    simp only at hmapb hmapw
    refine ⟨w, hwm, hwe, hws, hwle, ?_⟩
    rw [cancel_unfold b.id hk]
    simp [BookingService.cancelTry, JsValue.sqlInt, hfind, hst, hnext2, Outcome.settle,
      Connection.commit, Connection.release, Connection.execute, BookingRepository.create,
      WaitingListRepository.promote]
    simp [BookingRepository.cancel, hmapb, hmapw]

/-- Witness for C5: the theorem applied to a concrete store. -/
theorem cancel_promotes_head_of_queue_witness :
    ∃ w ∈ queuedStore.waiting_list,
      w.event_id = 1 ∧ w.status = .waiting ∧
      (∀ x ∈ queuedStore.waiting_list, x.event_id = 1 → x.status = .waiting →
        w.position ≤ x.position) ∧
      (BookingService.cancel (.number 2) queuedStore).result
        = .ok { message := "Booking cancelled successfully", reassigned := true,
                reassignedTo := some { userId := w.user_id, bookingId := 3 } } ∧
      (BookingService.cancel (.number 2) queuedStore).db.bookings
        = queuedStore.bookings.map (fun x =>
            if x = { id := 2, event_id := 1, user_id := 8, status := .confirmed }
            then { id := 2, event_id := 1, user_id := 8, status := .cancelled } else x)
          ++ [{ id := 3, event_id := 1, user_id := w.user_id, status := .confirmed }] ∧
      (BookingService.cancel (.number 2) queuedStore).db.waiting_list
        = queuedStore.waiting_list.map (fun x =>
            if x = w then { w with status := .promoted } else x) ∧
      (BookingService.cancel (.number 2) queuedStore).db.events = queuedStore.events ∧
      (BookingService.cancel (.number 2) queuedStore).calls
        = [.getConnection, .beginTransaction, .commit, .release] :=
  cancel_promotes_head_of_queue queuedStore (by decide)
    { id := 2, event_id := 1, user_id := 8, status := .confirmed }
    (by decide) (by decide) (by decide)

/-- C6. In a well-formed store where booking `b` is 'confirmed', its event row is
`ev`, and that event has no 'waiting' entry, `cancel b.id` marks `b` (and no
other booking) 'cancelled', raises `available_tickets` of `ev` (and of no other
row) by one, creates no booking, changes no waiting-list entry, commits, and
returns `{message, reassigned: false, reassignedTo: null}`. -/
theorem cancel_releases_ticket_when_queue_empty (db : Store) (hwf : db.WellFormed)
    (b : BookingRow) (hb : b ∈ db.bookings) (hconf : b.status = .confirmed)
    (ev : EventRow) (hev : ev ∈ db.events) (hid : ev.id = b.event_id)
    (hempty : ∀ x ∈ db.waiting_list, ¬ (x.event_id = b.event_id ∧ x.status = .waiting)) :
    (BookingService.cancel (.number b.id) db).result
      = .ok { message := "Booking cancelled successfully", reassigned := false,
              reassignedTo := none } ∧
    (BookingService.cancel (.number b.id) db).db.bookings
      = db.bookings.map (fun x => if x = b then { b with status := .cancelled } else x) ∧
    (BookingService.cancel (.number b.id) db).db.events
      = db.events.map (fun x =>
          if x = ev then { ev with available_tickets := ev.available_tickets + 1 } else x) ∧
    (BookingService.cancel (.number b.id) db).db.waiting_list = db.waiting_list ∧
    (BookingService.cancel (.number b.id) db).calls
      = [.getConnection, .beginTransaction, .commit, .release] := by
  have hk : b.id ≠ 0 := keysOk_pos db.bookings (fun x => x.id) _ hwf.2.1 hb
  have hfind := findBooking_of_mem db hwf hb
  have hst : b.status ≠ .cancelled := by rw [hconf]; decide
  have hnext : WaitingListRepository.findNextInLine b.event_id
      (BookingRepository.cancel b.id db).2 = none := findNextInLine_eq_none.2 hempty
  have hmapb := map_key_eq db.bookings (fun x => x.id) _ hwf.2.1 hb
    (fun x => { x with status := .cancelled })
  have hmape := map_key_eq db.events (fun x => x.id) _ hwf.1 hev
    (fun x => { x with available_tickets := x.available_tickets + 1 })
  simp only at hmapb hmape
  rw [hid] at hmape
  rw [cancel_unfold b.id hk]
  simp [BookingService.cancelTry, JsValue.sqlInt, hfind, hst, hnext, Outcome.settle,
    Connection.commit, Connection.release, Connection.execute,
    EventRepository.incrementAvailableTickets]
  simp [BookingRepository.cancel, hmapb, hmape, hid]

/-- Witness for C6: the theorem applied to a concrete store. -/
theorem cancel_releases_ticket_when_queue_empty_witness :
    (BookingService.cancel (.number 1) openStore).result
      = .ok { message := "Booking cancelled successfully", reassigned := false,
              reassignedTo := none } ∧
    (BookingService.cancel (.number 1) openStore).db.bookings
      = openStore.bookings.map (fun x =>
          if x = { id := 1, event_id := 1, user_id := 7, status := .confirmed }
          then { id := 1, event_id := 1, user_id := 7, status := .cancelled } else x) ∧
    (BookingService.cancel (.number 1) openStore).db.events
      = openStore.events.map (fun x =>
          if x = { id := 1, name := "Concert", total_tickets := 2, available_tickets := 1 }
          then { id := 1, name := "Concert", total_tickets := 2, available_tickets := 1 + 1 }
          else x) ∧
    (BookingService.cancel (.number 1) openStore).db.waiting_list = openStore.waiting_list ∧
    (BookingService.cancel (.number 1) openStore).calls
      = [.getConnection, .beginTransaction, .commit, .release] :=
  cancel_releases_ticket_when_queue_empty openStore (by decide)
    { id := 1, event_id := 1, user_id := 7, status := .confirmed } (by decide) (by decide)
    { id := 1, name := "Concert", total_tickets := 2, available_tickets := 1 }
    (by decide) (by decide) (by decide)

/-- C7. In every reachable store the rows of `waiting_list` stand in creation
order with increasing ids, and an earlier row has the smaller position whenever
both rows are 'waiting' for the same event. So two distinct 'waiting' entries of
one event have different positions, the one created first (smaller id) has the
smaller position, and the entry `findNextInLine` hands to `cancel` is the
earliest created entry still 'waiting' for the event. -/
theorem waiting_positions_fifo (s : Store) (h : Reachable s) :
    s.waiting_list.Pairwise (fun a b => a.id < b.id ∧ queueOrdered a b) ∧
    (∀ a ∈ s.waiting_list, ∀ b ∈ s.waiting_list,
      a.status = .waiting → b.status = .waiting → a.event_id = b.event_id →
        (a ≠ b → a.position ≠ b.position) ∧ (a.id < b.id → a.position < b.position)) ∧
    (∀ (e : Int) (w : WaitingRow), WaitingListRepository.findNextInLine e s = some w →
      ∀ x ∈ s.waiting_list, x.event_id = e → x.status = .waiting → w.id ≤ x.id) := by
  have hinv := reachable_inv h
  have hk : s.waiting_list.Pairwise (fun a b => a.id < b.id) := by
    have := hinv.waitingKeys.1
    rwa [List.pairwise_map] at this
  have hord : ∀ a ∈ s.waiting_list, ∀ b ∈ s.waiting_list,
      a.status = .waiting → b.status = .waiting → a.event_id = b.event_id →
        a.id < b.id → a.position < b.position := by
    intro a ha b hb hsa hsb he hlt
    exact pairwise_by_key s.waiting_list (fun x => x.id) queueOrdered hk hinv.fifo ha hb hlt
      he hsa hsb
  refine ⟨hk.and hinv.fifo, ?_, ?_⟩
  · intro a ha b hb hsa hsb he
    refine ⟨?_, hord a ha b hb hsa hsb he⟩
    intro hne hpos
    have hid : a.id ≠ b.id := fun hid =>
      hne (keysOk_unique s.waiting_list (fun x => x.id) _
        (keysSorted_toKeysOk hinv.waitingKeys) ha hb hid)
    rcases lt_or_gt_of_ne hid with hlt | hgt
    · have := hord a ha b hb hsa hsb he hlt; omega
    · have := hord b hb a ha hsb hsa he.symm hgt; omega
  · intro e w hw x hx hxe hxs
    obtain ⟨hwm, hwe, hws, hmin⟩ := findNextInLine_spec hw
    by_contra hlt
    have hlt2 : x.id < w.id := by omega
    have := hord x hx w hwm hxs hws (by rw [hxe, hwe]) hlt2
    have := hmin x hx hxe hxs
    omega

/-- Witness for C7: the theorem applied to a concrete store. -/
theorem waiting_positions_fifo_witness :
    queuedStore.waiting_list.Pairwise (fun a b => a.id < b.id ∧ queueOrdered a b) ∧
    (∀ a ∈ queuedStore.waiting_list, ∀ b ∈ queuedStore.waiting_list,
      a.status = .waiting → b.status = .waiting → a.event_id = b.event_id →
        (a ≠ b → a.position ≠ b.position) ∧ (a.id < b.id → a.position < b.position)) ∧
    (∀ (e : Int) (w : WaitingRow),
      WaitingListRepository.findNextInLine e queuedStore = some w →
      ∀ x ∈ queuedStore.waiting_list, x.event_id = e → x.status = .waiting →
        w.id ≤ x.id) :=
  waiting_positions_fifo queuedStore queuedStore_reachable

/-- C8. In a well-formed store where event `ev` exists and user `u` (an id that
passes validation) already has a confirmed booking or a 'waiting' entry for it,
`book` fails with `ConflictError`, rolls back without ever committing, and
leaves the whole store (ticket counts, bookings, waiting list) as it was. -/
theorem book_duplicate_conflict (db : Store) (hwf : db.WellFormed)
    (ev : EventRow) (u : Int) (hu : u ≠ 0) (hev : ev ∈ db.events)
    (hdup : (∃ b ∈ db.bookings,
               b.event_id = ev.id ∧ b.user_id = u ∧ b.status = .confirmed) ∨
            (∃ w ∈ db.waiting_list,
               w.event_id = ev.id ∧ w.user_id = u ∧ w.status = .waiting)) :
    (∃ message : String,
      (BookingService.book (.number ev.id) (.number u) db).result
        = .error ⟨.ConflictError, message⟩) ∧
    (BookingService.book (.number ev.id) (.number u) db).db = db ∧
    (BookingService.book (.number ev.id) (.number u) db).calls
      = [.getConnection, .beginTransaction, .rollback, .rollback, .release] := by
  have he : ev.id ≠ 0 := keysOk_pos db.events (fun x => x.id) _ hwf.1 hev
  have hfind := findEvent_of_mem db hwf hev
  rw [book_unfold ev.id u he hu]
  cases hb : BookingRepository.findActiveByEventAndUser ev.id u db with
  | some b =>
    simp [BookingService.bookTry, JsValue.sqlInt, hfind, hb, Outcome.settle,
      Connection.rollback, Connection.release]
  | none =>
    have hw : ∃ w, WaitingListRepository.findByEventAndUser ev.id u db = some w := by
      rcases hdup with ⟨b, hbm, hbp⟩ | ⟨w, hwm, hwp⟩
      · simp only [BookingRepository.findActiveByEventAndUser, List.find?_eq_none] at hb
        exact absurd (by simpa using hbp) (hb b hbm)
      · cases hw : WaitingListRepository.findByEventAndUser ev.id u db with
        | some w0 => exact ⟨w0, rfl⟩
        | none =>
          simp only [WaitingListRepository.findByEventAndUser, List.find?_eq_none] at hw
          exact absurd (by simpa using hwp) (hw w hwm)
    obtain ⟨w, hw⟩ := hw
    simp [BookingService.bookTry, JsValue.sqlInt, hfind, hb, hw, Outcome.settle,
      Connection.rollback, Connection.release]

/-- Witness for C8: the theorem applied to a concrete store. -/
theorem book_duplicate_conflict_witness :
    (∃ message : String,
      (BookingService.book (.number 1) (.number 8) queuedStore).result
        = .error ⟨.ConflictError, message⟩) ∧
    (BookingService.book (.number 1) (.number 8) queuedStore).db = queuedStore ∧
    (BookingService.book (.number 1) (.number 8) queuedStore).calls
      = [.getConnection, .beginTransaction, .rollback, .rollback, .release] :=
  book_duplicate_conflict queuedStore (by decide)
    { id := 1, name := "Concert", total_tickets := 1, available_tickets := 0 } 8
    (by decide) (by decide) (by decide)

/-- C9. For all `eventId` and `userId` that are numbers and pass validation, if
no event row has id `eventId` then `book` fails with `NotFoundError`, rolls
back, never commits, and leaves the whole store as it was. -/
theorem book_event_not_found (eventId userId : JsValue) (db : Store)
    (hE : passesValidation eventId) (hU : passesValidation userId)
    (hNone : ∀ ev ∈ db.events, ev.id ≠ eventId.sqlInt) :
    (BookingService.book eventId userId db).result
        = .error ⟨.NotFoundError, "Event not found"⟩ ∧
    (BookingService.book eventId userId db).db = db ∧
    ConnCall.rollback ∈ (BookingService.book eventId userId db).calls ∧
    ConnCall.commit ∉ (BookingService.book eventId userId db).calls := by
  obtain ⟨e, he, rfl⟩ := (passesValidation_iff eventId).1 hE
  obtain ⟨u, hu, rfl⟩ := (passesValidation_iff userId).1 hU
  have hfind : EventRepository.findByIdForUpdate e db = none := by
    simp only [EventRepository.findByIdForUpdate, List.find?_eq_none]
    intro ev hev; simpa [JsValue.sqlInt] using hNone ev hev
  rw [book_unfold e u he hu]
  simp [BookingService.bookTry, JsValue.sqlInt, hfind, Outcome.settle, Connection.rollback,
    Connection.release]

/-- Witness for C9: the theorem applied to a concrete store. -/
theorem book_event_not_found_witness :
    (BookingService.book (.number 5) (.number (-3)) queuedStore).result
        = .error ⟨.NotFoundError, "Event not found"⟩ ∧
    (BookingService.book (.number 5) (.number (-3)) queuedStore).db = queuedStore ∧
    ConnCall.rollback ∈ (BookingService.book (.number 5) (.number (-3)) queuedStore).calls ∧
    ConnCall.commit ∉ (BookingService.book (.number 5) (.number (-3)) queuedStore).calls :=
  book_event_not_found (.number 5) (.number (-3)) queuedStore (by decide) (by decide)
    (by decide)

/-- C10. With a `bookingId` that passes validation, `cancel` fails with
`NotFoundError` when no booking row has that id, and with `ConflictError` when
the booking with that id is already 'cancelled'; either way nothing is
committed and the whole store (ticket counts, bookings, waiting list) is as it
was. -/
theorem cancel_rejects_missing_or_cancelled (db : Store) (hwf : db.WellFormed)
    (k : Int) (hk : k ≠ 0)
    (hcase : (∀ b ∈ db.bookings, b.id ≠ k) ∨
             (∃ b ∈ db.bookings, b.id = k ∧ b.status = .cancelled)) :
    ((∀ b ∈ db.bookings, b.id ≠ k) →
      (BookingService.cancel (.number k) db).result
        = .error ⟨.NotFoundError, "Booking not found"⟩) ∧
    ((∃ b ∈ db.bookings, b.id = k ∧ b.status = .cancelled) →
      (BookingService.cancel (.number k) db).result
        = .error ⟨.ConflictError, "Booking is already cancelled"⟩) ∧
    (BookingService.cancel (.number k) db).db = db ∧
    ConnCall.commit ∉ (BookingService.cancel (.number k) db).calls := by
  have hmissing : (∀ b ∈ db.bookings, b.id ≠ k) →
      BookingRepository.findByIdForUpdate k db = none := by
    intro h
    simp only [BookingRepository.findByIdForUpdate, List.find?_eq_none]
    intro b hb; simpa using h b hb
  have hfound : ∀ b ∈ db.bookings, b.id = k →
      BookingRepository.findByIdForUpdate k db = some b := by
    intro b hb hid
    rw [← hid]; exact findBooking_of_mem db hwf hb
  rw [cancel_unfold k hk]
  refine ⟨?_, ?_, ?_, ?_⟩
  · intro h
    simp [BookingService.cancelTry, JsValue.sqlInt, hmissing h, Outcome.settle]
  · rintro ⟨b, hb, hid, hst⟩
    simp [BookingService.cancelTry, JsValue.sqlInt, hfound b hb hid, hst, Outcome.settle]
  · rcases hcase with h | ⟨b, hb, hid, hst⟩
    · simp [BookingService.cancelTry, JsValue.sqlInt, hmissing h, Outcome.settle,
        Connection.rollback, Connection.release]
    · simp [BookingService.cancelTry, JsValue.sqlInt, hfound b hb hid, hst, Outcome.settle,
        Connection.rollback, Connection.release]
  · rcases hcase with h | ⟨b, hb, hid, hst⟩
    · simp [BookingService.cancelTry, JsValue.sqlInt, hmissing h, Outcome.settle,
        Connection.rollback, Connection.release]
    · simp [BookingService.cancelTry, JsValue.sqlInt, hfound b hb hid, hst, Outcome.settle,
        Connection.rollback, Connection.release]

/-- Witness for C10: the theorem applied to a concrete store. -/
theorem cancel_rejects_missing_or_cancelled_witness :
    (((∀ b ∈ queuedStore.bookings, b.id ≠ 1) →
      (BookingService.cancel (.number 1) queuedStore).result
        = .error ⟨.NotFoundError, "Booking not found"⟩) ∧
    ((∃ b ∈ queuedStore.bookings, b.id = 1 ∧ b.status = .cancelled) →
      (BookingService.cancel (.number 1) queuedStore).result
        = .error ⟨.ConflictError, "Booking is already cancelled"⟩) ∧
    (BookingService.cancel (.number 1) queuedStore).db = queuedStore ∧
    ConnCall.commit ∉ (BookingService.cancel (.number 1) queuedStore).calls) ∧
    (((∀ b ∈ queuedStore.bookings, b.id ≠ 99) →
      (BookingService.cancel (.number 99) queuedStore).result
        = .error ⟨.NotFoundError, "Booking not found"⟩) ∧
    ((∃ b ∈ queuedStore.bookings, b.id = 99 ∧ b.status = .cancelled) →
      (BookingService.cancel (.number 99) queuedStore).result
        = .error ⟨.ConflictError, "Booking is already cancelled"⟩) ∧
    (BookingService.cancel (.number 99) queuedStore).db = queuedStore ∧
    ConnCall.commit ∉ (BookingService.cancel (.number 99) queuedStore).calls) :=
  ⟨cancel_rejects_missing_or_cancelled queuedStore (by decide) 1 (by decide) (by decide),
   cancel_rejects_missing_or_cancelled queuedStore (by decide) 99 (by decide) (by decide)⟩

/-- C11 (counterexample). Negative ids are not positive identifiers, yet they pass
the guard: `book(-1, -2)` and `cancel(-1)` on the empty store fail with
`NotFoundError`, not `ValidationError`, and `book(1, -3)` on a store with a free
ticket confirms a booking for user `-3`. -/
theorem negative_ids_pass_validation :
    (BookingService.book (.number (-1)) (.number (-2)) Store.empty).result
      = .error ⟨.NotFoundError, "Event not found"⟩ ∧
    (BookingService.cancel (.number (-1)) Store.empty).result
      = .error ⟨.NotFoundError, "Booking not found"⟩ ∧
    (BookingService.book (.number 1) (.number (-3)) openStore).result
      = .ok (.booked 2 (.number 1) (.number (-3)) "confirmed") := by
  refine ⟨rfl, rfl, rfl⟩

theorem lineStore_reachable : Reachable lineStore :=
  ⟨[.initializeEvent (.string "Concert") (.number 1), .book (.number 1) (.number 7),
    .book (.number 1) (.number 8), .book (.number 1) (.number 9)], by decide⟩

/-- C19 (counterexample). After user 8 was promoted off the waiting list of event
1 and user 9 then queued, the reachable store holds two distinct waiting-list
entries of event 1 that both have position 1. -/
theorem promoted_and_waiting_share_position :
    Reachable (runCalls requeueCalls Store.empty) ∧
    ∃ a ∈ (runCalls requeueCalls Store.empty).waiting_list,
      ∃ b ∈ (runCalls requeueCalls Store.empty).waiting_list,
        a ≠ b ∧ a.event_id = b.event_id ∧ a.position = b.position := by
  refine ⟨⟨requeueCalls, rfl⟩,
    { id := 1, event_id := 1, user_id := 8, position := 1, status := .promoted }, by decide,
    { id := 2, event_id := 1, user_id := 9, position := 1, status := .waiting }, by decide,
    by decide, rfl, rfl⟩

/-- C19 (amended). In every reachable store, two distinct waiting-list entries of
the same event that both have status 'waiting' have different positions. -/
theorem waiting_entries_have_distinct_positions (s : Store) (h : Reachable s)
    (a b : WaitingRow) (ha : a ∈ s.waiting_list) (hb : b ∈ s.waiting_list)
    (hne : a ≠ b) (he : a.event_id = b.event_id)
    (hsa : a.status = .waiting) (hsb : b.status = .waiting) :
    a.position ≠ b.position := by
  have hinv := reachable_inv h
  have hk : s.waiting_list.Pairwise (fun x y => x.id < y.id) := by
    have := hinv.waitingKeys.1
    rwa [List.pairwise_map] at this
  have hid : a.id ≠ b.id := fun hid =>
    hne (keysOk_unique s.waiting_list (fun x => x.id) _
      (keysSorted_toKeysOk hinv.waitingKeys) ha hb hid)
  rcases lt_or_gt_of_ne hid with hlt | hgt
  · have := pairwise_by_key s.waiting_list (fun x => x.id) queueOrdered hk hinv.fifo
      ha hb hlt he hsa hsb
    omega
  · have := pairwise_by_key s.waiting_list (fun x => x.id) queueOrdered hk hinv.fifo
      hb ha hgt he.symm hsb hsa
    omega

/-- Witness for C19 (amended): the two waiting entries of `lineStore`. -/
theorem waiting_entries_have_distinct_positions_witness :
    Reachable lineStore ∧
    ({ id := 1, event_id := 1, user_id := 8, position := 1, status := .waiting }
        : WaitingRow).position
      ≠ ({ id := 2, event_id := 1, user_id := 9, position := 2, status := .waiting }
        : WaitingRow).position :=
  ⟨lineStore_reachable,
   waiting_entries_have_distinct_positions lineStore lineStore_reachable
    { id := 1, event_id := 1, user_id := 8, position := 1, status := .waiting }
    { id := 2, event_id := 1, user_id := 9, position := 2, status := .waiting }
    (by decide) (by decide) (by decide) rfl rfl rfl⟩

/-! ## Row lifecycles: facts -/

theorem bookingKept_refl (b : BookingRow) : bookingKept b b :=
  ⟨rfl, rfl, rfl, Or.inl rfl⟩

theorem bookingKept_trans {a b c : BookingRow} (hab : bookingKept a b)
    (hbc : bookingKept b c) : bookingKept a c := by
  obtain ⟨h1, h2, h3, h4⟩ := hab
  obtain ⟨g1, g2, g3, g4⟩ := hbc
  refine ⟨by rw [g1, h1], by rw [g2, h2], by rw [g3, h3], ?_⟩
  rcases h4 with h4 | ⟨h4, h5⟩
  · rcases g4 with g4 | ⟨g4, g5⟩
    · exact Or.inl (by rw [g4, h4])
    · exact Or.inr ⟨by rw [← h4, g4], g5⟩
  · rcases g4 with g4 | ⟨g4, g5⟩
    · exact Or.inr ⟨h4, by rw [g4, h5]⟩
    · rw [h5] at g4; cases g4

theorem waitingKept_refl (w : WaitingRow) : waitingKept w w :=
  ⟨rfl, rfl, rfl, rfl, Or.inl rfl⟩

theorem waitingKept_trans {a b c : WaitingRow} (hab : waitingKept a b)
    (hbc : waitingKept b c) : waitingKept a c := by
  obtain ⟨h1, h2, h3, hp, h4⟩ := hab
  obtain ⟨g1, g2, g3, gp, g4⟩ := hbc
  refine ⟨by rw [g1, h1], by rw [g2, h2], by rw [g3, h3], by rw [gp, hp], ?_⟩
  rcases h4 with h4 | ⟨h4, h5⟩
  · rcases g4 with g4 | ⟨g4, g5⟩
    · exact Or.inl (by rw [g4, h4])
    · exact Or.inr ⟨by rw [← h4, g4], g5⟩
  · rcases g4 with g4 | ⟨g4, g5⟩
    · exact Or.inr ⟨h4, by rw [g4, h5]⟩
    · rw [h5] at g4; cases g4

/-- Rows of a table that is mapped row by row and then extended stay at their
index. -/
theorem getElem?_map_append {α : Type} (l extra : List α) (f : α → α) (i : Nat) (x : α)
    (h : l[i]? = some x) : (l.map f ++ extra)[i]? = some (f x) := by
  have hi : i < l.length := by
    by_contra hc
    rw [List.getElem?_eq_none (by omega)] at h
    cases h
  rw [List.getElem?_append_left (by simpa using hi), List.getElem?_map, h]
  rfl

theorem cancel_row_kept (k : Int) (x : BookingRow) :
    bookingKept x (if x.id = k then { x with status := BookingStatus.cancelled } else x) := by
  by_cases hk : x.id = k
  · rw [if_pos hk]
    refine ⟨rfl, rfl, rfl, ?_⟩
    cases hs : x.status
    · exact Or.inr ⟨rfl, rfl⟩
    · exact Or.inl rfl
  · rw [if_neg hk]; exact bookingKept_refl x

theorem promote_row_kept (k : Int) (x : WaitingRow) :
    waitingKept x (if x.id = k then { x with status := WaitingStatus.promoted } else x) := by
  by_cases hk : x.id = k
  · rw [if_pos hk]
    refine ⟨rfl, rfl, rfl, rfl, ?_⟩
    cases hs : x.status
    · exact Or.inr ⟨rfl, rfl⟩
    · exact Or.inl rfl
  · rw [if_neg hk]; exact waitingKept_refl x

/-- One step keeps every booking row at its index. -/
theorem step_booking_kept {s t : Store} (hst : Step s t) (i : Nat) (b : BookingRow)
    (h : s.bookings[i]? = some b) :
    ∃ later, t.bookings[i]? = some later ∧ bookingKept b later := by
  cases hst with
  | stay => exact ⟨b, h, bookingKept_refl b⟩
  | created name n hn => exact ⟨b, h, bookingKept_refl b⟩
  | booked e u ev hev hav hb hw =>
    refine ⟨b, ?_, bookingKept_refl b⟩
    have := getElem?_map_append s.bookings
      [{ id := s.nextBookingId, event_id := e, user_id := u, status := .confirmed }] id i b h
    simpa [EventRepository.decrementAvailableTickets, BookingRepository.create] using this
  | waitlisted e u ev hev hav hb hw => exact ⟨b, h, bookingKept_refl b⟩
  | promoted k b0 w hb hst hw =>
    refine ⟨_, ?_, cancel_row_kept k b⟩
    have := getElem?_map_append s.bookings
      [{ id := s.nextBookingId, event_id := b0.event_id, user_id := w.user_id,
         status := .confirmed }]
      (fun x => if x.id = k then { x with status := BookingStatus.cancelled } else x) i b h
    simpa [WaitingListRepository.promote, BookingRepository.create,
      BookingRepository.cancel] using this
  | released k b0 hb hst hw =>
    refine ⟨_, ?_, cancel_row_kept k b⟩
    have := getElem?_map_append s.bookings []
      (fun x => if x.id = k then { x with status := BookingStatus.cancelled } else x) i b h
    simpa [EventRepository.incrementAvailableTickets, BookingRepository.cancel] using this

/-- One step keeps every waiting-list row at its index. -/
theorem step_waiting_kept {s t : Store} (hst : Step s t) (i : Nat) (w : WaitingRow)
    (h : s.waiting_list[i]? = some w) :
    ∃ later, t.waiting_list[i]? = some later ∧ waitingKept w later := by
  cases hst with
  | stay => exact ⟨w, h, waitingKept_refl w⟩
  | created name n hn => exact ⟨w, h, waitingKept_refl w⟩
  | booked e u ev hev hav hb hw => exact ⟨w, h, waitingKept_refl w⟩
  | waitlisted e u ev hev hav hb hw =>
    refine ⟨w, ?_, waitingKept_refl w⟩
    have := getElem?_map_append s.waiting_list
      [{ id := s.nextWaitingId, event_id := e, user_id := u,
         position := (sqlMax ((WaitingListRepository.waitingOf e s).map
           (fun w => w.position))).getD 0 + 1,
         status := .waiting }] id i w h
    simpa [WaitingListRepository.add] using this
  | promoted k b0 w0 hb hst hw =>
    refine ⟨_, ?_, promote_row_kept w0.id w⟩
    have := getElem?_map_append s.waiting_list []
      (fun x => if x.id = w0.id then { x with status := WaitingStatus.promoted } else x) i w h
    simpa [WaitingListRepository.promote, BookingRepository.create,
      BookingRepository.cancel] using this
  | released k b0 hb hst hw => exact ⟨w, h, waitingKept_refl w⟩

/-- A serial execution keeps every booking row at its index. -/
theorem runCalls_booking_kept (calls : List Call) (s : Store) (i : Nat) (b : BookingRow)
    (h : s.bookings[i]? = some b) :
    ∃ later, (runCalls calls s).bookings[i]? = some later ∧ bookingKept b later := by
  induction calls generalizing s b with
  | nil => exact ⟨b, h, bookingKept_refl b⟩
  | cons c cs ih =>
    obtain ⟨b1, h1, k1⟩ := step_booking_kept (run_step c s) i b h
    obtain ⟨b2, h2, k2⟩ := ih (c.run s) b1 h1
    exact ⟨b2, by simpa [runCalls] using h2, bookingKept_trans k1 k2⟩

/-- A serial execution keeps every waiting-list row at its index. -/
theorem runCalls_waiting_kept (calls : List Call) (s : Store) (i : Nat) (w : WaitingRow)
    (h : s.waiting_list[i]? = some w) :
    ∃ later, (runCalls calls s).waiting_list[i]? = some later ∧ waitingKept w later := by
  induction calls generalizing s w with
  | nil => exact ⟨w, h, waitingKept_refl w⟩
  | cons c cs ih =>
    obtain ⟨w1, h1, k1⟩ := step_waiting_kept (run_step c s) i w h
    obtain ⟨w2, h2, k2⟩ := ih (c.run s) w1 h1
    exact ⟨w2, by simpa [runCalls] using h2, waitingKept_trans k1 k2⟩

/-- C17. Booking lifecycle: take the booking `b` at row `i` of any store and run
any serial sequence of calls, then any further one. At both later moments the
row is still at index `i` (never deleted) with the same id, event and user; its
status is the same as before or went from 'confirmed' to 'cancelled'; once it
differs from the earlier status it never changes again, and a 'cancelled'
booking stays 'cancelled'. -/
theorem booking_lifecycle (s : Store) (calls further : List Call) (i : Nat)
    (b : BookingRow) (h : s.bookings[i]? = some b) :
    ∃ b1 b2 : BookingRow,
      (runCalls calls s).bookings[i]? = some b1 ∧
      (runCalls further (runCalls calls s)).bookings[i]? = some b2 ∧
      bookingKept b b1 ∧ bookingKept b1 b2 ∧
      (b1.status ≠ b.status → b2.status = b1.status) ∧
      (b.status = .cancelled → b1.status = .cancelled ∧ b2.status = .cancelled) := by
  obtain ⟨b1, h1, k1⟩ := runCalls_booking_kept calls s i b h
  obtain ⟨b2, h2, k2⟩ := runCalls_booking_kept further (runCalls calls s) i b1 h1
  refine ⟨b1, b2, h1, h2, k1, k2, ?_, ?_⟩
  · intro hne
    rcases k1.2.2.2 with h3 | ⟨h3, h4⟩
    · exact absurd h3 hne
    · rcases k2.2.2.2 with g3 | ⟨g3, g4⟩
      · exact g3
      · rw [h4] at g3; cases g3
  · intro hc
    have hb1 : b1.status = .cancelled := by
      rcases k1.2.2.2 with h3 | ⟨h3, h4⟩
      · rw [h3, hc]
      · exact h4
    refine ⟨hb1, ?_⟩
    rcases k2.2.2.2 with g3 | ⟨g3, g4⟩
    · rw [g3, hb1]
    · exact g4

/-- Witness for C17: booking 1 of `openStore` is cancelled, then its user books
again; the row stays cancelled at index 0. -/
theorem booking_lifecycle_witness :
    ∃ b1 b2 : BookingRow,
      (runCalls [.cancel (.number 1)] openStore).bookings[0]? = some b1 ∧
      (runCalls [.book (.number 1) (.number 7)]
        (runCalls [.cancel (.number 1)] openStore)).bookings[0]? = some b2 ∧
      bookingKept { id := 1, event_id := 1, user_id := 7, status := .confirmed } b1 ∧
      bookingKept b1 b2 ∧
      (b1.status ≠ BookingStatus.confirmed → b2.status = b1.status) ∧
      (BookingStatus.confirmed = BookingStatus.cancelled →
        b1.status = .cancelled ∧ b2.status = .cancelled) :=
  booking_lifecycle openStore [.cancel (.number 1)] [.book (.number 1) (.number 7)] 0
    { id := 1, event_id := 1, user_id := 7, status := .confirmed } rfl

/-- C18. Waiting-entry lifecycle: take the entry `w` at row `i` of any store and
run any serial sequence of calls, then any further one. At both later moments
the row is still at index `i` (never deleted) with the same id, event, user and
position (no renumbering); its status is the same as before or went from
'waiting' to 'promoted'; once it differs from the earlier status it never
changes again, and a 'promoted' entry stays 'promoted'. -/
theorem waiting_entry_lifecycle (s : Store) (calls further : List Call) (i : Nat)
    (w : WaitingRow) (h : s.waiting_list[i]? = some w) :
    ∃ w1 w2 : WaitingRow,
      (runCalls calls s).waiting_list[i]? = some w1 ∧
      (runCalls further (runCalls calls s)).waiting_list[i]? = some w2 ∧
      waitingKept w w1 ∧ waitingKept w1 w2 ∧
      (w1.status ≠ w.status → w2.status = w1.status) ∧
      (w.status = .promoted → w1.status = .promoted ∧ w2.status = .promoted) := by
  obtain ⟨w1, h1, k1⟩ := runCalls_waiting_kept calls s i w h
  obtain ⟨w2, h2, k2⟩ := runCalls_waiting_kept further (runCalls calls s) i w1 h1
  refine ⟨w1, w2, h1, h2, k1, k2, ?_, ?_⟩
  · intro hne
    rcases k1.2.2.2.2 with h3 | ⟨h3, h4⟩
    · exact absurd h3 hne
    · rcases k2.2.2.2.2 with g3 | ⟨g3, g4⟩
      · exact g3
      · rw [h4] at g3; cases g3
  · intro hc
    have hw1 : w1.status = .promoted := by
      rcases k1.2.2.2.2 with h3 | ⟨h3, h4⟩
      · rw [h3, hc]
      · exact h4
    refine ⟨hw1, ?_⟩
    rcases k2.2.2.2.2 with g3 | ⟨g3, g4⟩
    · rw [g3, hw1]
    · exact g4

/-- Witness for C18: the head of the queue of `lineStore` is promoted by a
cancellation, then one more user queues; the row keeps position 1 at index 0. -/
theorem waiting_entry_lifecycle_witness :
    ∃ w1 w2 : WaitingRow,
      (runCalls [.cancel (.number 1)] lineStore).waiting_list[0]? = some w1 ∧
      (runCalls [.book (.number 1) (.number 10)]
        (runCalls [.cancel (.number 1)] lineStore)).waiting_list[0]? = some w2 ∧
      waitingKept { id := 1, event_id := 1, user_id := 8, position := 1,
                    status := .waiting } w1 ∧
      waitingKept w1 w2 ∧
      (w1.status ≠ WaitingStatus.waiting → w2.status = w1.status) ∧
      (WaitingStatus.waiting = WaitingStatus.promoted →
        w1.status = .promoted ∧ w2.status = .promoted) :=
  waiting_entry_lifecycle lineStore [.cancel (.number 1)]
    [.book (.number 1) (.number 10)] 0
    { id := 1, event_id := 1, user_id := 8, position := 1, status := .waiting } rfl

/-! ## The rows of one event: facts -/

theorem find?_filter_of_imp {α : Type} (p q : α → Bool) (l : List α)
    (h : ∀ x, p x = true → q x = true) : (l.filter q).find? p = l.find? p := by
  induction l with
  | nil => rfl
  | cons x xs ih =>
    by_cases hq : q x = true
    · rw [List.filter_cons_of_pos hq]
      by_cases hp : p x = true
      · simp [List.find?_cons, hp]
      · simp [List.find?_cons, hp, ih]
    · rw [List.filter_cons_of_neg hq]
      have hp : ¬ p x = true := fun hp => hq (h x hp)
      simp [List.find?_cons, hp, ih]

theorem find?_filter_of_some {α : Type} (p q : α → Bool) (l : List α) {b : α}
    (h : l.find? p = some b) (hq : q b = true) : (l.filter q).find? p = some b := by
  induction l with
  | nil => cases h
  | cons x xs ih =>
    by_cases hp : p x = true
    · simp [List.find?_cons, hp] at h
      subst h
      rw [List.filter_cons_of_pos hq]
      simp [List.find?_cons, hp]
    · simp [List.find?_cons, hp] at h
      by_cases hqx : q x = true
      · rw [List.filter_cons_of_pos hqx]
        simp [List.find?_cons, hp, ih h]
      · rw [List.filter_cons_of_neg hqx]
        exact ih h

theorem filter_map_comm {α : Type} (q : α → Bool) (f : α → α) (l : List α)
    (h : ∀ x, q (f x) = q x) : (l.map f).filter q = (l.filter q).map f := by
  induction l with
  | nil => rfl
  | cons x xs ih =>
    by_cases hq : q x = true
    · have hq2 : q (f x) = true := by rw [h, hq]
      simp [List.filter_cons, hq, hq2, ih]
    · have hq2 : ¬ q (f x) = true := by rw [h]; exact hq
      simp [List.filter_cons, hq, hq2, ih]

theorem filter_map_untouched {α : Type} (q : α → Bool) (f : α → α) (l : List α)
    (h : ∀ x, q (f x) = q x) (hfix : ∀ x ∈ l, q x = true → f x = x) :
    (l.map f).filter q = l.filter q := by
  rw [filter_map_comm q f l h]
  conv_rhs => rw [← List.map_id (l.filter q)]
  apply List.map_congr_left
  intro x hx
  rw [List.mem_filter] at hx
  exact hfix x hx.1 hx.2

/-- What `book` can leave in the committed store. -/
theorem book_db_cases (eventId userId : JsValue) (s : Store) :
    (BookingService.book eventId userId s).db = s ∨
    (BookingService.book eventId userId s).db
      = (EventRepository.decrementAvailableTickets eventId.sqlInt
          (BookingRepository.create eventId.sqlInt userId.sqlInt s).2).2 ∨
    (BookingService.book eventId userId s).db
      = (WaitingListRepository.add eventId.sqlInt userId.sqlInt s).2 := by
  by_cases hE : passesValidation eventId
  swap
  · left
    cases eventId <;>
      simp_all [passesValidation, BookingService.book, JsValue.truthy, JsValue.isNumber]
  by_cases hU : passesValidation userId
  swap
  · left
    cases userId <;> cases eventId <;>
      simp_all [passesValidation, BookingService.book, JsValue.truthy, JsValue.isNumber]
  obtain ⟨e, he, rfl⟩ := (passesValidation_iff eventId).1 hE
  obtain ⟨u, hu, rfl⟩ := (passesValidation_iff userId).1 hU
  rw [book_unfold e u he hu]
  cases hev : EventRepository.findByIdForUpdate e s with
  | none =>
    left
    simp [BookingService.bookTry, JsValue.sqlInt, hev, Outcome.settle, Connection.rollback,
      Connection.release]
  | some ev =>
    cases hb : BookingRepository.findActiveByEventAndUser e u s with
    | some b0 =>
      left
      simp [BookingService.bookTry, JsValue.sqlInt, hev, hb, Outcome.settle,
        Connection.rollback, Connection.release]
    | none =>
      cases hw : WaitingListRepository.findByEventAndUser e u s with
      | some w0 =>
        left
        simp [BookingService.bookTry, JsValue.sqlInt, hev, hb, hw, Outcome.settle,
          Connection.rollback, Connection.release]
      | none =>
        by_cases hav : 0 < ev.available_tickets
        · right; left
          simp [BookingService.bookTry, JsValue.sqlInt, hev, hb, hw, hav, Outcome.settle,
            Connection.commit, Connection.release, Connection.execute]
        · right; right
          simp [BookingService.bookTry, JsValue.sqlInt, hev, hb, hw, hav, Outcome.settle,
            Connection.commit, Connection.release, Connection.execute]

/-- What `cancel` can leave in the committed store. -/
theorem cancel_db_cases (bookingId : JsValue) (s : Store) :
    (BookingService.cancel bookingId s).db = s ∨
    ∃ b, BookingRepository.findByIdForUpdate bookingId.sqlInt s = some b ∧
      ((∃ w, WaitingListRepository.findNextInLine b.event_id s = some w ∧
          (BookingService.cancel bookingId s).db
            = (WaitingListRepository.promote w.id
                (BookingRepository.create b.event_id w.user_id
                  (BookingRepository.cancel bookingId.sqlInt s).2).2).2) ∨
        (BookingService.cancel bookingId s).db
          = (EventRepository.incrementAvailableTickets b.event_id
              (BookingRepository.cancel bookingId.sqlInt s).2).2) := by
  by_cases hK : passesValidation bookingId
  swap
  · left
    cases bookingId <;>
      simp_all [passesValidation, BookingService.cancel, JsValue.truthy, JsValue.isNumber]
  obtain ⟨k, hk, rfl⟩ := (passesValidation_iff bookingId).1 hK
  rw [cancel_unfold k hk]
  cases hb : BookingRepository.findByIdForUpdate k s with
  | none =>
    left
    simp [BookingService.cancelTry, JsValue.sqlInt, hb, Outcome.settle, Connection.rollback,
      Connection.release]
  | some b =>
    by_cases hst : b.status = .cancelled
    · left
      simp [BookingService.cancelTry, JsValue.sqlInt, hb, hst, Outcome.settle,
        Connection.rollback, Connection.release]
    · right
      refine ⟨b, by simpa [JsValue.sqlInt] using hb, ?_⟩
      cases hw : WaitingListRepository.findNextInLine b.event_id s with
      | some w =>
        have hw2 : WaitingListRepository.findNextInLine b.event_id
            (BookingRepository.cancel k s).2 = some w := hw
        left
        refine ⟨w, rfl, ?_⟩
        simp [BookingService.cancelTry, JsValue.sqlInt, hb, hst, hw2, Outcome.settle,
          Connection.commit, Connection.release, Connection.execute]
      | none =>
        have hw2 : WaitingListRepository.findNextInLine b.event_id
            (BookingRepository.cancel k s).2 = none := hw
        right
        simp [BookingService.cancelTry, JsValue.sqlInt, hb, hst, hw2, Outcome.settle,
          Connection.commit, Connection.release, Connection.execute]

theorem sameRowsOf_refl (eventId : Int) (s : Store) : sameRowsOf eventId s s :=
  ⟨rfl, rfl, rfl⟩

/-- A `book` for one event leaves the rows of every other event as they were. -/
theorem book_frame (eventId userId : JsValue) (s : Store) (other : Int)
    (hne : other ≠ eventId.sqlInt) :
    sameRowsOf other s (BookingService.book eventId userId s).db := by
  have hne2 : ¬ eventId.sqlInt = other := fun h => hne h.symm
  rcases book_db_cases eventId userId s with h | h | h
  · rw [h]; exact sameRowsOf_refl other s
  · rw [h]
    refine ⟨?_, ?_, rfl⟩
    · simp only [EventRepository.decrementAvailableTickets, BookingRepository.create]
      apply filter_map_untouched
      · intro x; split <;> rfl
      · intro x _ hx
        have hx2 : x.id = other := by simpa using hx
        have : ¬ (x.id = eventId.sqlInt ∧ x.available_tickets > 0) :=
          fun h3 => hne (by rw [← hx2]; exact h3.1)
        rw [if_neg this]
    · simp [EventRepository.decrementAvailableTickets, BookingRepository.create,
        List.filter_append, List.filter_cons, hne2]
  · rw [h]
    refine ⟨rfl, rfl, ?_⟩
    simp [WaitingListRepository.add, List.filter_append, List.filter_cons, hne2]

/-- A `cancel` leaves the rows of every event other than the booking's as they
were. -/
theorem cancel_frame (bookingId : JsValue) (s : Store) (hwf : s.WellFormed) (other : Int)
    (hne : ∀ b ∈ s.bookings, b.id = bookingId.sqlInt → b.event_id ≠ other) :
    sameRowsOf other s (BookingService.cancel bookingId s).db := by
  have hbook : (s.bookings.map (fun x =>
        if x.id = bookingId.sqlInt then { x with status := BookingStatus.cancelled }
        else x)).filter (fun b => b.event_id = other)
      = s.bookings.filter (fun b => b.event_id = other) := by
    apply filter_map_untouched
    · intro x; split <;> rfl
    · intro x hx hq
      have hq2 : x.event_id = other := by simpa using hq
      have : ¬ x.id = bookingId.sqlInt := fun h3 => hne x hx h3 hq2
      rw [if_neg this]
  rcases cancel_db_cases bookingId s with h | ⟨b, hb, ⟨w, hw, h⟩ | h⟩
  · rw [h]; exact sameRowsOf_refl other s
  · obtain ⟨hbm, hbid⟩ := findBooking_some hb
    obtain ⟨hwm, hwe, -, -⟩ := findNextInLine_spec hw
    have hbe : ¬ b.event_id = other := hne b hbm hbid
    rw [h]
    refine ⟨rfl, ?_, ?_⟩
    · simp only [WaitingListRepository.promote, BookingRepository.create,
        BookingRepository.cancel, List.filter_append, hbook]
      simp [List.filter_cons, hbe]
    · simp only [WaitingListRepository.promote, BookingRepository.create,
        BookingRepository.cancel]
      apply filter_map_untouched
      · intro x; split <;> rfl
      · intro x hx hq
        have hq2 : x.event_id = other := by simpa using hq
        have : ¬ x.id = w.id := by
          intro hid
          have := keysOk_unique s.waiting_list (fun x => x.id) _ hwf.2.2 hx hwm hid
          subst this
          exact hbe (by rw [← hwe, hq2])
        rw [if_neg this]
  · obtain ⟨hbm, hbid⟩ := findBooking_some hb
    have hbe : b.event_id ≠ other := hne b hbm hbid
    rw [h]
    refine ⟨?_, ?_, rfl⟩
    · simp only [EventRepository.incrementAvailableTickets, BookingRepository.cancel]
      apply filter_map_untouched
      · intro x; split <;> rfl
      · intro x _ hq
        have hq2 : x.id = other := by simpa using hq
        have : ¬ x.id = b.event_id := fun h3 => hbe (by rw [← h3, hq2])
        rw [if_neg this]
    · simpa [EventRepository.incrementAvailableTickets, BookingRepository.cancel] using hbook

theorem waitingOf_restrictTo (e : Int) (s : Store) :
    WaitingListRepository.waitingOf e (s.restrictTo e) = WaitingListRepository.waitingOf e s := by
  simp only [WaitingListRepository.waitingOf, Store.restrictTo, List.filter_filter]
  apply List.filter_congr
  intro x _
  by_cases h : x.event_id = e <;> simp [h]

/-- The outcome of `book` for an event is the same when the rows of all other
events are removed first. -/
theorem book_restrictTo (eventId userId : JsValue) (s : Store) :
    (BookingService.book eventId userId (s.restrictTo eventId.sqlInt)).result
      = (BookingService.book eventId userId s).result ∧
    (BookingService.book eventId userId (s.restrictTo eventId.sqlInt)).db
      = (BookingService.book eventId userId s).db.restrictTo eventId.sqlInt := by
  by_cases hE : passesValidation eventId
  swap
  · cases eventId <;>
      simp_all [passesValidation, BookingService.book, JsValue.truthy, JsValue.isNumber]
  by_cases hU : passesValidation userId
  swap
  · cases userId <;> cases eventId <;>
      simp_all [passesValidation, BookingService.book, JsValue.truthy, JsValue.isNumber]
  obtain ⟨e, he, rfl⟩ := (passesValidation_iff eventId).1 hE
  obtain ⟨u, hu, rfl⟩ := (passesValidation_iff userId).1 hU
  simp only [JsValue.sqlInt]
  have hfe : EventRepository.findByIdForUpdate e (s.restrictTo e)
      = EventRepository.findByIdForUpdate e s := by
    simp only [EventRepository.findByIdForUpdate, Store.restrictTo]
    exact find?_filter_of_imp _ _ _ (fun x hx => hx)
  have hfb : BookingRepository.findActiveByEventAndUser e u (s.restrictTo e)
      = BookingRepository.findActiveByEventAndUser e u s := by
    simp only [BookingRepository.findActiveByEventAndUser, Store.restrictTo]
    apply find?_filter_of_imp
    intro x hx
    simp only [decide_eq_true_eq] at hx ⊢
    exact hx.1
  have hfw : WaitingListRepository.findByEventAndUser e u (s.restrictTo e)
      = WaitingListRepository.findByEventAndUser e u s := by
    simp only [WaitingListRepository.findByEventAndUser, Store.restrictTo]
    apply find?_filter_of_imp
    intro x hx
    simp only [decide_eq_true_eq] at hx ⊢
    exact hx.1
  have hdec : ∀ l : List EventRow,
      (l.map (fun x => if x.id = e ∧ x.available_tickets > 0 then
          { x with available_tickets := x.available_tickets - 1 } else x)).filter
        (fun x => x.id = e)
      = (l.filter (fun x => x.id = e)).map (fun x =>
          if x.id = e ∧ x.available_tickets > 0 then
            { x with available_tickets := x.available_tickets - 1 } else x) := by
    intro l
    apply filter_map_comm
    intro x; split <;> rfl
  rw [book_unfold e u he hu, book_unfold e u he hu]
  cases hev : EventRepository.findByIdForUpdate e s with
  | none =>
    simp [BookingService.bookTry, JsValue.sqlInt, hfe, hev, Outcome.settle,
      Connection.rollback, Connection.release]
  | some ev =>
    cases hb : BookingRepository.findActiveByEventAndUser e u s with
    | some b0 =>
      simp [BookingService.bookTry, JsValue.sqlInt, hfe, hfb, hev, hb, Outcome.settle,
        Connection.rollback, Connection.release]
    | none =>
      cases hw : WaitingListRepository.findByEventAndUser e u s with
      | some w0 =>
        simp [BookingService.bookTry, JsValue.sqlInt, hfe, hfb, hfw, hev, hb, hw,
          Outcome.settle, Connection.rollback, Connection.release]
      | none =>
        by_cases hav : 0 < ev.available_tickets
        · simp [BookingService.bookTry, JsValue.sqlInt, hfe, hfb, hfw, hev, hb, hw, hav,
            Outcome.settle, Connection.commit, Connection.release, Connection.execute,
            BookingRepository.create, EventRepository.decrementAvailableTickets]
          simp [Store.restrictTo, hdec, List.filter_append, List.filter_cons]
        · simp [BookingService.bookTry, JsValue.sqlInt, hfe, hfb, hfw, hev, hb, hw, hav,
            Outcome.settle, Connection.commit, Connection.release, Connection.execute,
            WaitingListRepository.add, waitingOf_restrictTo]
          simp [Store.restrictTo, List.filter_append, List.filter_cons]

/-- The outcome of `cancel` for a booking is the same when the rows of all events
other than the booking's are removed first. -/
theorem cancel_restrictTo (bookingId : JsValue) (s : Store) (b : BookingRow)
    (hb : BookingRepository.findByIdForUpdate bookingId.sqlInt s = some b) :
    (BookingService.cancel bookingId (s.restrictTo b.event_id)).result
      = (BookingService.cancel bookingId s).result ∧
    (BookingService.cancel bookingId (s.restrictTo b.event_id)).db
      = (BookingService.cancel bookingId s).db.restrictTo b.event_id := by
  by_cases hK : passesValidation bookingId
  swap
  · cases bookingId <;>
      simp_all [passesValidation, BookingService.cancel, JsValue.truthy, JsValue.isNumber]
  obtain ⟨k, hk, rfl⟩ := (passesValidation_iff bookingId).1 hK
  simp only [JsValue.sqlInt] at hb
  have hfb : BookingRepository.findByIdForUpdate k (s.restrictTo b.event_id) = some b := by
    simp only [BookingRepository.findByIdForUpdate, Store.restrictTo]
    exact find?_filter_of_some _ _ _ hb (by simp)
  have hnext : ∀ t : Store, t.waiting_list = s.waiting_list →
      ∀ t2 : Store,
        t2.waiting_list = s.waiting_list.filter (fun w => w.event_id = b.event_id) →
        WaitingListRepository.findNextInLine b.event_id t2
          = WaitingListRepository.findNextInLine b.event_id t := by
    intro t ht t2 ht2
    simp only [WaitingListRepository.findNextInLine, WaitingListRepository.waitingOf, ht, ht2,
      List.filter_filter]
    congr 1
    apply List.filter_congr
    intro x _
    by_cases h : x.event_id = b.event_id <;> simp [h]
  have hcancel : ∀ l : List BookingRow,
      (l.map (fun x => if x.id = k then { x with status := BookingStatus.cancelled }
          else x)).filter (fun x => x.event_id = b.event_id)
      = (l.filter (fun x => x.event_id = b.event_id)).map (fun x =>
          if x.id = k then { x with status := BookingStatus.cancelled } else x) := by
    intro l
    apply filter_map_comm
    intro x; split <;> rfl
  have hpromote : ∀ (i : Int) (l : List WaitingRow),
      (l.map (fun x => if x.id = i then { x with status := WaitingStatus.promoted }
          else x)).filter (fun x => x.event_id = b.event_id)
      = (l.filter (fun x => x.event_id = b.event_id)).map (fun x =>
          if x.id = i then { x with status := WaitingStatus.promoted } else x) := by
    intro i l
    apply filter_map_comm
    intro x; split <;> rfl
  have hinc : ∀ l : List EventRow,
      (l.map (fun x => if x.id = b.event_id then
          { x with available_tickets := x.available_tickets + 1 } else x)).filter
        (fun x => x.id = b.event_id)
      = (l.filter (fun x => x.id = b.event_id)).map (fun x =>
          if x.id = b.event_id then
            { x with available_tickets := x.available_tickets + 1 } else x) := by
    intro l
    apply filter_map_comm
    intro x; split <;> rfl
  rw [cancel_unfold k hk, cancel_unfold k hk]
  by_cases hst : b.status = .cancelled
  · simp [BookingService.cancelTry, JsValue.sqlInt, hb, hfb, hst, Outcome.settle,
      Connection.rollback, Connection.release]
  · have hn2 : WaitingListRepository.findNextInLine b.event_id
        (BookingRepository.cancel k (s.restrictTo b.event_id)).2
        = WaitingListRepository.findNextInLine b.event_id s :=
      hnext s rfl _ rfl
    have hn1 : WaitingListRepository.findNextInLine b.event_id
        (BookingRepository.cancel k s).2
        = WaitingListRepository.findNextInLine b.event_id s := rfl
    cases hw : WaitingListRepository.findNextInLine b.event_id s with
    | some w =>
      rw [hw] at hn1 hn2
      simp [BookingService.cancelTry, JsValue.sqlInt, hb, hfb, hst, hn1, hn2,
        Outcome.settle, Connection.commit, Connection.release, Connection.execute,
        BookingRepository.create, WaitingListRepository.promote]
      simp [Store.restrictTo, BookingRepository.cancel, hcancel, hpromote,
        List.filter_append, List.filter_cons]
    | none =>
      rw [hw] at hn1 hn2
      simp [BookingService.cancelTry, JsValue.sqlInt, hb, hfb, hst, hn1, hn2,
        Outcome.settle, Connection.commit, Connection.release, Connection.execute,
        EventRepository.incrementAvailableTickets]
      simp [Store.restrictTo, BookingRepository.cancel, hcancel, hinc]

/-- C16. Operations on different events are independent. In a well-formed store:
a `book` for event `E` leaves the event row, the bookings and the waiting-list
entries of every other event unchanged, and so does a `cancel` of a booking of
`E`; and the result of the call and what it does to the rows of `E` are the
same when all rows of other events are removed from the store beforehand. -/
theorem other_events_are_independent (s : Store) (hwf : s.WellFormed) :
    (∀ (eventId userId : JsValue) (other : Int), other ≠ eventId.sqlInt →
      sameRowsOf other s (BookingService.book eventId userId s).db) ∧
    (∀ (bookingId : JsValue) (other : Int),
      (∀ b ∈ s.bookings, b.id = bookingId.sqlInt → b.event_id ≠ other) →
      sameRowsOf other s (BookingService.cancel bookingId s).db) ∧
    (∀ eventId userId : JsValue,
      (BookingService.book eventId userId (s.restrictTo eventId.sqlInt)).result
        = (BookingService.book eventId userId s).result ∧
      (BookingService.book eventId userId (s.restrictTo eventId.sqlInt)).db
        = (BookingService.book eventId userId s).db.restrictTo eventId.sqlInt) ∧
    (∀ (bookingId : JsValue) (b : BookingRow),
      b ∈ s.bookings → b.id = bookingId.sqlInt →
      (BookingService.cancel bookingId (s.restrictTo b.event_id)).result
        = (BookingService.cancel bookingId s).result ∧
      (BookingService.cancel bookingId (s.restrictTo b.event_id)).db
        = (BookingService.cancel bookingId s).db.restrictTo b.event_id) := by
  refine ⟨fun eventId userId other hne => book_frame eventId userId s other hne,
    fun bookingId other hne => cancel_frame bookingId s hwf other hne,
    fun eventId userId => book_restrictTo eventId userId s, ?_⟩
  intro bookingId b hb hid
  have hfind : BookingRepository.findByIdForUpdate bookingId.sqlInt s = some b := by
    rw [← hid]; exact findBooking_of_mem s hwf hb
  exact cancel_restrictTo bookingId s b hfind

/-- Witness for C16: in `twoEventStore`, a `book` and a `cancel` on event 1 leave
the rows of event 2 alone, and give the same result with event 2 removed. -/
theorem other_events_are_independent_witness :
    sameRowsOf 2 twoEventStore
      (BookingService.book (.number 1) (.number 9) twoEventStore).db ∧
    sameRowsOf 2 twoEventStore (BookingService.cancel (.number 1) twoEventStore).db ∧
    ((BookingService.book (.number 1) (.number 9) (twoEventStore.restrictTo 1)).result
        = (BookingService.book (.number 1) (.number 9) twoEventStore).result ∧
      (BookingService.book (.number 1) (.number 9) (twoEventStore.restrictTo 1)).db
        = (BookingService.book (.number 1) (.number 9) twoEventStore).db.restrictTo 1) ∧
    ((BookingService.cancel (.number 1) (twoEventStore.restrictTo 1)).result
        = (BookingService.cancel (.number 1) twoEventStore).result ∧
      (BookingService.cancel (.number 1) (twoEventStore.restrictTo 1)).db
        = (BookingService.cancel (.number 1) twoEventStore).db.restrictTo 1) :=
  have h := other_events_are_independent twoEventStore (by decide)
  ⟨h.1 (.number 1) (.number 9) 2 (by decide),
   h.2.1 (.number 1) 2 (by decide),
   h.2.2.1 (.number 1) (.number 9),
   h.2.2.2 (.number 1) { id := 1, event_id := 1, user_id := 7, status := .confirmed }
     (by decide) rfl⟩

/-! ## Runs of many calls: facts -/

/-- The settled `book` when a ticket is free. -/
theorem book_when_available (s : Store) (e u : Int) (he : e ≠ 0) (hu : u ≠ 0)
    (ev : EventRow) (hev : EventRepository.findByIdForUpdate e s = some ev)
    (hav : 0 < ev.available_tickets)
    (hb : BookingRepository.findActiveByEventAndUser e u s = none)
    (hw : WaitingListRepository.findByEventAndUser e u s = none) :
    (BookingService.book (.number e) (.number u) s).result
      = .ok (.booked s.nextBookingId (.number e) (.number u) "confirmed") ∧
    (BookingService.book (.number e) (.number u) s).db
      = (EventRepository.decrementAvailableTickets e
          (BookingRepository.create e u s).2).2 := by
  rw [book_unfold e u he hu]
  simp [BookingService.bookTry, JsValue.sqlInt, hev, hb, hw, hav, Outcome.settle,
    Connection.commit, Connection.release, Connection.execute, BookingRepository.create]

/-- The settled `book` when the event is sold out. -/
theorem book_when_sold_out (s : Store) (e u : Int) (he : e ≠ 0) (hu : u ≠ 0)
    (ev : EventRow) (hev : EventRepository.findByIdForUpdate e s = some ev)
    (hav : ¬ 0 < ev.available_tickets)
    (hb : BookingRepository.findActiveByEventAndUser e u s = none)
    (hw : WaitingListRepository.findByEventAndUser e u s = none) :
    (BookingService.book (.number e) (.number u) s).result
      = .ok (.waitlisted s.nextWaitingId (.number e) (.number u)
          ((sqlMax ((WaitingListRepository.waitingOf e s).map
            (fun w => w.position))).getD 0 + 1)
          "Event is sold out. You have been added to the waiting list.") ∧
    (BookingService.book (.number e) (.number u) s).db
      = (WaitingListRepository.add e u s).2 := by
  rw [book_unfold e u he hu]
  simp [BookingService.bookTry, JsValue.sqlInt, hev, hb, hw, hav, Outcome.settle,
    Connection.commit, Connection.release, Connection.execute, WaitingListRepository.add]

theorem sqlMax_append_top (l : List Int) (x : Int) (h : ∀ y ∈ l, y ≤ x) :
    sqlMax (l ++ [x]) = some x := by
  induction l with
  | nil => simp [sqlMax]
  | cons a as ih =>
    have ih2 := ih (fun y hy => h y (List.mem_cons_of_mem _ hy))
    have ha := h a (List.mem_cons_self _ _)
    show sqlMax (a :: (as ++ [x])) = some x
    rw [sqlMax, ih2]
    simp only [max_eq_right ha]

theorem sqlMax_getD_upper (l : List Int) : ∀ y ∈ l, y ≤ (sqlMax l).getD 0 := by
  intro y hy
  cases hm : sqlMax l with
  | none => rw [sqlMax_eq_none.1 hm] at hy; cases hy
  | some m => exact (sqlMax_spec hm).2 y hy

theorem find?_map_preserving {α : Type} (p : α → Bool) (f : α → α) (l : List α)
    (h : ∀ x, p (f x) = p x) : (l.map f).find? p = (l.find? p).map f := by
  induction l with
  | nil => rfl
  | cons x xs ih =>
    by_cases hp : p x = true
    · have hp2 : p (f x) = true := by rw [h, hp]
      simp [List.find?_cons, hp, hp2]
    · have hp2 : ¬ p (f x) = true := by rw [h]; exact hp
      simp [List.find?_cons, hp, hp2, ih]

theorem freshUser_after_booked {e u v : Int} {s : Store} (hvu : v ≠ u)
    (h : freshUser e v s) :
    freshUser e v (EventRepository.decrementAvailableTickets e
      (BookingRepository.create e u s).2).2 := by
  obtain ⟨h1, h2⟩ := h
  refine ⟨?_, h2⟩
  simp only [BookingRepository.findActiveByEventAndUser, List.find?_eq_none] at h1 ⊢
  intro x hx
  simp only [EventRepository.decrementAvailableTickets, BookingRepository.create,
    List.mem_append, List.mem_singleton] at hx
  rcases hx with hx | rfl
  · exact h1 x hx
  · simp [Ne.symm hvu]

theorem freshUser_after_waitlisted {e u v : Int} {s : Store} (hvu : v ≠ u)
    (h : freshUser e v s) : freshUser e v (WaitingListRepository.add e u s).2 := by
  obtain ⟨h1, h2⟩ := h
  refine ⟨h1, ?_⟩
  simp only [WaitingListRepository.findByEventAndUser, List.find?_eq_none] at h2 ⊢
  intro x hx
  simp only [WaitingListRepository.add, List.mem_append, List.mem_singleton] at hx
  rcases hx with hx | rfl
  · exact h2 x hx
  · simp [Ne.symm hvu]

/-- One more `book` by a fresh user: the predicted result, and the fill state
one step further. -/
theorem FillState_book {E : Int} {name : String} {K : Nat} {nb nw : Int} {j : Nat}
    {s : Store} (h : FillState E name K nb nw j s) (u : Int) (hu : u ≠ 0)
    (hfresh : freshUser E u s) :
    (BookingService.book (.number E) (.number u) s).result
      = expectedBookResult E K nb nw j u ∧
    FillState E name K nb nw (j + 1) (BookingService.book (.number E) (.number u) s).db ∧
    ∀ v, v ≠ u → freshUser E v s →
      freshUser E v (BookingService.book (.number E) (.number u) s).db := by
  by_cases hj : j < K
  · have hav : (0 : Int) < ((K - j : Nat) : Int) := by omega
    obtain ⟨hres, hdb⟩ := book_when_available s E u h.nonzero hu _ h.event hav
      hfresh.1 hfresh.2
    rw [hres, hdb]
    refine ⟨?_, ?_, fun v hv hf => freshUser_after_booked hv hf⟩
    · simp only [expectedBookResult, if_pos hj, h.nextBookingId]
      have : min j K = j := by omega
      rw [this]
    · refine ⟨Inv_booked h.inv E u _ h.event hav hfresh.1 hfresh.2, h.nonzero, ?_, ?_, ?_, ?_,
        ?_, ?_⟩
      · have he := h.event
        simp only [EventRepository.findByIdForUpdate] at he
        simp only [EventRepository.findByIdForUpdate,
          EventRepository.decrementAvailableTickets, BookingRepository.create]
        rw [find?_map_preserving _ _ _ (by intro x; split <;> rfl), he]
        simp only [Option.map_some', gt_iff_lt, true_and, if_pos hav]
        congr 2
        omega
      · have := h.maxPosition
        simp only [WaitingListRepository.waitingOf, EventRepository.decrementAvailableTickets,
          BookingRepository.create] at this ⊢
        rw [this]; omega
      · have := h.confirmed
        simp only [BookingRepository.countByEvent, EventRepository.decrementAvailableTickets,
          BookingRepository.create, List.countP_append] at this ⊢
        rw [this]
        simp
        omega
      · have := h.waiting
        simp only [WaitingListRepository.countByEvent,
          EventRepository.decrementAvailableTickets, BookingRepository.create] at this ⊢
        rw [this]; omega
      · have := h.nextBookingId
        simp only [EventRepository.decrementAvailableTickets, BookingRepository.create]
        rw [this]; omega
      · have := h.nextWaitingId
        simp only [EventRepository.decrementAvailableTickets, BookingRepository.create]
        rw [this]; omega
  · have hav : ¬ (0 : Int) < ((K - j : Nat) : Int) := by omega
    obtain ⟨hres, hdb⟩ := book_when_sold_out s E u h.nonzero hu _ h.event hav
      hfresh.1 hfresh.2
    rw [hres, hdb]
    refine ⟨?_, ?_, fun v hv hf => freshUser_after_waitlisted hv hf⟩
    · simp only [expectedBookResult, if_neg hj, h.nextWaitingId, h.maxPosition]
    · refine ⟨Inv_waitlisted h.inv E u _ h.event hfresh.1 hfresh.2, h.nonzero, ?_, ?_, ?_, ?_,
        ?_, ?_⟩
      · have he := h.event
        simp only [EventRepository.findByIdForUpdate] at he
        simp only [EventRepository.findByIdForUpdate, WaitingListRepository.add]
        rw [he]
        congr 2
        omega
      · have hmax := h.maxPosition
        have hupper := sqlMax_getD_upper
          ((WaitingListRepository.waitingOf E s).map (fun w => w.position))
        rw [hmax] at hupper
        have hw : (WaitingListRepository.waitingOf E (WaitingListRepository.add E u s).2).map
              (fun w => w.position)
            = (WaitingListRepository.waitingOf E s).map (fun w => w.position)
              ++ [(sqlMax ((WaitingListRepository.waitingOf E s).map
                    (fun w => w.position))).getD 0 + 1] := by
          simp [WaitingListRepository.waitingOf, WaitingListRepository.add,
            List.filter_append, List.filter_cons]
        rw [hw, hmax, sqlMax_append_top _ _ (fun y hy => by have := hupper y hy; omega)]
        simp only [Option.getD_some]
        omega
      · exact h.confirmed.trans (by omega)
      · have := h.waiting
        simp only [WaitingListRepository.countByEvent, WaitingListRepository.add,
          List.countP_append] at this ⊢
        rw [this]
        simp
        omega
      · have := h.nextBookingId
        simp only [WaitingListRepository.add]
        rw [this]; omega
      · have := h.nextWaitingId
        simp only [WaitingListRepository.add]
        rw [this]; omega

theorem isConfirmedResult_expected (E : Int) (K : Nat) (nb nw : Int) (j : Nat) (u : Int) :
    isConfirmedResult (expectedBookResult E K nb nw j u) = decide (j < K) := by
  by_cases hj : j < K
  · rw [expectedBookResult, if_pos hj, isConfirmedResult]
    simp [hj]
  · simp [expectedBookResult, hj, isConfirmedResult]

theorem isWaitlistedResult_expected (E : Int) (K : Nat) (nb nw : Int) (j : Nat) (u : Int) :
    isWaitlistedResult (expectedBookResult E K nb nw j u) = decide (¬ j < K) := by
  by_cases hj : j < K
  · simp [expectedBookResult, hj, isWaitlistedResult]
  · simp [expectedBookResult, hj, isWaitlistedResult]

/-- A run of `book` calls by distinct fresh users from a fill state. -/
theorem bookEach_fill {E : Int} {name : String} {K : Nat} {nb nw : Int} :
    ∀ (us : List Int) (j : Nat) (s : Store), FillState E name K nb nw j s →
      us.Nodup → (∀ u ∈ us, u ≠ 0) → (∀ u ∈ us, freshUser E u s) →
      (∀ i u, us[i]? = some u →
        (bookEach E us s).1[i]? = some (expectedBookResult E K nb nw (j + i) u)) ∧
      (bookEach E us s).1.length = us.length ∧
      FillState E name K nb nw (j + us.length) (bookEach E us s).2 ∧
      (bookEach E us s).1.countP isConfirmedResult = min (j + us.length) K - min j K ∧
      (bookEach E us s).1.countP isWaitlistedResult = (j + us.length - K) - (j - K) := by
  intro us
  induction us with
  | nil =>
    intro j s h _ _ _
    refine ⟨?_, rfl, by simpa [bookEach] using h, by simp [bookEach], by simp [bookEach]⟩
    intro i u hi
    simp at hi
  | cons u us ih =>
    intro j s h hnd hnz hfresh
    rw [List.nodup_cons] at hnd
    obtain ⟨hres, hstate, hkeep⟩ := FillState_book h u (hnz u (List.mem_cons_self _ _))
      (hfresh u (List.mem_cons_self _ _))
    have hfresh2 : ∀ v ∈ us,
        freshUser E v (BookingService.book (.number E) (.number u) s).db := by
      intro v hv
      refine hkeep v ?_ (hfresh v (List.mem_cons_of_mem _ hv))
      rintro rfl
      exact hnd.1 hv
    obtain ⟨ih1, ih2, ih3, ih4, ih5⟩ := ih (j + 1)
      (BookingService.book (.number E) (.number u) s).db hstate hnd.2
      (fun v hv => hnz v (List.mem_cons_of_mem _ hv)) hfresh2
    have hrun : bookEach E (u :: us) s
        = ((BookingService.book (.number E) (.number u) s).result
            :: (bookEach E us (BookingService.book (.number E) (.number u) s).db).1,
           (bookEach E us (BookingService.book (.number E) (.number u) s).db).2) := rfl
    rw [hrun]
    refine ⟨?_, ?_, ?_, ?_, ?_⟩
    · intro i v hi
      cases i with
      | zero =>
        simp only [List.getElem?_cons_zero, Option.some.injEq] at hi ⊢
        subst hi
        simpa using hres
      | succ i =>
        simp only [List.getElem?_cons_succ] at hi ⊢
        have := ih1 i v hi
        rw [this]
        congr 2
        omega
    · simp [ih2]
    · have : j + (u :: us).length = j + 1 + us.length := by simp; omega
      rw [this]; exact ih3
    · simp only [List.countP_cons, ih4, hres, isConfirmedResult_expected, List.length_cons]
      by_cases hj : j < K
      · simp only [hj, decide_True, if_true]; omega
      · simp only [hj, decide_False]; simp; omega
    · simp only [List.countP_cons, ih5, hres, isWaitlistedResult_expected, List.length_cons]
      by_cases hj : j < K
      · simp only [hj, not_true_eq_false, decide_False]; simp; omega
      · simp only [hj, not_false_eq_true, decide_True, if_true]; omega

/-- Initializing an event in a store that satisfies the invariant gives the fill
state 0, and every user is fresh for the new event. -/
theorem fill_initial (s : Store) (hs : s.Inv) (name : String) (hname : name ≠ "")
    (K : Nat) (hK : 1 ≤ K) :
    FillState s.nextEventId name K s.nextBookingId s.nextWaitingId 0
      (EventService.initializeEvent (.string name) (.number K) s).db ∧
    ∀ u, freshUser s.nextEventId u
      (EventService.initializeEvent (.string name) (.number K) s).db := by
  have hdb : (EventService.initializeEvent (.string name) (.number K) s).db
      = (EventRepository.create name K s).2 := by
    have hK2 : ¬ ((K : Int) ≤ 0) := by omega
    have hK3 : ¬ ((K : Int) = 0) := by omega
    unfold EventService.initializeEvent
    simp only [JsValue.truthy, JsValue.isString, JsValue.isNumber, JsValue.numLe,
      JsValue.sqlText, JsValue.sqlInt]
    simp [hname, hK2, hK3]
    split <;> rfl
  have hnoB : ∀ b ∈ s.bookings, b.event_id ≠ s.nextEventId := by
    intro b hb hid
    obtain ⟨e, he, heid⟩ := hs.bookingRefs b hb
    have := (hs.eventKeys.2.1 e.id (List.mem_map.2 ⟨e, he, rfl⟩)).2
    omega
  have hnoW : ∀ w ∈ s.waiting_list, w.event_id ≠ s.nextEventId := by
    intro w hw hid
    obtain ⟨e, he, heid⟩ := hs.waitingRefs w hw
    have := (hs.eventKeys.2.1 e.id (List.mem_map.2 ⟨e, he, rfl⟩)).2
    omega
  have hnoE : ∀ e ∈ s.events, e.id ≠ s.nextEventId := by
    intro e he hid
    have := (hs.eventKeys.2.1 e.id (List.mem_map.2 ⟨e, he, rfl⟩)).2
    omega
  rw [hdb]
  constructor
  · refine ⟨Inv_created hs name K (by omega), ?_, ?_, ?_, ?_, ?_, ?_, ?_⟩
    · have := hs.eventKeys.2.2; omega
    · simp only [EventRepository.findByIdForUpdate, EventRepository.create]
      rw [List.find?_append]
      have : s.events.find? (fun e => decide (e.id = s.nextEventId)) = none := by
        rw [List.find?_eq_none]
        intro e he; simpa using hnoE e he
      rw [this]
      simp
    · have : WaitingListRepository.waitingOf s.nextEventId (EventRepository.create name K s).2
          = [] := by
        rw [List.eq_nil_iff_forall_not_mem]
        intro w hw
        rw [mem_waitingOf] at hw
        exact hnoW w hw.1 hw.2.1
      rw [this]; simp [sqlMax]
    · rw [BookingRepository.countByEvent, List.countP_eq_zero.2]
      · simp
      · intro b hb
        have := hnoB b hb
        simp [this]
    · rw [WaitingListRepository.countByEvent, List.countP_eq_zero.2]
      · simp
      · intro w hw
        have := hnoW w hw
        simp [this]
    · simp [EventRepository.create]
    · simp [EventRepository.create]
  · intro u
    constructor
    · simp only [BookingRepository.findActiveByEventAndUser, List.find?_eq_none]
      intro b hb
      have := hnoB b hb
      simp [this]
    · simp only [WaitingListRepository.findByEventAndUser, List.find?_eq_none]
      intro w hw
      have := hnoW w hw
      simp [this]

/-- C13. For every `K ≥ 1` and every list of `N` pairwise distinct users (ids that
pass validation), in whatever order: initialize an event with `K` tickets in a
reachable store and let the users book it one after the other. Call `i`
(counting from 0) returns a confirmed booking when `i < K` and otherwise the
waiting-list position `i - K + 1`; exactly `min N K` calls return 'confirmed'
and exactly `N - min N K` return a waiting-list id; afterwards the event has
`available_tickets = max 0 (K - N)`, `min N K` confirmed bookings and
`N - min N K` 'waiting' entries. -/
theorem distinct_users_fill_then_queue (s : Store) (hs : Reachable s) (name : String)
    (hname : name ≠ "") (K : Nat) (hK : 1 ≤ K) (users : List Int) (hnd : users.Nodup)
    (hnz : ∀ u ∈ users, u ≠ 0) :
    (∀ i u, users[i]? = some u →
      (fillEvent name K users s).1[i]?
        = some (expectedBookResult s.nextEventId K s.nextBookingId s.nextWaitingId i u)) ∧
    (fillEvent name K users s).1.length = users.length ∧
    (fillEvent name K users s).1.countP isConfirmedResult = min users.length K ∧
    (fillEvent name K users s).1.countP isWaitlistedResult
      = users.length - min users.length K ∧
    EventRepository.findById s.nextEventId (fillEvent name K users s).2
      = some { id := s.nextEventId, name := name, total_tickets := K,
               available_tickets := max 0 ((K : Int) - (users.length : Int)) } ∧
    BookingRepository.countByEvent s.nextEventId (fillEvent name K users s).2
      = min users.length K ∧
    WaitingListRepository.countByEvent s.nextEventId (fillEvent name K users s).2
      = users.length - min users.length K := by
  obtain ⟨h0, hfresh⟩ := fill_initial s (reachable_inv hs) name hname K hK
  obtain ⟨h1, h2, h3, h4, h5⟩ := bookEach_fill users 0 _ h0 hnd hnz (fun u _ => hfresh u)
  simp only [Nat.zero_add] at h1 h3 h4 h5
  refine ⟨h1, h2, ?_, ?_, ?_, h3.confirmed, ?_⟩
  · rw [fillEvent, h4]; omega
  · rw [fillEvent, h5]; omega
  · have := h3.event
    simp only [EventRepository.findByIdForUpdate] at this
    simp only [EventRepository.findById, fillEvent]
    rw [this]
    congr 2
    omega
  · rw [fillEvent, h3.waiting]; omega

/-- Witness for C13: three users book a fresh two-ticket event in `queuedStore`. -/
theorem distinct_users_fill_then_queue_witness :
    (∀ i u, [11, 12, 13][i]? = some u →
      (fillEvent "Play" 2 [11, 12, 13] queuedStore).1[i]?
        = some (expectedBookResult 2 2 3 3 i u)) ∧
    (fillEvent "Play" 2 [11, 12, 13] queuedStore).1.length = 3 ∧
    (fillEvent "Play" 2 [11, 12, 13] queuedStore).1.countP isConfirmedResult = 2 ∧
    (fillEvent "Play" 2 [11, 12, 13] queuedStore).1.countP isWaitlistedResult = 1 ∧
    EventRepository.findById 2 (fillEvent "Play" 2 [11, 12, 13] queuedStore).2
      = some { id := 2, name := "Play", total_tickets := 2, available_tickets := 0 } ∧
    BookingRepository.countByEvent 2 (fillEvent "Play" 2 [11, 12, 13] queuedStore).2 = 2 ∧
    WaitingListRepository.countByEvent 2 (fillEvent "Play" 2 [11, 12, 13] queuedStore).2
      = 1 :=
  distinct_users_fill_then_queue queuedStore queuedStore_reachable "Play" (by decide) 2
    (by decide) [11, 12, 13] (by decide) (by decide)

/-! ## Runs of cancellations: facts -/

/-- The settled `cancel` of a confirmed booking while somebody is waiting. -/
theorem cancel_when_queue (s : Store) (k : Int) (hk : k ≠ 0) (b : BookingRow)
    (w : WaitingRow) (hb : BookingRepository.findByIdForUpdate k s = some b)
    (hst : b.status = .confirmed)
    (hw : WaitingListRepository.findNextInLine b.event_id s = some w) :
    (BookingService.cancel (.number k) s).result
      = .ok { message := "Booking cancelled successfully", reassigned := true,
              reassignedTo := some { userId := w.user_id, bookingId := s.nextBookingId } } ∧
    (BookingService.cancel (.number k) s).db
      = (WaitingListRepository.promote w.id
          (BookingRepository.create b.event_id w.user_id
            (BookingRepository.cancel k s).2).2).2 := by
  have hst2 : b.status ≠ .cancelled := by rw [hst]; decide
  have hw2 : WaitingListRepository.findNextInLine b.event_id
      (BookingRepository.cancel k s).2 = some w := hw
  rw [cancel_unfold k hk]
  simp [BookingService.cancelTry, JsValue.sqlInt, hb, hst2, hw2, Outcome.settle,
    Connection.commit, Connection.release, Connection.execute, BookingRepository.create]
  rfl

/-- In a store that satisfies the invariant, the 'waiting' entries of an event
stand in increasing position. -/
theorem waitingOf_sorted {s : Store} (h : s.Inv) (e : Int) :
    (WaitingListRepository.waitingOf e s).Pairwise (fun a b => a.position < b.position) := by
  have hf : (WaitingListRepository.waitingOf e s).Pairwise queueOrdered :=
    h.fifo.filter _
  refine hf.imp_of_mem ?_
  intro a b ha hb hab
  rw [mem_waitingOf] at ha hb
  exact hab (by rw [ha.2.1, hb.2.1]) ha.2.2 hb.2.2

theorem firstByPosition_sorted (l : List WaitingRow)
    (h : l.Pairwise (fun a b => a.position < b.position)) : firstByPosition l = l.head? := by
  induction l with
  | nil => rfl
  | cons x xs ih =>
    rw [List.pairwise_cons] at h
    have ih2 := ih h.2
    cases xs with
    | nil => simp [firstByPosition]
    | cons y ys =>
      simp only [List.head?_cons] at ih2
      have hxy : x.position ≤ y.position := le_of_lt (h.1 y (List.mem_cons_self _ _))
      have hunfold : firstByPosition (x :: y :: ys)
          = match firstByPosition (y :: ys) with
            | none => some x
            | some m => if x.position ≤ m.position then some x else some m := rfl
      rw [hunfold, ih2]
      simp [hxy]

theorem filter_map_drop_key {α : Type} (p : α → Bool) (key : α → Int) (f : α → α) (k : Int)
    (l : List α) (hf : ∀ x, p (f x) = false) :
    (l.map (fun x => if key x = k then f x else x)).filter p
      = (l.filter p).filter (fun x => decide (key x ≠ k)) := by
  induction l with
  | nil => rfl
  | cons x xs ih =>
    by_cases hk : key x = k
    · by_cases hp : p x = true
      · simp [List.filter_cons, hk, hp, hf, ih]
      · simp [List.filter_cons, hk, hp, hf, ih]
    · by_cases hp : p x = true
      · simp [List.filter_cons, hk, hp, ih]
      · simp [List.filter_cons, hk, hp, ih]

/-- Promoting the head of the queue of an event removes exactly it from the
event's 'waiting' entries. -/
theorem waitingOf_after_promote {s : Store} (h : s.Inv) (e : Int) (w : WaitingRow)
    (hw : WaitingListRepository.findNextInLine e s = some w) (t : Store)
    (ht : t.waiting_list = s.waiting_list.map (fun x =>
      if x.id = w.id then { x with status := WaitingStatus.promoted } else x)) :
    WaitingListRepository.waitingOf e s = w :: WaitingListRepository.waitingOf e t := by
  have hsorted := waitingOf_sorted h e
  have hhead : (WaitingListRepository.waitingOf e s).head? = some w := by
    rw [← firstByPosition_sorted _ hsorted]; exact hw
  have hdrop : WaitingListRepository.waitingOf e t
      = (WaitingListRepository.waitingOf e s).filter (fun x => decide (x.id ≠ w.id)) := by
    simp only [WaitingListRepository.waitingOf, ht]
    exact filter_map_drop_key
      (fun x : WaitingRow => decide (x.event_id = e ∧ x.status = .waiting))
      (fun x => x.id) (fun x => { x with status := WaitingStatus.promoted }) w.id
      s.waiting_list (by intro x; simp)
  cases hl : WaitingListRepository.waitingOf e s with
  | nil => rw [hl] at hhead; cases hhead
  | cons x xs =>
    rw [hl] at hhead hsorted
    simp only [List.head?_cons, Option.some.injEq] at hhead
    subst hhead
    rw [hdrop, hl]
    have hxs : xs.filter (fun y => decide (y.id ≠ x.id)) = xs := by
      rw [List.filter_eq_self]
      intro y hy
      have hymem : y ∈ WaitingListRepository.waitingOf e s := by
        rw [hl]; exact List.mem_cons_of_mem _ hy
      have hxmem : x ∈ WaitingListRepository.waitingOf e s := by
        rw [hl]; exact List.mem_cons_self _ _
      rw [mem_waitingOf] at hymem hxmem
      have hlt := (List.pairwise_cons.1 hsorted).1 y hy
      have : y.id ≠ x.id := by
        intro hid
        have := keysOk_unique s.waiting_list (fun x => x.id) _
          (keysSorted_toKeysOk h.waitingKeys) hymem.1 hxmem.1 hid
        subst this
        omega
      simpa using this
    rw [List.filter_cons_of_neg (by simp), hxs]

theorem promote_then_promoteFirst {s : Store} (h : s.Inv) (e : Int) (w : WaitingRow)
    (hw : WaitingListRepository.findNextInLine e s = some w) (t : Store)
    (ht : t.waiting_list = s.waiting_list.map (fun x =>
      if x.id = w.id then { x with status := WaitingStatus.promoted } else x)) (n : Nat) :
    promoteFirst e n t = promoteFirst e (n + 1) s := by
  have hsplit := waitingOf_after_promote h e w hw t ht
  obtain ⟨hwm, -, -, -⟩ := findNextInLine_spec hw
  simp only [promoteFirst, ht, List.map_map, hsplit, List.take_succ_cons]
  apply List.map_congr_left
  intro x hx
  simp only [Function.comp]
  by_cases hid : x.id = w.id
  · have hxw : x = w :=
      keysOk_unique s.waiting_list (fun x => x.id) _ (keysSorted_toKeysOk h.waitingKeys)
        hx hwm hid
    subst hxw
    have hnot : ({ x with status := WaitingStatus.promoted } : WaitingRow)
        ∉ (WaitingListRepository.waitingOf e t).take n := by
      intro hmem
      have := List.mem_of_mem_take hmem
      rw [mem_waitingOf] at this
      exact absurd this.2.2 (by simp)
    simp [hnot]
  · have hne : x ≠ w := fun hxw => hid (by rw [hxw])
    simp [hid, hne]

/-- Cancelling confirmed bookings of one event, no more of them than there are
'waiting' entries: every cancel reassigns, and the store changes as stated. -/
theorem cancelEach_promotes (e : Int) :
    ∀ (ks : List Int) (s : Store), s.Inv → ks.Nodup →
      (∀ k ∈ ks, ∃ b ∈ s.bookings, b.id = k ∧ b.event_id = e ∧ b.status = .confirmed) →
      ks.length ≤ WaitingListRepository.countByEvent e s →
      (∀ r ∈ (cancelEach ks s).1,
        ∃ res : CancelResult, r = .ok res ∧ res.reassigned = true) ∧
      (cancelEach ks s).1.length = ks.length ∧
      (cancelEach ks s).2.events = s.events ∧
      BookingRepository.countByEvent e (cancelEach ks s).2
        = BookingRepository.countByEvent e s ∧
      (cancelEach ks s).2.waiting_list = promoteFirst e ks.length s ∧
      WaitingListRepository.countByEvent e (cancelEach ks s).2 + ks.length
        = WaitingListRepository.countByEvent e s ∧
      promotedCountOf e (cancelEach ks s).2 = promotedCountOf e s + ks.length := by
  intro ks
  induction ks with
  | nil =>
    intro s _ _ _ _
    refine ⟨by simp [cancelEach], rfl, rfl, rfl, ?_, rfl, rfl⟩
    simp [cancelEach, promoteFirst]
  | cons k ks ih =>
    intro s hinv hnd hks hlen
    rw [List.nodup_cons] at hnd
    obtain ⟨b, hbm, hbid, hbe, hbs⟩ := hks k (List.mem_cons_self _ _)
    have hwf := inv_wellFormed hinv
    have hk : k ≠ 0 := by
      rw [← hbid]; exact keysOk_pos s.bookings (fun x => x.id) _ hwf.2.1 hbm
    have hfind : BookingRepository.findByIdForUpdate k s = some b := by
      rw [← hbid]; exact findBooking_of_mem s hwf hbm
    have hcount : WaitingListRepository.countByEvent e s
        = (WaitingListRepository.waitingOf e s).length := by
      simp [WaitingListRepository.countByEvent, WaitingListRepository.waitingOf,
        List.countP_eq_length_filter]
    obtain ⟨w, hw⟩ : ∃ w, WaitingListRepository.findNextInLine e s = some w := by
      cases hn : WaitingListRepository.findNextInLine e s with
      | some w => exact ⟨w, rfl⟩
      | none =>
        rw [WaitingListRepository.findNextInLine, firstByPosition_eq_none] at hn
        rw [hcount, hn] at hlen
        simp at hlen
    have hw' : WaitingListRepository.findNextInLine b.event_id s = some w := by
      rw [hbe]; exact hw
    obtain ⟨hwm, hwe, hws, -⟩ := findNextInLine_spec hw
    obtain ⟨hres, hdb⟩ := cancel_when_queue s k hk b w hfind hbs hw'
    have hinv1 := Inv_promoted hinv k b w hfind hbs hw'
    rw [← hdb] at hinv1
    have hwl : (BookingService.cancel (.number k) s).db.waiting_list
        = s.waiting_list.map (fun x =>
            if x.id = w.id then { x with status := WaitingStatus.promoted } else x) := by
      rw [hdb]; rfl
    have hsplit := waitingOf_after_promote hinv e w hw _ hwl
    have hcount1 : WaitingListRepository.countByEvent e (BookingService.cancel (.number k) s).db
        + 1 = WaitingListRepository.countByEvent e s := by
      have hc1 : WaitingListRepository.countByEvent e (BookingService.cancel (.number k) s).db
          = (WaitingListRepository.waitingOf e
              (BookingService.cancel (.number k) s).db).length := by
        simp [WaitingListRepository.countByEvent, WaitingListRepository.waitingOf,
          List.countP_eq_length_filter]
      rw [hc1, hcount, hsplit, List.length_cons]
    have hks1 : ∀ k' ∈ ks, ∃ b' ∈ (BookingService.cancel (.number k) s).db.bookings,
        b'.id = k' ∧ b'.event_id = e ∧ b'.status = .confirmed := by
      intro k' hk'
      obtain ⟨b', hb'm, hb'id, hb'e, hb's⟩ := hks k' (List.mem_cons_of_mem _ hk')
      refine ⟨b', ?_, hb'id, hb'e, hb's⟩
      rw [hdb]
      simp only [WaitingListRepository.promote, BookingRepository.create,
        BookingRepository.cancel, List.mem_append, List.mem_map]
      left
      refine ⟨b', hb'm, ?_⟩
      have : ¬ b'.id = k := by
        rw [hb'id]; rintro rfl; exact hnd.1 hk'
      rw [if_neg this]
    obtain ⟨ih1, ih2, ih3, ih4, ih5, ih6, ih7⟩ := ih
      (BookingService.cancel (.number k) s).db hinv1 hnd.2 hks1
      (by simp only [List.length_cons] at hlen; omega)
    have hrun : cancelEach (k :: ks) s
        = ((BookingService.cancel (.number k) s).result
            :: (cancelEach ks (BookingService.cancel (.number k) s).db).1,
           (cancelEach ks (BookingService.cancel (.number k) s).db).2) := rfl
    rw [hrun]
    refine ⟨?_, ?_, ?_, ?_, ?_, ?_, ?_⟩
    · intro r hr
      rcases List.mem_cons.1 hr with rfl | hr
      · exact ⟨_, hres, rfl⟩
      · exact ih1 r hr
    · simp [ih2]
    · rw [ih3, hdb]; rfl
    · rw [ih4, hdb]
      have hc := countByEvent_cancel hinv hfind hbs e
      simp only [BookingRepository.countByEvent, WaitingListRepository.promote,
        BookingRepository.create, BookingRepository.cancel, List.countP_append] at hc ⊢
      simp [hbe] at hc ⊢
      omega
    · rw [ih5, List.length_cons]
      exact promote_then_promoteFirst hinv e w hw _ hwl ks.length
    · simp only [List.length_cons]; omega
    · rw [ih7, List.length_cons]
      have hp := countP_update_key
        (fun x : WaitingRow => decide (x.event_id = e ∧ x.status = .promoted))
        s.waiting_list (fun x => x.id) _ hwf.2.2 hwm
        (fun x => { x with status := WaitingStatus.promoted })
      simp only [promotedCountOf, hwl]
      simp [hwe, hbe, hws] at hp ⊢
      omega

theorem busyStore_reachable : Reachable busyStore :=
  ⟨[.initializeEvent (.string "Concert") (.number 2), .book (.number 1) (.number 7),
    .book (.number 1) (.number 8), .book (.number 1) (.number 9),
    .book (.number 1) (.number 10)], by decide⟩

/-- C14. In a reachable store, cancel any `m` pairwise distinct confirmed bookings
of one event, in any order, where `m` is at most the number of the event's
'waiting' entries. Every cancel returns `reassigned = true`; the event's
confirmed-booking count and its event row (so `available_tickets`) are as
before; the waiting count drops by `m` and the promoted count rises by `m`; and
the waiting list is the old one with exactly the first `m` 'waiting' entries of
the event marked 'promoted', each of which has a smaller position than every
entry of the event that is still waiting. -/
theorem cancellations_promote_queue_heads (s : Store) (hs : Reachable s) (e : Int)
    (ks : List Int) (hnd : ks.Nodup)
    (hks : ∀ k ∈ ks, ∃ b ∈ s.bookings, b.id = k ∧ b.event_id = e ∧ b.status = .confirmed)
    (hm : ks.length ≤ WaitingListRepository.countByEvent e s) :
    (∀ r ∈ (cancelEach ks s).1, ∃ res : CancelResult, r = .ok res ∧ res.reassigned = true) ∧
    (cancelEach ks s).1.length = ks.length ∧
    BookingRepository.countByEvent e (cancelEach ks s).2
      = BookingRepository.countByEvent e s ∧
    (cancelEach ks s).2.events = s.events ∧
    WaitingListRepository.countByEvent e (cancelEach ks s).2
      = WaitingListRepository.countByEvent e s - ks.length ∧
    promotedCountOf e (cancelEach ks s).2 = promotedCountOf e s + ks.length ∧
    (cancelEach ks s).2.waiting_list = promoteFirst e ks.length s ∧
    (∀ x ∈ (WaitingListRepository.waitingOf e s).take ks.length,
      ∀ y ∈ (WaitingListRepository.waitingOf e s).drop ks.length,
        x.position < y.position) := by
  have hinv := reachable_inv hs
  obtain ⟨h1, h2, h3, h4, h5, h6, h7⟩ := cancelEach_promotes e ks s hinv hnd hks hm
  refine ⟨h1, h2, h4, h3, by omega, h7, h5, ?_⟩
  have hsorted := waitingOf_sorted hinv e
  rw [← List.take_append_drop ks.length (WaitingListRepository.waitingOf e s),
    List.pairwise_append] at hsorted
  exact hsorted.2.2

/-- Witness for C14: both confirmed bookings of `busyStore` are cancelled, the
later one first. -/
theorem cancellations_promote_queue_heads_witness :
    (∀ r ∈ (cancelEach [2, 1] busyStore).1,
      ∃ res : CancelResult, r = .ok res ∧ res.reassigned = true) ∧
    (cancelEach [2, 1] busyStore).1.length = 2 ∧
    BookingRepository.countByEvent 1 (cancelEach [2, 1] busyStore).2
      = BookingRepository.countByEvent 1 busyStore ∧
    (cancelEach [2, 1] busyStore).2.events = busyStore.events ∧
    WaitingListRepository.countByEvent 1 (cancelEach [2, 1] busyStore).2
      = WaitingListRepository.countByEvent 1 busyStore - 2 ∧
    promotedCountOf 1 (cancelEach [2, 1] busyStore).2 = promotedCountOf 1 busyStore + 2 ∧
    (cancelEach [2, 1] busyStore).2.waiting_list = promoteFirst 1 2 busyStore ∧
    (∀ x ∈ (WaitingListRepository.waitingOf 1 busyStore).take 2,
      ∀ y ∈ (WaitingListRepository.waitingOf 1 busyStore).drop 2,
        x.position < y.position) :=
  cancellations_promote_queue_heads busyStore busyStore_reachable 1 [2, 1] (by decide)
    (by decide) (by decide)

/-! ## Nobody waits while a ticket is free: facts -/

theorem noIdleTicket_step {s t : Store} (hinv : s.Inv) (h : noIdleTicket s)
    (hst : Step s t) : noIdleTicket t := by
  have hwf := inv_wellFormed hinv
  cases hst with
  | stay => exact h
  | created name n hn =>
    intro e he hq
    simp only [EventRepository.create, List.mem_append, List.mem_singleton] at he
    obtain ⟨w, hw, hwe, hws⟩ := hq
    rcases he with he | rfl
    · exact h e he ⟨w, hw, hwe, hws⟩
    · obtain ⟨e0, he0, hid⟩ := hinv.waitingRefs w hw
      have := (hinv.eventKeys.2.1 e0.id (List.mem_map.2 ⟨e0, he0, rfl⟩)).2
      simp only at hwe
      omega
  | booked e u ev hev hav hb hw =>
    obtain ⟨hevm, hevid⟩ := findEvent_some hev
    intro x hx hq
    simp only [EventRepository.decrementAvailableTickets, BookingRepository.create,
      List.mem_map] at hx
    obtain ⟨x0, hx0, rfl⟩ := hx
    obtain ⟨w, hwm, hwe, hws⟩ := hq
    have hwm2 : w ∈ s.waiting_list := hwm
    by_cases hid : x0.id = e
    · have hx0ev : x0 = ev :=
        keysOk_unique s.events (fun x => x.id) _ hwf.1 hx0 hevm (by simp [hid, hevid])
      subst hx0ev
      have h0 := h x0 hx0 ⟨w, hwm2, by
        rw [hwe]; split <;> rfl, hws⟩
      omega
    · have hne : ¬ (x0.id = e ∧ x0.available_tickets > 0) := fun h3 => hid h3.1
      rw [if_neg hne] at hwe ⊢
      exact h x0 hx0 ⟨w, hwm2, hwe, hws⟩
  | waitlisted e u ev hev hav hb hw =>
    obtain ⟨hevm, hevid⟩ := findEvent_some hev
    intro x hx hq
    have hx2 : x ∈ s.events := hx
    obtain ⟨w, hwm, hwe, hws⟩ := hq
    simp only [WaitingListRepository.add, List.mem_append, List.mem_singleton] at hwm
    rcases hwm with hwm | rfl
    · exact h x hx2 ⟨w, hwm, hwe, hws⟩
    · simp only at hwe
      have hxev : x = ev :=
        keysOk_unique s.events (fun x => x.id) _ hwf.1 hx2 hevm (by simp [← hwe, hevid])
      subst hxev
      have := (hinv.conserved x hx2).1
      omega
  | promoted k b w0 hb hst hw =>
    intro x hx hq
    have hx2 : x ∈ s.events := hx
    obtain ⟨w, hwm, hwe, hws⟩ := hq
    simp only [WaitingListRepository.promote, BookingRepository.create,
      BookingRepository.cancel, List.mem_map] at hwm
    obtain ⟨w1, hw1, rfl⟩ := hwm
    by_cases hid : w1.id = w0.id
    · rw [if_pos hid] at hws
      cases hws
    · rw [if_neg hid] at hwe hws
      exact h x hx2 ⟨w1, hw1, hwe, hws⟩
  | released k b hb hst hw =>
    intro x hx hq
    simp only [EventRepository.incrementAvailableTickets, BookingRepository.cancel,
      List.mem_map] at hx
    obtain ⟨x0, hx0, rfl⟩ := hx
    obtain ⟨w, hwm, hwe, hws⟩ := hq
    have hwm2 : w ∈ s.waiting_list := hwm
    by_cases hid : x0.id = b.event_id
    · rw [if_pos hid] at hwe
      simp only at hwe
      exact absurd ⟨by rw [hwe, hid], hws⟩ (findNextInLine_eq_none.1 hw w hwm2)
    · rw [if_neg hid] at hwe ⊢
      exact h x0 hx0 ⟨w, hwm2, hwe, hws⟩

theorem reachable_noIdleTicket {s : Store} (h : Reachable s) : noIdleTicket s :=
  reachable_induction (P := noIdleTicket) (by intro e he; cases he)
    (fun _ _ hr hp hstep => noIdleTicket_step (reachable_inv hr) hp hstep) s h

/-- C28. Ticket conservation: in every store reachable from the empty store by a
serial sequence of `initialize`, `book` and `cancel` calls, every event has
`available_tickets` plus the number of its 'confirmed' bookings equal to
`total_tickets`; and whatever `getStatus` returns there satisfies
`availableTickets + bookedTickets = totalTickets`. -/
theorem tickets_are_conserved (s : Store) (h : Reachable s) :
    (∀ e ∈ s.events,
      e.available_tickets
        + ((s.bookings.filter (fun b => b.event_id = e.id ∧ b.status = .confirmed)).length
            : Int)
        = e.total_tickets) ∧
    (∀ (eventId : JsValue) (r : StatusResult),
      (EventService.getStatus eventId s).result = .ok r →
        r.availableTickets + (r.bookedTickets : Int) = r.totalTickets) := by
  have hinv := reachable_inv h
  constructor
  · intro e he
    have := (hinv.conserved e he).2
    simpa [BookingRepository.countByEvent, List.countP_eq_length_filter] using this
  · intro eventId r hr
    unfold EventService.getStatus at hr
    split at hr
    · cases hr
    · cases hf : EventRepository.findById eventId.sqlInt s with
      | none => simp [hf] at hr
      | some ev =>
        simp only [hf] at hr
        have hmem : ev ∈ s.events := List.mem_of_find?_eq_some hf
        have hid : ev.id = eventId.sqlInt := by
          have := List.find?_some hf
          simpa using this
        have hc := (hinv.conserved ev hmem).2
        injection hr with hr
        subst hr
        simp only
        rw [← hid]
        exact hc

/-- Witness for C28: the store left by `sampleCalls` and its `getStatus(1)`. -/
theorem tickets_are_conserved_witness :
    (∀ e ∈ queuedStore.events,
      e.available_tickets
        + ((queuedStore.bookings.filter
              (fun b => b.event_id = e.id ∧ b.status = .confirmed)).length : Int)
        = e.total_tickets) ∧
    (EventService.getStatus (.number 1) queuedStore).result
      = .ok { eventId := 1, name := "Concert", totalTickets := 1, availableTickets := 0,
              bookedTickets := 1, waitingListCount := 1 } ∧
    (0 : Int) + ((1 : Nat) : Int) = 1 :=
  have h := tickets_are_conserved queuedStore queuedStore_reachable
  ⟨h.1, rfl, h.2 (.number 1) _ rfl⟩

/-- C24. On a well-formed store, `decrementAvailableTickets` lowers
`available_tickets` of the event with the given id, and of no other row, by
exactly 1 and reports `true` when that event exists with `available_tickets > 0`;
otherwise it reports `false` and leaves the store as it is; so it never takes a
non-negative `available_tickets` below 0. `incrementAvailableTickets` raises
`available_tickets` of that event, and of no other row, by exactly 1 and reports
`true` when the event exists, and otherwise reports `false` and changes nothing. -/
theorem ledger_decrement_and_increment (s : Store) (hwf : s.WellFormed) (eventId : Int) :
    (∀ ev ∈ s.events, ev.id = eventId → 0 < ev.available_tickets →
      (EventRepository.decrementAvailableTickets eventId s).1 = true ∧
      (EventRepository.decrementAvailableTickets eventId s).2
        = { s with events := s.events.map (fun x =>
              if x = ev then { ev with available_tickets := ev.available_tickets - 1 }
              else x) }) ∧
    ((¬ ∃ ev ∈ s.events, ev.id = eventId ∧ 0 < ev.available_tickets) →
      (EventRepository.decrementAvailableTickets eventId s).1 = false ∧
      (EventRepository.decrementAvailableTickets eventId s).2 = s) ∧
    ((∀ x ∈ s.events, 0 ≤ x.available_tickets) →
      ∀ x ∈ (EventRepository.decrementAvailableTickets eventId s).2.events,
        0 ≤ x.available_tickets) ∧
    (∀ ev ∈ s.events, ev.id = eventId →
      (EventRepository.incrementAvailableTickets eventId s).1 = true ∧
      (EventRepository.incrementAvailableTickets eventId s).2
        = { s with events := s.events.map (fun x =>
              if x = ev then { ev with available_tickets := ev.available_tickets + 1 }
              else x) }) ∧
    ((¬ ∃ ev ∈ s.events, ev.id = eventId) →
      (EventRepository.incrementAvailableTickets eventId s).1 = false ∧
      (EventRepository.incrementAvailableTickets eventId s).2 = s) := by
  refine ⟨?_, ?_, ?_, ?_, ?_⟩
  · intro ev hev hid hav
    constructor
    · simp only [EventRepository.decrementAvailableTickets, List.any_eq_true]
      exact ⟨ev, hev, by simp [hid, hav]⟩
    · have hmap : s.events.map (fun x =>
            if x.id = eventId ∧ x.available_tickets > 0 then
              { x with available_tickets := x.available_tickets - 1 } else x)
          = s.events.map (fun x =>
              if x = ev then { ev with available_tickets := ev.available_tickets - 1 }
              else x) := by
        apply List.map_congr_left
        intro x hx
        by_cases hk : x.id = eventId
        · have := keysOk_unique s.events (fun x => x.id) _ hwf.1 hx hev (by simp [hk, hid])
          subst this; simp [hk, hav]
        · have : x ≠ ev := fun hxa => hk (by rw [hxa, hid])
          simp [hk, this]
      simp only [EventRepository.decrementAvailableTickets, hmap]
  · intro hnone
    have hall : ∀ x ∈ s.events, ¬ (x.id = eventId ∧ x.available_tickets > 0) :=
      fun x hx hp => hnone ⟨x, hx, hp.1, hp.2⟩
    constructor
    · simp only [EventRepository.decrementAvailableTickets]
      rw [Bool.eq_false_iff]
      intro hany
      rw [List.any_eq_true] at hany
      obtain ⟨x, hx, hp⟩ := hany
      exact hall x hx (by simpa using hp)
    · have hmap : s.events.map (fun x =>
            if x.id = eventId ∧ x.available_tickets > 0 then
              { x with available_tickets := x.available_tickets - 1 } else x)
          = s.events := by
        conv_rhs => rw [← List.map_id s.events]
        apply List.map_congr_left
        intro x hx
        rw [if_neg (hall x hx)]; rfl
      simp only [EventRepository.decrementAvailableTickets, hmap]
  · intro hpos x hx
    simp only [EventRepository.decrementAvailableTickets, List.mem_map] at hx
    obtain ⟨x0, hx0, rfl⟩ := hx
    have := hpos x0 hx0
    split
    · rename_i hc
      simp only
      omega
    · exact this
  · intro ev hev hid
    constructor
    · simp only [EventRepository.incrementAvailableTickets, List.any_eq_true]
      exact ⟨ev, hev, by simp [hid]⟩
    · have hmap := map_key_eq s.events (fun x => x.id) _ hwf.1 hev
        (fun x => { x with available_tickets := x.available_tickets + 1 })
      simp only [hid] at hmap
      simp only [EventRepository.incrementAvailableTickets, hmap]
      simp [hid]
  · intro hnone
    have hall : ∀ x ∈ s.events, ¬ x.id = eventId :=
      fun x hx hp => hnone ⟨x, hx, hp⟩
    constructor
    · simp only [EventRepository.incrementAvailableTickets]
      rw [Bool.eq_false_iff]
      intro hany
      rw [List.any_eq_true] at hany
      obtain ⟨x, hx, hp⟩ := hany
      exact hall x hx (by simpa using hp)
    · have hmap : s.events.map (fun x =>
            if x.id = eventId then
              { x with available_tickets := x.available_tickets + 1 } else x)
          = s.events := by
        conv_rhs => rw [← List.map_id s.events]
        apply List.map_congr_left
        intro x hx
        rw [if_neg (hall x hx)]; rfl
      simp only [EventRepository.incrementAvailableTickets, hmap]

/-- Witness for C24: on `twoEventStore`, event 2 has a free ticket and event 1
has none. -/
theorem ledger_decrement_and_increment_witness :
    ((EventRepository.decrementAvailableTickets 2 twoEventStore).1 = true ∧
      (EventRepository.decrementAvailableTickets 2 twoEventStore).2
        = { twoEventStore with events := twoEventStore.events.map (fun x =>
              if x = { id := 2, name := "Play", total_tickets := 2, available_tickets := 1 }
              then { id := 2, name := "Play", total_tickets := 2, available_tickets := 1 - 1 }
              else x) }) ∧
    ((EventRepository.decrementAvailableTickets 1 twoEventStore).1 = false ∧
      (EventRepository.decrementAvailableTickets 1 twoEventStore).2 = twoEventStore) ∧
    ((EventRepository.incrementAvailableTickets 1 twoEventStore).1 = true ∧
      (EventRepository.incrementAvailableTickets 1 twoEventStore).2
        = { twoEventStore with events := twoEventStore.events.map (fun x =>
              if x = { id := 1, name := "Concert", total_tickets := 1,
                       available_tickets := 0 }
              then { id := 1, name := "Concert", total_tickets := 1,
                     available_tickets := 0 + 1 }
              else x) }) ∧
    ((EventRepository.incrementAvailableTickets 5 twoEventStore).1 = false ∧
      (EventRepository.incrementAvailableTickets 5 twoEventStore).2 = twoEventStore) :=
  ⟨(ledger_decrement_and_increment twoEventStore (by decide) 2).1
      { id := 2, name := "Play", total_tickets := 2, available_tickets := 1 }
      (by decide) rfl (by decide),
   (ledger_decrement_and_increment twoEventStore (by decide) 1).2.1 (by decide),
   (ledger_decrement_and_increment twoEventStore (by decide) 1).2.2.2.1
      { id := 1, name := "Concert", total_tickets := 1, available_tickets := 0 }
      (by decide) rfl,
   (ledger_decrement_and_increment twoEventStore (by decide) 5).2.2.2.2 (by decide)⟩

/-- C21. On a well-formed store `getStatus` changes nothing and makes no pool
call. For the id of an existing event `ev` it returns the event's id, name,
`total_tickets` and `available_tickets` together with the number of the event's
bookings with status 'confirmed' and the number of its waiting-list entries
with status 'waiting'. For an id that passes validation but belongs to no event
it fails with `NotFoundError`; for an id that is `null`, zero, `NaN` or not a
number it fails with `ValidationError`. -/
theorem getStatus_reports_counts (s : Store) (hwf : s.WellFormed) (eventId : JsValue) :
    (∀ ev ∈ s.events, eventId = .number ev.id →
      (EventService.getStatus eventId s).result
        = .ok { eventId := ev.id, name := ev.name, totalTickets := ev.total_tickets,
                availableTickets := ev.available_tickets,
                bookedTickets := (s.bookings.filter
                  (fun b => b.event_id = ev.id ∧ b.status = .confirmed)).length,
                waitingListCount := (s.waiting_list.filter
                  (fun w => w.event_id = ev.id ∧ w.status = .waiting)).length }) ∧
    (passesValidation eventId → (∀ ev ∈ s.events, ev.id ≠ eventId.sqlInt) →
      (EventService.getStatus eventId s).result
        = .error ⟨.NotFoundError, "Event not found"⟩) ∧
    ((eventId = .null ∨ eventId = .number 0 ∨ eventId = .nan ∨ eventId.isNumber = false) →
      (EventService.getStatus eventId s).result
        = .error ⟨.ValidationError, "Valid event ID is required"⟩) ∧
    (EventService.getStatus eventId s).db = s ∧
    (EventService.getStatus eventId s).calls = [] := by
  refine ⟨?_, ?_, ?_, ?_, ?_⟩
  · rintro ev hev rfl
    have hne : ev.id ≠ 0 := keysOk_pos s.events (fun x => x.id) _ hwf.1 hev
    have hfind : EventRepository.findById ev.id s = some ev :=
      find?_key s.events (fun x => x.id) s.nextEventId hwf.1 hev
    simp [EventService.getStatus, JsValue.truthy, JsValue.isNumber, JsValue.sqlInt, hne,
      hfind, BookingRepository.countByEvent, WaitingListRepository.countByEvent,
      List.countP_eq_length_filter]
  · intro hv hnone
    obtain ⟨n, hn, rfl⟩ := (passesValidation_iff eventId).1 hv
    have hfind : EventRepository.findById n s = none := by
      simp only [EventRepository.findById, List.find?_eq_none]
      intro ev hev
      simpa [JsValue.sqlInt] using hnone ev hev
    simp [EventService.getStatus, JsValue.truthy, JsValue.isNumber, JsValue.sqlInt, hn, hfind]
  · intro h
    rcases h with rfl | rfl | rfl | h
    · simp [EventService.getStatus, JsValue.truthy]
    · simp [EventService.getStatus, JsValue.truthy]
    · simp [EventService.getStatus, JsValue.truthy]
    · simp [EventService.getStatus, h]
  · unfold EventService.getStatus
    split
    · rfl
    · split <;> rfl
  · unfold EventService.getStatus
    split
    · rfl
    · split <;> rfl

/-- Witness for C21: `getStatus` on `queuedStore` for event 1 (one cancelled and
one confirmed booking, one promoted and one waiting entry), for the unknown id
5, and for `null`. -/
theorem getStatus_reports_counts_witness :
    (EventService.getStatus (.number 1) queuedStore).result
      = .ok { eventId := 1, name := "Concert", totalTickets := 1, availableTickets := 0,
              bookedTickets := (queuedStore.bookings.filter
                (fun b => b.event_id = 1 ∧ b.status = .confirmed)).length,
              waitingListCount := (queuedStore.waiting_list.filter
                (fun w => w.event_id = 1 ∧ w.status = .waiting)).length } ∧
    (queuedStore.bookings.filter
      (fun b => b.event_id = 1 ∧ b.status = .confirmed)).length = 1 ∧
    (queuedStore.waiting_list.filter
      (fun w => w.event_id = 1 ∧ w.status = .waiting)).length = 1 ∧
    (EventService.getStatus (.number 5) queuedStore).result
      = .error ⟨.NotFoundError, "Event not found"⟩ ∧
    (EventService.getStatus .null queuedStore).result
      = .error ⟨.ValidationError, "Valid event ID is required"⟩ :=
  ⟨(getStatus_reports_counts queuedStore (by decide) (.number 1)).1
      { id := 1, name := "Concert", total_tickets := 1, available_tickets := 0 }
      (by decide) rfl,
   rfl, rfl,
   (getStatus_reports_counts queuedStore (by decide) (.number 5)).2.1 (by decide)
      (by decide),
   (getStatus_reports_counts queuedStore (by decide) .null).2.2.1 (Or.inl rfl)⟩

/-- C23. `initialize` fails with `ValidationError` and changes nothing (no event
row, the event counter untouched, so `EventRepository.create` was not called)
when `name` is not a non-empty string, with the message of the name check
whatever `totalTickets` is; and when `name` is a non-empty string but
`totalTickets` is not a positive number (missing, not a number, `NaN`, 0 or
negative), with the message of the ticket check. -/
theorem initialize_rejects_bad_input (name totalTickets : JsValue) (s : Store) :
    ((¬ ∃ str : String, str ≠ "" ∧ name = .string str) →
      (EventService.initializeEvent name totalTickets s).result
        = .error ⟨.ValidationError, "Event name is required and must be a string"⟩ ∧
      (EventService.initializeEvent name totalTickets s).db = s) ∧
    ((∃ str : String, str ≠ "" ∧ name = .string str) →
      (¬ ∃ n : Int, 0 < n ∧ totalTickets = .number n) →
      (EventService.initializeEvent name totalTickets s).result
        = .error ⟨.ValidationError, "Total tickets must be a positive number"⟩ ∧
      (EventService.initializeEvent name totalTickets s).db = s) := by
  constructor
  · intro hname
    have g : (!name.truthy || !name.isString) = true := by
      cases name <;> simp_all [JsValue.truthy, JsValue.isString]
    simp [EventService.initializeEvent, g]
  · rintro ⟨str, hstr, rfl⟩ htotal
    have g1 : (!(JsValue.string str).truthy || !(JsValue.string str).isString) = false := by
      simp [JsValue.truthy, JsValue.isString, hstr]
    have g2 : (!totalTickets.truthy || !totalTickets.isNumber || totalTickets.numLe 0)
        = true := by
      cases totalTickets with
      | number n =>
        have : n ≤ 0 := by
          by_contra hc
          exact htotal ⟨n, by omega, rfl⟩
        simp [JsValue.truthy, JsValue.isNumber, JsValue.numLe, this]
      | _ => simp [JsValue.truthy, JsValue.isNumber, JsValue.numLe]
    simp [EventService.initializeEvent, g1, g2]

/-- Witness for C23: an empty name with a bad ticket count, and a good name with
a negative ticket count. -/
theorem initialize_rejects_bad_input_witness :
    ((EventService.initializeEvent (.string "") (.number (-10)) queuedStore).result
        = .error ⟨.ValidationError, "Event name is required and must be a string"⟩ ∧
      (EventService.initializeEvent (.string "") (.number (-10)) queuedStore).db
        = queuedStore) ∧
    ((EventService.initializeEvent (.string "Play") (.number (-10)) queuedStore).result
        = .error ⟨.ValidationError, "Total tickets must be a positive number"⟩ ∧
      (EventService.initializeEvent (.string "Play") (.number (-10)) queuedStore).db
        = queuedStore) :=
  ⟨(initialize_rejects_bad_input (.string "") (.number (-10)) queuedStore).1
      (by rintro ⟨str, hstr, h⟩; cases h; exact hstr rfl),
   (initialize_rejects_bad_input (.string "Play") (.number (-10)) queuedStore).2
      ⟨"Play", by decide, rfl⟩
      (by rintro ⟨n, hn, h⟩; cases h; omega)⟩

/-! ## Users in the tables: facts -/

/-- Induction over serial executions, call by call. -/
theorem reachable_induction_calls {P : Store → Prop} (h0 : P Store.empty)
    (hstep : ∀ (s : Store) (c : Call), Reachable s → P s → P (c.run s)) :
    ∀ s, Reachable s → P s := by
  rintro s ⟨calls, rfl⟩
  induction calls using List.reverseRecOn with
  | nil => exact h0
  | append_singleton cs c ih =>
    have hr : Reachable (runCalls cs Store.empty) := ⟨cs, rfl⟩
    have : runCalls (cs ++ [c]) Store.empty = c.run (runCalls cs Store.empty) := by
      simp [runCalls, List.foldl_append]
    rw [this]
    exact hstep _ c hr ih

theorem book_invalid_db (eventId userId : JsValue) (s : Store)
    (h : ¬ (passesValidation eventId ∧ passesValidation userId)) :
    (BookingService.book eventId userId s).db = s := by
  unfold BookingService.book
  by_cases hE : passesValidation eventId
  · have hU : ¬ passesValidation userId := fun hU => h ⟨hE, hU⟩
    have g1 : (!eventId.truthy || !eventId.isNumber) = false := by
      simp [passesValidation] at hE; simp [hE]
    have g2 : (!userId.truthy || !userId.isNumber) = true := by
      simp only [passesValidation] at hU
      cases h1 : userId.truthy <;> cases h2 : userId.isNumber <;> simp_all
    simp [g1, g2]
  · have g1 : (!eventId.truthy || !eventId.isNumber) = true := by
      simp only [passesValidation] at hE
      cases h1 : eventId.truthy <;> cases h2 : eventId.isNumber <;> simp_all
    simp [g1]

theorem usersValid_run (s : Store) (c : Call) (h : usersValid s) : usersValid (c.run s) := by
  cases c with
  | initializeEvent name totalTickets =>
    have hb : (EventService.initializeEvent name totalTickets s).db.bookings = s.bookings := by
      unfold EventService.initializeEvent
      split
      · rfl
      · split
        · rfl
        · simp only [EventRepository.create]
          split <;> rfl
    have hw : (EventService.initializeEvent name totalTickets s).db.waiting_list
        = s.waiting_list := by
      unfold EventService.initializeEvent
      split
      · rfl
      · split
        · rfl
        · simp only [EventRepository.create]
          split <;> rfl
    simp only [Call.run, usersValid, hb, hw]
    exact h
  | book eventId userId =>
    simp only [Call.run]
    by_cases hv : passesValidation eventId ∧ passesValidation userId
    · obtain ⟨u, hu, rfl⟩ := (passesValidation_iff userId).1 hv.2
      rcases book_db_cases eventId (.number u) s with hdb | hdb | hdb
      · rw [hdb]; exact h
      · rw [hdb]
        refine ⟨?_, h.2⟩
        intro b hb
        simp only [EventRepository.decrementAvailableTickets, BookingRepository.create,
          List.mem_append, List.mem_singleton] at hb
        rcases hb with hb | rfl
        · exact h.1 b hb
        · simpa [JsValue.sqlInt] using hu
      · rw [hdb]
        refine ⟨h.1, ?_⟩
        intro w hw
        simp only [WaitingListRepository.add, List.mem_append, List.mem_singleton] at hw
        rcases hw with hw | rfl
        · exact h.2 w hw
        · simpa [JsValue.sqlInt] using hu
    · rw [book_invalid_db eventId userId s hv]; exact h
  | cancel bookingId =>
    simp only [Call.run]
    rcases cancel_db_cases bookingId s with hdb | ⟨b, hb, ⟨w, hw, hdb⟩ | hdb⟩
    · rw [hdb]; exact h
    · obtain ⟨hwm, -, -, -⟩ := findNextInLine_spec hw
      rw [hdb]
      constructor
      · intro x hx
        simp only [WaitingListRepository.promote, BookingRepository.create,
          BookingRepository.cancel, List.mem_append, List.mem_map, List.mem_singleton] at hx
        rcases hx with ⟨x0, hx0, rfl⟩ | rfl
        · have := h.1 x0 hx0
          split <;> exact this
        · exact h.2 w hwm
      · intro x hx
        simp only [WaitingListRepository.promote, BookingRepository.create,
          BookingRepository.cancel, List.mem_map] at hx
        obtain ⟨x0, hx0, rfl⟩ := hx
        have := h.2 x0 hx0
        split <;> exact this
    · rw [hdb]
      refine ⟨?_, h.2⟩
      intro x hx
      simp only [EventRepository.incrementAvailableTickets, BookingRepository.cancel,
        List.mem_map] at hx
      obtain ⟨x0, hx0, rfl⟩ := hx
      have := h.1 x0 hx0
      split <;> exact this

theorem reachable_usersValid {s : Store} (h : Reachable s) : usersValid s :=
  reachable_induction_calls (P := usersValid)
    (And.intro (by intro b hb; cases hb) (by intro w hw; cases hw))
    (fun s c _ hp => usersValid_run s c hp) s h

/-- The settled `cancel` of a confirmed booking while nobody is waiting. -/
theorem cancel_when_no_queue (s : Store) (k : Int) (hk : k ≠ 0) (b : BookingRow)
    (hb : BookingRepository.findByIdForUpdate k s = some b)
    (hst : b.status = .confirmed)
    (hw : WaitingListRepository.findNextInLine b.event_id s = none) :
    (BookingService.cancel (.number k) s).result
      = .ok { message := "Booking cancelled successfully", reassigned := false,
              reassignedTo := none } ∧
    (BookingService.cancel (.number k) s).db
      = (EventRepository.incrementAvailableTickets b.event_id
          (BookingRepository.cancel k s).2).2 := by
  have hst2 : b.status ≠ .cancelled := by rw [hst]; decide
  have hw2 : WaitingListRepository.findNextInLine b.event_id
      (BookingRepository.cancel k s).2 = none := hw
  rw [cancel_unfold k hk]
  simp [BookingService.cancelTry, JsValue.sqlInt, hb, hst2, hw2, Outcome.settle,
    Connection.commit, Connection.release, Connection.execute]

theorem find?_none_of_countP {α : Type} (p : α → Bool) (l : List α)
    (h : l.countP p = 0) : l.find? p = none := by
  rw [List.countP_eq_zero] at h
  rw [List.find?_eq_none]
  exact h

/-- In a store that satisfies the invariant, the user of a confirmed booking has
exactly that one confirmed booking for the event and no 'waiting' entry. -/
theorem holder_counts {s : Store} (hinv : s.Inv) {b : BookingRow} (hb : b ∈ s.bookings)
    (hst : b.status = .confirmed) :
    confirmedFor b.event_id b.user_id s = 1 ∧ waitingFor b.event_id b.user_id s = 0 := by
  have hpos : 0 < confirmedFor b.event_id b.user_id s := by
    rw [confirmedFor, List.countP_pos_iff]
    exact ⟨b, hb, by simp [hst]⟩
  have := hinv.onePerUser b.event_id b.user_id
  omega

/-- Once the confirmed booking `b` is marked cancelled, its user has no confirmed
booking for the event left. -/
theorem no_confirmed_after_cancel {s : Store} (hinv : s.Inv) {b : BookingRow}
    (hb : b ∈ s.bookings) (hst : b.status = .confirmed) :
    (s.bookings.map (fun x =>
        if x.id = b.id then { x with status := BookingStatus.cancelled } else x)).countP
      (fun x => decide (x.event_id = b.event_id ∧ x.user_id = b.user_id
        ∧ x.status = .confirmed))
      = 0 := by
  have hc := (holder_counts hinv hb hst).1
  have := countP_update_key
    (fun x : BookingRow =>
      decide (x.event_id = b.event_id ∧ x.user_id = b.user_id ∧ x.status = .confirmed))
    s.bookings (fun x => x.id) _ (keysSorted_toKeysOk hinv.bookingKeys) hb
    (fun x => { x with status := BookingStatus.cancelled })
  rw [if_pos (by simp [hst]), if_neg (by simp)] at this
  rw [confirmedFor] at hc
  omega

/-- C30. Re-booking after cancellation: in every reachable store, cancelling a
confirmed booking succeeds, and a `book` for the same event by the same user run
on the store the cancel left behind does not fail with ConflictError; it returns
a new confirmed booking when the cancel reported `reassigned = false`, and a
waiting-list entry whose position is greater than that of every entry then
waiting for the event when the cancel reported `reassigned = true`. -/
theorem rebooking_after_cancellation (s : Store) (h : Reachable s) (b : BookingRow)
    (hb : b ∈ s.bookings) (hst : b.status = .confirmed) :
    ∃ res : CancelResult,
      (BookingService.cancel (.number b.id) s).result = .ok res ∧
      (∀ m, (BookingService.book (.number b.event_id) (.number b.user_id)
          (BookingService.cancel (.number b.id) s).db).result
            ≠ .error ⟨.ConflictError, m⟩) ∧
      (res.reassigned = false →
        (BookingService.book (.number b.event_id) (.number b.user_id)
          (BookingService.cancel (.number b.id) s).db).result
          = .ok (.booked (BookingService.cancel (.number b.id) s).db.nextBookingId
              (.number b.event_id) (.number b.user_id) "confirmed")) ∧
      (res.reassigned = true →
        ∃ position message,
          (BookingService.book (.number b.event_id) (.number b.user_id)
            (BookingService.cancel (.number b.id) s).db).result
            = .ok (.waitlisted (BookingService.cancel (.number b.id) s).db.nextWaitingId
                (.number b.event_id) (.number b.user_id) position message) ∧
          ∀ x ∈ (BookingService.cancel (.number b.id) s).db.waiting_list,
            x.event_id = b.event_id → x.status = .waiting → x.position < position) := by
  have hinv := reachable_inv h
  have hwf := inv_wellFormed hinv
  have hidle := reachable_noIdleTicket h
  have hu : b.user_id ≠ 0 := (reachable_usersValid h).1 b hb
  have hk : b.id ≠ 0 := keysOk_pos s.bookings (fun x => x.id) s.nextBookingId hwf.2.1 hb
  have hfb := findBooking_of_mem s hwf hb
  obtain ⟨ev, hev, hevid⟩ := hinv.bookingRefs b hb
  have he : b.event_id ≠ 0 := by
    rw [← hevid]; exact keysOk_pos s.events (fun x => x.id) s.nextEventId hwf.1 hev
  have hfe : EventRepository.findByIdForUpdate b.event_id s = some ev := by
    rw [← hevid]; exact findEvent_of_mem s hwf hev
  obtain ⟨hc1, hw0⟩ := holder_counts hinv hb hst
  have hnc := no_confirmed_after_cancel hinv hb hst
  cases hq : WaitingListRepository.findNextInLine b.event_id s with
  | none =>
    obtain ⟨hres, hdb⟩ := cancel_when_no_queue s b.id hk b hfb hst hq
    have hfe1 : EventRepository.findByIdForUpdate b.event_id
        (BookingService.cancel (.number b.id) s).db
          = some { ev with available_tickets := ev.available_tickets + 1 } := by
      rw [hdb]
      have hfe2 : s.events.find? (fun x => decide (x.id = b.event_id)) = some ev := hfe
      show (s.events.map (fun x => if x.id = b.event_id then
          { x with available_tickets := x.available_tickets + 1 } else x)).find?
            (fun x => decide (x.id = b.event_id)) = _
      rw [find?_map_preserving _ _ _
        (by intro x; by_cases hx : x.id = b.event_id <;> simp [hx]), hfe2]
      simp [hevid]
    have hfa1 : BookingRepository.findActiveByEventAndUser b.event_id b.user_id
        (BookingService.cancel (.number b.id) s).db = none := by
      rw [hdb]; exact find?_none_of_countP _ _ hnc
    have hfw1 : WaitingListRepository.findByEventAndUser b.event_id b.user_id
        (BookingService.cancel (.number b.id) s).db = none := by
      rw [hdb]; exact find?_none_of_countP _ _ hw0
    have hbook := book_when_available (BookingService.cancel (.number b.id) s).db
      b.event_id b.user_id he hu _ hfe1
      (by have := (hinv.conserved ev hev).1
          show 0 < ev.available_tickets + 1
          omega) hfa1 hfw1
    refine ⟨_, hres, ?_, fun _ => hbook.1, fun hc => by cases hc⟩
    intro m hm
    rw [hbook.1] at hm
    cases hm
  | some w =>
    obtain ⟨hres, hdb⟩ := cancel_when_queue s b.id hk b w hfb hst hq
    obtain ⟨hwm, hwe, hws, _⟩ := findNextInLine_spec hq
    have hav : ev.available_tickets = 0 :=
      hidle ev hev ⟨w, hwm, by rw [hevid]; exact hwe, hws⟩
    have hwu : w.user_id ≠ b.user_id := by
      intro heq
      have : 0 < waitingFor b.event_id b.user_id s := by
        rw [waitingFor, List.countP_pos_iff]
        exact ⟨w, hwm, by simp [hwe, heq, hws]⟩
      omega
    have hfe1 : EventRepository.findByIdForUpdate b.event_id
        (BookingService.cancel (.number b.id) s).db = some ev := by
      rw [hdb]; exact hfe
    have hfa1 : BookingRepository.findActiveByEventAndUser b.event_id b.user_id
        (BookingService.cancel (.number b.id) s).db = none := by
      rw [hdb]
      apply find?_none_of_countP
      show List.countP _ (s.bookings.map (fun x =>
          if x.id = b.id then { x with status := BookingStatus.cancelled } else x)
          ++ [_]) = 0
      rw [List.countP_append, hnc]
      simp [hwu]
    have hfw1 : WaitingListRepository.findByEventAndUser b.event_id b.user_id
        (BookingService.cancel (.number b.id) s).db = none := by
      rw [hdb]
      apply find?_none_of_countP
      have hle := countP_map_le
        (fun x : WaitingRow => decide (x.event_id = b.event_id ∧ x.user_id = b.user_id
          ∧ x.status = .waiting))
        (fun x => if x.id = w.id then { x with status := WaitingStatus.promoted } else x)
        s.waiting_list
        (by intro x; by_cases hx : x.id = w.id <;> simp [hx])
      have hw0b : s.waiting_list.countP (fun x : WaitingRow =>
          decide (x.event_id = b.event_id ∧ x.user_id = b.user_id
            ∧ x.status = .waiting)) = 0 := hw0
      exact Nat.le_zero.1 (hw0b ▸ hle)
    have hbook := book_when_sold_out (BookingService.cancel (.number b.id) s).db
      b.event_id b.user_id he hu _ hfe1 (by rw [hav]; decide) hfa1 hfw1
    refine ⟨_, hres, ?_, fun hc => (by cases hc), fun _ => ⟨_, _, hbook.1, ?_⟩⟩
    · intro m hm
      rw [hbook.1] at hm
      cases hm
    · intro x hx hxe hxs
      have := sqlMax_getD_upper
        ((WaitingListRepository.waitingOf b.event_id
          (BookingService.cancel (.number b.id) s).db).map (fun w => w.position))
        x.position (List.mem_map.2 ⟨x, mem_waitingOf.2 ⟨hx, hxe, hxs⟩, rfl⟩)
      omega

/-- Witness for C30: the theorem applied to booking 1 of a sold-out event with
two users waiting. -/
theorem rebooking_after_cancellation_witness :
    Reachable busyStore ∧
    ∃ res : CancelResult,
      (BookingService.cancel (.number 1) busyStore).result = .ok res ∧
      (∀ m, (BookingService.book (.number 1) (.number 7)
          (BookingService.cancel (.number 1) busyStore).db).result
            ≠ .error ⟨.ConflictError, m⟩) ∧
      (res.reassigned = false →
        (BookingService.book (.number 1) (.number 7)
          (BookingService.cancel (.number 1) busyStore).db).result
          = .ok (.booked (BookingService.cancel (.number 1) busyStore).db.nextBookingId
              (.number 1) (.number 7) "confirmed")) ∧
      (res.reassigned = true →
        ∃ position message,
          (BookingService.book (.number 1) (.number 7)
            (BookingService.cancel (.number 1) busyStore).db).result
            = .ok (.waitlisted (BookingService.cancel (.number 1) busyStore).db.nextWaitingId
                (.number 1) (.number 7) position message) ∧
          ∀ x ∈ (BookingService.cancel (.number 1) busyStore).db.waiting_list,
            x.event_id = 1 → x.status = .waiting → x.position < position) :=
  ⟨busyStore_reachable,
    rebooking_after_cancellation busyStore busyStore_reachable
      { id := 1, event_id := 1, user_id := 7, status := .confirmed } (by decide) rfl⟩

/-- The id in a confirmed booking `book` returns is the `insertId` of the new
row, the table's AUTO_INCREMENT counter. -/
theorem book_booked_id (eventId userId : JsValue) (s : Store) {id : Int} {e u : JsValue}
    {st : String}
    (h : (BookingService.book eventId userId s).result = .ok (.booked id e u st)) :
    id = s.nextBookingId := by
  by_cases hE : passesValidation eventId
  swap
  · cases eventId <;>
      simp_all [passesValidation, BookingService.book, JsValue.truthy, JsValue.isNumber]
  by_cases hU : passesValidation userId
  swap
  · cases userId <;> cases eventId <;>
      simp_all [passesValidation, BookingService.book, JsValue.truthy, JsValue.isNumber]
  obtain ⟨e0, he, rfl⟩ := (passesValidation_iff eventId).1 hE
  obtain ⟨u0, hu, rfl⟩ := (passesValidation_iff userId).1 hU
  rw [book_unfold e0 u0 he hu] at h
  cases hev : EventRepository.findByIdForUpdate e0 s with
  | none =>
    simp [BookingService.bookTry, JsValue.sqlInt, hev, Outcome.settle, Connection.rollback,
      Connection.release] at h
  | some ev =>
    cases hb : BookingRepository.findActiveByEventAndUser e0 u0 s with
    | some b0 =>
      simp [BookingService.bookTry, JsValue.sqlInt, hev, hb, Outcome.settle,
        Connection.rollback, Connection.release] at h
    | none =>
      cases hw : WaitingListRepository.findByEventAndUser e0 u0 s with
      | some w0 =>
        simp [BookingService.bookTry, JsValue.sqlInt, hev, hb, hw, Outcome.settle,
          Connection.rollback, Connection.release] at h
      | none =>
        by_cases hav : 0 < ev.available_tickets
        · simp [BookingService.bookTry, JsValue.sqlInt, hev, hb, hw, hav, Outcome.settle,
            Connection.commit, Connection.release, Connection.execute,
            BookingRepository.create] at h
          exact h.1.symm
        · simp [BookingService.bookTry, JsValue.sqlInt, hev, hb, hw, hav, Outcome.settle,
            Connection.commit, Connection.release, Connection.execute,
            WaitingListRepository.add] at h

/-- C25. In a reachable store, the book handler calls `res.status(201)` then
`res.json(result)` when `BookingService.book` returned a confirmed booking,
`res.status(200)` then `res.json(result)` when it returned a waiting-list
placement, and only `next(error)` when it threw; so status 201 is sent exactly
for a confirmed booking and status 200 exactly for a waiting-list placement, and
the store is the one the service call left. -/
theorem book_handler_status (s : Store) (h : Reachable s) (eventId userId : JsValue) :
    (∀ id e u st,
      (BookingService.book eventId userId s).result = .ok (.booked id e u st) →
      (EventController.book ⟨eventId, userId⟩ s).calls
        = [.status 201, .json (.booked id e u st)]) ∧
    (∀ id e u p m,
      (BookingService.book eventId userId s).result = .ok (.waitlisted id e u p m) →
      (EventController.book ⟨eventId, userId⟩ s).calls
        = [.status 200, .json (.waitlisted id e u p m)]) ∧
    (∀ err,
      (BookingService.book eventId userId s).result = .error err →
      (EventController.book ⟨eventId, userId⟩ s).calls = [.next err]) ∧
    (HandlerCall.status 201 ∈ (EventController.book ⟨eventId, userId⟩ s).calls ↔
      ∃ id e u st,
        (BookingService.book eventId userId s).result = .ok (.booked id e u st)) ∧
    (HandlerCall.status 200 ∈ (EventController.book ⟨eventId, userId⟩ s).calls ↔
      ∃ id e u p m,
        (BookingService.book eventId userId s).result = .ok (.waitlisted id e u p m)) ∧
    (EventController.book ⟨eventId, userId⟩ s).db
      = (BookingService.book eventId userId s).db := by
  have hpos : 0 < s.nextBookingId := (reachable_inv h).bookingKeys.2.2
  have hdb : (EventController.book ⟨eventId, userId⟩ s).db
      = (BookingService.book eventId userId s).db := by
    simp only [EventController.book]
    split <;> rfl
  cases hr : (BookingService.book eventId userId s).result with
  | error err =>
    have hc : (EventController.book ⟨eventId, userId⟩ s).calls = [.next err] := by
      simp [EventController.book, hr]
    refine ⟨?_, ?_, ?_, ?_, ?_, hdb⟩
    · intro id e u st hx; cases hx
    · intro id e u p m hx; cases hx
    · intro err2 hx; cases hx; exact hc
    · rw [hc]; simp
    · rw [hc]; simp
  | ok r =>
    cases r with
    | booked id e u st =>
      have hid : id ≠ 0 := by
        have := book_booked_id eventId userId s hr
        omega
      have hc : (EventController.book ⟨eventId, userId⟩ s).calls
          = [.status 201, .json (.booked id e u st)] := by
        simp [EventController.book, hr, BookResult.bookingId, JsValue.truthy, hid]
      refine ⟨?_, ?_, ?_, ?_, ?_, hdb⟩
      · intro id2 e2 u2 st2 hx; cases hx; exact hc
      · intro id2 e2 u2 p m hx; cases hx
      · intro err hx; cases hx
      · rw [hc]; simp
      · rw [hc]; simp
    | waitlisted id e u p m =>
      have hc : (EventController.book ⟨eventId, userId⟩ s).calls
          = [.status 200, .json (.waitlisted id e u p m)] := by
        simp [EventController.book, hr, BookResult.bookingId, JsValue.truthy]
      refine ⟨?_, ?_, ?_, ?_, ?_, hdb⟩
      · intro id2 e2 u2 st2 hx; cases hx
      · intro id2 e2 u2 p2 m2 hx; cases hx; exact hc
      · intro err hx; cases hx
      · rw [hc]; simp
      · rw [hc]; simp

/-- Witness for C25: in a reachable store with a free ticket the handler answers
201 with the confirmed booking, and a request without a user id goes to `next`. -/
theorem book_handler_status_witness :
    Reachable openStore ∧
    (EventController.book ⟨.number 1, .number 8⟩ openStore).calls
      = [.status 201, .json (.booked 2 (.number 1) (.number 8) "confirmed")] ∧
    (EventController.book ⟨.number 1, .undefined⟩ openStore).calls
      = [.next ⟨.ValidationError, "Valid user ID is required"⟩] :=
  have hr : Reachable openStore :=
    ⟨[.initializeEvent (.string "Concert") (.number 2), .book (.number 1) (.number 7)],
      by decide⟩
  ⟨hr,
    (book_handler_status openStore hr (.number 1) (.number 8)).1 2 (.number 1) (.number 8)
      "confirmed" rfl,
    (book_handler_status openStore hr (.number 1) .undefined).2.2.1 _ rfl⟩

theorem stateT_bind_ok {σ α β : Type} (m : StateT σ (Except AppError) α)
    (f : α → StateT σ (Except AppError) β) (w : σ) (b : β) (w2 : σ)
    (h : (m >>= f).run w = .ok (b, w2)) :
    ∃ a w1, m.run w = .ok (a, w1) ∧ (f a).run w1 = .ok (b, w2) := by
  simp only [StateT.run, bind, StateT.bind, Except.bind] at h ⊢
  cases hm : m w with
  | error e => rw [hm] at h; cases h
  | ok p => rw [hm] at h; exact ⟨p.1, p.2, rfl, h⟩

theorem stateT_throw_ne_ok {σ α : Type} (e : AppError) (w : σ) (p : α × σ) :
    (throw e : StateT σ (Except AppError) α).run w ≠ .ok p := by
  intro h
  cases h

theorem stateT_pure_ok {σ α : Type} (a b : α) (w w2 : σ)
    (h : (pure a : StateT σ (Except AppError) α).run w = .ok (b, w2)) : b = a := by
  cases h
  rfl

theorem sanitizeUser_hasProperty (u : JsObject) :
    (AuthService._sanitizeUser u).hasProperty "password_hash" = false := by
  simp [AuthService._sanitizeUser, JsObject.hasProperty]

theorem register_ok_sanitized {σ : Type} (env : AuthEnv σ) (username email password : JsValue)
    (w : σ) (user : JsObject) (w2 : σ)
    (h : (AuthService.register env username email password).run w = .ok (user, w2)) :
    ∃ u, user = AuthService._sanitizeUser u := by
  unfold AuthService.register at h
  split at h
  · exact absurd h (stateT_throw_ne_ok _ _ _)
  split at h
  · exact absurd h (stateT_throw_ne_ok _ _ _)
  obtain ⟨existingUser, w1, _, h⟩ := stateT_bind_ok _ _ _ _ _ h
  split at h
  · exact absurd h (stateT_throw_ne_ok _ _ _)
  obtain ⟨existingUsername, w1, _, h⟩ := stateT_bind_ok _ _ _ _ _ h
  split at h
  · exact absurd h (stateT_throw_ne_ok _ _ _)
  obtain ⟨passwordHash, w1, _, h⟩ := stateT_bind_ok _ _ _ _ _ h
  obtain ⟨userId, w1, _, h⟩ := stateT_bind_ok _ _ _ _ _ h
  obtain ⟨o, w1, _, h⟩ := stateT_bind_ok _ _ _ _ _ h
  cases o with
  | none => exact absurd h (stateT_throw_ne_ok _ _ _)
  | some u => exact ⟨u, stateT_pure_ok _ _ _ _ h⟩

theorem login_ok_sanitized {σ : Type} (env : AuthEnv σ) (email password : JsValue)
    (w : σ) (r : LoginResult) (w2 : σ)
    (h : (AuthService.login env email password).run w = .ok (r, w2)) :
    ∃ u, r.user = AuthService._sanitizeUser u := by
  unfold AuthService.login at h
  split at h
  · exact absurd h (stateT_throw_ne_ok _ _ _)
  obtain ⟨o, w1, _, h⟩ := stateT_bind_ok _ _ _ _ _ h
  cases o with
  | none => exact absurd h (stateT_throw_ne_ok _ _ _)
  | some u =>
    obtain ⟨ok, w1, _, h⟩ := stateT_bind_ok _ _ _ _ _ h
    split at h
    · exact absurd h (stateT_throw_ne_ok _ _ _)
    obtain ⟨token, w1, _, h⟩ := stateT_bind_ok _ _ _ _ _ h
    exact ⟨u, by rw [stateT_pure_ok _ _ _ _ h]⟩

theorem find?_filter_other (l : List (String × JsValue)) (k : String)
    (hk : k ≠ "password_hash") :
    (l.filter (fun p => p.1 != "password_hash")).find? (fun p => p.1 == k)
      = l.find? (fun p => p.1 == k) := by
  apply find?_filter_of_imp
  intro x hx
  have : x.1 = k := by simpa using hx
  simp [this, hk]

theorem sanitizeUser_get (u : JsObject) (k : String) (hk : k ≠ "password_hash") :
    (AuthService._sanitizeUser u).get k = u.get k := by
  simp only [AuthService._sanitizeUser, JsObject.get, find?_filter_other _ k hk]

theorem sanitizeUser_hasOther (u : JsObject) (k : String) (hk : k ≠ "password_hash") :
    (AuthService._sanitizeUser u).hasProperty k = u.hasProperty k := by
  have h := find?_filter_other u.props k hk
  simp only [AuthService._sanitizeUser, JsObject.hasProperty]
  rw [Bool.eq_iff_iff, List.any_eq_true, List.any_eq_true]
  constructor
  · rintro ⟨p, hp, hpk⟩
    exact ⟨p, (List.mem_filter.1 hp).1, hpk⟩
  · rintro ⟨p, hp, hpk⟩
    refine ⟨p, List.mem_filter.2 ⟨hp, ?_⟩, hpk⟩
    have : p.1 = k := by simpa using hpk
    simp [this, hk]
/-- C26. For every user record `u`, `_sanitizeUser(u)` has no `password_hash`
property and agrees with `u` on every other property, present or absent; and
whatever the repository, `bcrypt` and `jwt` do, a user object that `register`
returns and the `user` of an object that `login` returns have no `password_hash`
property. -/
theorem sanitizeUser_omits_password_hash :
    (∀ u : JsObject,
      (AuthService._sanitizeUser u).hasProperty "password_hash" = false ∧
      (∀ k, k ≠ "password_hash" →
        (AuthService._sanitizeUser u).get k = u.get k ∧
        (AuthService._sanitizeUser u).hasProperty k = u.hasProperty k)) ∧
    (∀ (σ : Type) (env : AuthEnv σ) (username email password : JsValue) (w w2 : σ)
        (user : JsObject),
      (AuthService.register env username email password).run w = .ok (user, w2) →
      user.hasProperty "password_hash" = false) ∧
    (∀ (σ : Type) (env : AuthEnv σ) (email password : JsValue) (w w2 : σ)
        (r : LoginResult),
      (AuthService.login env email password).run w = .ok (r, w2) →
      r.user.hasProperty "password_hash" = false) := by
  refine ⟨fun u => ⟨sanitizeUser_hasProperty u, fun k hk =>
    ⟨sanitizeUser_get u k hk, sanitizeUser_hasOther u k hk⟩⟩, ?_, ?_⟩
  · intro σ env username email password w w2 user h
    obtain ⟨u, rfl⟩ := register_ok_sanitized env username email password w user w2 h
    exact sanitizeUser_hasProperty u
  · intro σ env email password w w2 r h
    obtain ⟨u, hu⟩ := login_ok_sanitized env email password w r w2 h
    rw [hu]
    exact sanitizeUser_hasProperty u

/-- Witness for C26: on the in-memory stand-in, `register` on an empty table and
then `login` both return, and the theorem applies to what they return. -/
theorem sanitizeUser_omits_password_hash_witness :
    (AuthService.register memoryEnv (.string "testuser") (.string "test@example.com")
        (.string "password123")).run []
      = .ok ({ props := [("id", .number 1), ("username", .string "testuser"),
                         ("email", .string "test@example.com"),
                         ("created_at", .string "2024-01-01")] }, oneUser) ∧
    (AuthService.login memoryEnv (.string "test@example.com") (.string "password123")).run
        oneUser
      = .ok ({ token := .string "mock-token",
               user := { props := [("id", .number 1), ("username", .string "testuser"),
                                   ("email", .string "test@example.com"),
                                   ("created_at", .string "2024-01-01")] } }, oneUser) ∧
    (oneUser.map (fun u => u.hasProperty "password_hash")) = [true] ∧
    JsObject.hasProperty { props := [("id", .number 1), ("username", .string "testuser"),
                         ("email", .string "test@example.com"),
                         ("created_at", .string "2024-01-01")] } "password_hash" = false :=
  ⟨by rfl, by rfl, by rfl,
    sanitizeUser_omits_password_hash.2.1 _ memoryEnv (.string "testuser")
      (.string "test@example.com") (.string "password123") [] oneUser _ (by rfl)⟩

/-! ## Calls that may throw: facts -/

theorem quiet_pure {α : Type} (a : α) : (pure a : Flow α).quiet :=
  fun _ => rfl

theorem quiet_throw {α : Type} (e : AppError) : (Flow.throw e : Flow α).quiet :=
  fun _ => rfl

theorem quiet_bind {α β : Type} {m : Flow α} {f : α → Flow β} (hm : m.quiet)
    (hf : ∀ a, (f a).quiet) : (m >>= f).quiet := by
  intro s
  show (match m s with
    | (.ok a, t) => f a t
    | (.error error, t) => (.error error, t)).2.releases = s.releases
  have := hm s
  cases hms : m s with
  | mk r t =>
    rw [hms] at this
    cases r with
    | error e => exact this
    | ok a => exact (hf a t).trans this

theorem quiet_tryCatch {α : Type} {m : Flow α} {handler : AppError → Flow α} (hm : m.quiet)
    (hh : ∀ e, (handler e).quiet) : (Flow.tryCatch m handler).quiet := by
  intro s
  have := hm s
  unfold Flow.tryCatch
  cases hms : m s with
  | mk r t =>
    rw [hms] at this
    cases r with
    | error e => exact (hh e t).trans this
    | ok a => exact this

theorem quiet_repoAt {α : Type} (faults : Faults) (method : String)
    (stmt : Store → α × Store) : (Session.repoAt faults method stmt).quiet := by
  intro s
  unfold Session.repoAt
  cases faults s.made <;> rfl

theorem quiet_commitAt (faults : Faults) : (Session.commitAt faults).quiet := by
  intro s
  unfold Session.commitAt
  cases faults s.made <;> simp [Session.releases, Connection.commit]

theorem quiet_rollbackAt (faults : Faults) : (Session.rollbackAt faults).quiet := by
  intro s
  unfold Session.rollbackAt
  cases faults s.made <;> simp [Session.releases, Connection.rollback]

theorem bookTryUnreliable_quiet (faults : Faults) (eventId userId : JsValue) :
    (BookingService.bookTryUnreliable faults eventId userId).quiet := by
  unfold BookingService.bookTryUnreliable
  refine quiet_bind (quiet_repoAt _ _ _) (fun event => ?_)
  cases event with
  | none => exact quiet_bind (quiet_rollbackAt _) (fun _ => quiet_throw _)
  | some event =>
    refine quiet_bind (quiet_repoAt _ _ _) (fun existingBooking => ?_)
    cases existingBooking with
    | some b => exact quiet_bind (quiet_rollbackAt _) (fun _ => quiet_throw _)
    | none =>
      refine quiet_bind (quiet_repoAt _ _ _) (fun existingWaitingList => ?_)
      cases existingWaitingList with
      | some w => exact quiet_bind (quiet_rollbackAt _) (fun _ => quiet_throw _)
      | none =>
        show Flow.quiet (if event.available_tickets > 0 then _ else _)
        split
        · exact quiet_bind (quiet_repoAt _ _ _) (fun _ =>
            quiet_bind (quiet_repoAt _ _ _) (fun _ =>
              quiet_bind (quiet_commitAt _) (fun _ => quiet_pure _)))
        · exact quiet_bind (quiet_repoAt _ _ _) (fun _ =>
            quiet_bind (quiet_commitAt _) (fun _ => quiet_pure _))

theorem cancelTryUnreliable_quiet (faults : Faults) (bookingId : JsValue) :
    (BookingService.cancelTryUnreliable faults bookingId).quiet := by
  unfold BookingService.cancelTryUnreliable
  refine quiet_bind (quiet_repoAt _ _ _) (fun booking => ?_)
  cases booking with
  | none => exact quiet_bind (quiet_rollbackAt _) (fun _ => quiet_throw _)
  | some booking =>
    show Flow.quiet (if booking.status = .cancelled then _ else _)
    split
    · exact quiet_bind (quiet_rollbackAt _) (fun _ => quiet_throw _)
    · refine quiet_bind (quiet_repoAt _ _ _) (fun _ =>
        quiet_bind (quiet_repoAt _ _ _) (fun nextInLine => ?_))
      cases nextInLine with
      | some w =>
        exact quiet_bind (quiet_repoAt _ _ _) (fun _ =>
          quiet_bind (quiet_repoAt _ _ _) (fun _ =>
            quiet_bind (quiet_commitAt _) (fun _ => quiet_pure _)))
      | none =>
        exact quiet_bind (quiet_repoAt _ _ _) (fun _ =>
          quiet_bind (quiet_commitAt _) (fun _ => quiet_pure _))

theorem flow_bind_apply {α β : Type} (m : Flow α) (f : α → Flow β) (s : Session) :
    (m >>= f) s = match m s with
      | (.ok a, t) => f a t
      | (.error error, t) => (.error error, t) := rfl

/-- When `beginTransaction` throws, what follows it is not run: the `try`
statement with its `finally` is never entered. -/
theorem flow_begin_throws {α : Type} (faults : Faults) (rest : Flow α) (db : Store)
    (e : AppError) (h0 : faults 0 = none) (h1 : faults 1 = some e) :
    (Session.getConnectionAt faults >>= fun _ =>
      Session.beginTransactionAt faults >>= fun _ => rest) (Session.idle db)
      = (.error e,
         { connection := { committed := db, work := db,
                           calls := [.getConnection, .beginTransaction] },
           repoCalls := [] }) := by
  simp [flow_bind_apply, Session.getConnectionAt, Session.beginTransactionAt, Session.idle,
    Session.made, h0, h1]

/-- When the connection is obtained and the transaction begun, the `finally`
makes the one `release` call, and it is the last call. -/
theorem flow_begin_ok {α : Type} (faults : Faults) (body : Flow α)
    (handler : AppError → Flow α) (db : Store) (hb : body.quiet)
    (hh : ∀ e, (handler e).quiet) (h0 : faults 0 = none) (h1 : faults 1 = none) :
    ((Session.getConnectionAt faults >>= fun _ =>
      Session.beginTransactionAt faults >>= fun _ =>
        Flow.tryFinally (Flow.tryCatch body handler) Session.release)
          (Session.idle db)).2.connection.calls.count .release = 1 ∧
    ((Session.getConnectionAt faults >>= fun _ =>
      Session.beginTransactionAt faults >>= fun _ =>
        Flow.tryFinally (Flow.tryCatch body handler) Session.release)
          (Session.idle db)).2.connection.calls.getLast? = some .release := by
  have hq := quiet_tryCatch hb hh
    { connection := { committed := db, work := db,
                      calls := [.getConnection, .beginTransaction] },
      repoCalls := [] }
  simp only [Session.releases] at hq
  simp [flow_bind_apply, Session.getConnectionAt, Session.beginTransactionAt, Session.idle,
    Session.made, h0, h1, Connection.beginTransaction, Flow.tryFinally, Session.release,
    Connection.release, List.count_append] at hq ⊢
  exact hq

/-- C27. A `book` or `cancel` call whose arguments pass validation and which
obtains a connection from the pool calls `connection.release()` exactly once, as
its last call, whenever `beginTransaction` returns, whatever repository call,
`commit` or `rollback` throws afterwards. When `beginTransaction` throws, the
call settles with that error after the two calls `getConnection` and
`beginTransaction`, and `release` is not called. -/
theorem release_once_unless_begin_throws (faults : Faults)
    (eventId userId bookingId : JsValue) (db : Store)
    (hE : passesValidation eventId) (hU : passesValidation userId)
    (hK : passesValidation bookingId) (h0 : faults 0 = none) :
    (faults 1 = none →
      (BookingService.bookUnreliable faults eventId userId db).calls.count .release = 1 ∧
      (BookingService.bookUnreliable faults eventId userId db).calls.getLast?
        = some .release ∧
      (BookingService.cancelUnreliable faults bookingId db).calls.count .release = 1 ∧
      (BookingService.cancelUnreliable faults bookingId db).calls.getLast?
        = some .release) ∧
    (∀ e, faults 1 = some e →
      (BookingService.bookUnreliable faults eventId userId db).result = .error e ∧
      (BookingService.bookUnreliable faults eventId userId db).calls
        = [.getConnection, .beginTransaction] ∧
      (BookingService.bookUnreliable faults eventId userId db).calls.count .release = 0 ∧
      (BookingService.cancelUnreliable faults bookingId db).result = .error e ∧
      (BookingService.cancelUnreliable faults bookingId db).calls
        = [.getConnection, .beginTransaction] ∧
      (BookingService.cancelUnreliable faults bookingId db).calls.count .release = 0) := by
  obtain ⟨e0, he0, rfl⟩ := (passesValidation_iff eventId).1 hE
  obtain ⟨u0, hu0, rfl⟩ := (passesValidation_iff userId).1 hU
  obtain ⟨k0, hk0, rfl⟩ := (passesValidation_iff bookingId).1 hK
  have hbook : BookingService.bookUnreliable faults (.number e0) (.number u0) db
      = TracedOutcome.settle
          (BookingService.bookFlow faults (.number e0) (.number u0) (Session.idle db)).1
          (BookingService.bookFlow faults (.number e0) (.number u0) (Session.idle db)).2 := by
    simp [BookingService.bookUnreliable, JsValue.truthy, JsValue.isNumber, he0, hu0]
  have hcancel : BookingService.cancelUnreliable faults (.number k0) db
      = TracedOutcome.settle
          (BookingService.cancelFlow faults (.number k0) (Session.idle db)).1
          (BookingService.cancelFlow faults (.number k0) (Session.idle db)).2 := by
    simp [BookingService.cancelUnreliable, JsValue.truthy, JsValue.isNumber, hk0]
  have hhandler : ∀ (α : Type) (e : AppError),
      (Session.rollbackAt faults >>= fun _ => (Flow.throw e : Flow α)).quiet :=
    fun _ e => quiet_bind (quiet_rollbackAt _) (fun _ => quiet_throw e)
  rw [hbook, hcancel]
  simp only [TracedOutcome.settle]
  constructor
  · intro h1
    have hb := flow_begin_ok faults
      (BookingService.bookTryUnreliable faults (.number e0) (.number u0))
      (fun error => Session.rollbackAt faults >>= fun _ => Flow.throw error) db
      (bookTryUnreliable_quiet _ _ _) (hhandler _) h0 h1
    have hc := flow_begin_ok faults
      (BookingService.cancelTryUnreliable faults (.number k0))
      (fun error => Session.rollbackAt faults >>= fun _ => Flow.throw error) db
      (cancelTryUnreliable_quiet _ _) (hhandler _) h0 h1
    exact ⟨hb.1, hb.2, hc.1, hc.2⟩
  · intro e h1
    have hb := flow_begin_throws faults
      (Flow.tryFinally (Flow.tryCatch
        (BookingService.bookTryUnreliable faults (.number e0) (.number u0))
        (fun error => Session.rollbackAt faults >>= fun _ => Flow.throw error))
        Session.release) db e h0 h1
    have hc := flow_begin_throws faults
      (Flow.tryFinally (Flow.tryCatch
        (BookingService.cancelTryUnreliable faults (.number k0))
        (fun error => Session.rollbackAt faults >>= fun _ => Flow.throw error))
        Session.release) db e h0 h1
    have hb2 : BookingService.bookFlow faults (.number e0) (.number u0) (Session.idle db)
        = _ := hb
    have hc2 : BookingService.cancelFlow faults (.number k0) (Session.idle db) = _ := hc
    rw [hb2, hc2]
    simp

/-- Witness for C27: a ticket is booked and booking 1 is cancelled, once with
`beginTransaction` throwing and once under a plan that makes the `commit` of the
`book` throw. -/
theorem release_once_unless_begin_throws_witness :
    ((BookingService.bookUnreliable beginFails (.number 1) (.number 8) openStore).result
        = .error ⟨.TypeError, "connection lost"⟩ ∧
      (BookingService.bookUnreliable beginFails (.number 1) (.number 8) openStore).calls
        = [.getConnection, .beginTransaction] ∧
      (BookingService.bookUnreliable beginFails (.number 1) (.number 8)
        openStore).calls.count .release = 0 ∧
      (BookingService.cancelUnreliable beginFails (.number 1) openStore).result
        = .error ⟨.TypeError, "connection lost"⟩ ∧
      (BookingService.cancelUnreliable beginFails (.number 1) openStore).calls
        = [.getConnection, .beginTransaction] ∧
      (BookingService.cancelUnreliable beginFails (.number 1)
        openStore).calls.count .release = 0) ∧
    ((BookingService.bookUnreliable commitFails (.number 1) (.number 8)
        openStore).calls.count .release = 1 ∧
      (BookingService.bookUnreliable commitFails (.number 1) (.number 8)
        openStore).calls.getLast? = some .release ∧
      (BookingService.cancelUnreliable commitFails (.number 1)
        openStore).calls.count .release = 1 ∧
      (BookingService.cancelUnreliable commitFails (.number 1)
        openStore).calls.getLast? = some .release) ∧
    (BookingService.bookUnreliable commitFails (.number 1) (.number 8) openStore).calls
      = [.getConnection, .beginTransaction, .commit, .rollback, .release] ∧
    (BookingService.bookUnreliable commitFails (.number 1) (.number 8) openStore).db
      = openStore :=
  ⟨(release_once_unless_begin_throws beginFails (.number 1) (.number 8) (.number 1)
      openStore (by decide) (by decide) (by decide) rfl).2 _ rfl,
    (release_once_unless_begin_throws commitFails (.number 1) (.number 8) (.number 1)
      openStore (by decide) (by decide) (by decide) rfl).1 rfl,
    by rfl, by rfl⟩

/-- With no fault, the `try` block of `book` is the one of the fault-free model. -/
theorem bookTryUnreliable_noFaults (eventId userId : JsValue) (s : Session) :
    ((BookingService.bookTryUnreliable noFaults eventId userId s).1,
      (BookingService.bookTryUnreliable noFaults eventId userId s).2.connection)
      = BookingService.bookTry eventId userId s.connection := by
  unfold BookingService.bookTryUnreliable BookingService.bookTry
  simp only [flow_bind_apply, Session.repoAt, noFaults]
  cases hev : EventRepository.findByIdForUpdate eventId.sqlInt s.connection.work with
  | none => simp [noFaults, flow_bind_apply, Session.rollbackAt, Flow.throw]
  | some ev =>
    simp only [flow_bind_apply, Session.repoAt, noFaults]
    cases hb : BookingRepository.findActiveByEventAndUser eventId.sqlInt userId.sqlInt
        s.connection.work with
    | some b => simp [noFaults, flow_bind_apply, Session.rollbackAt, Flow.throw]
    | none =>
      simp only [flow_bind_apply, Session.repoAt, noFaults]
      cases hw : WaitingListRepository.findByEventAndUser eventId.sqlInt userId.sqlInt
          s.connection.work with
      | some w => simp [noFaults, flow_bind_apply, Session.rollbackAt, Flow.throw]
      | none =>
        by_cases hav : ev.available_tickets > 0
        · simp [noFaults, flow_bind_apply, Session.repoAt, Session.commitAt, hav, Connection.execute,
            pure]
        · simp [noFaults, flow_bind_apply, Session.repoAt, Session.commitAt, hav, Connection.execute,
            pure]

/-- With no fault, the `try` block of `cancel` is the one of the fault-free model. -/
theorem cancelTryUnreliable_noFaults (bookingId : JsValue) (s : Session) :
    ((BookingService.cancelTryUnreliable noFaults bookingId s).1,
      (BookingService.cancelTryUnreliable noFaults bookingId s).2.connection)
      = BookingService.cancelTry bookingId s.connection := by
  unfold BookingService.cancelTryUnreliable BookingService.cancelTry
  simp only [flow_bind_apply, Session.repoAt, noFaults]
  cases hb : BookingRepository.findByIdForUpdate bookingId.sqlInt s.connection.work with
  | none => simp [noFaults, flow_bind_apply, Session.rollbackAt, Flow.throw]
  | some b =>
    by_cases hst : b.status = .cancelled
    · simp [noFaults, flow_bind_apply, Session.rollbackAt, Flow.throw, hst]
    · simp only [hst, if_false, flow_bind_apply, Session.repoAt, noFaults]
      cases hn : WaitingListRepository.findNextInLine b.event_id
          (BookingRepository.cancel bookingId.sqlInt s.connection.work).2 with
      | none =>
        simp [noFaults, flow_bind_apply, Session.repoAt, Session.commitAt, Connection.execute, pure, hn]
      | some w =>
        simp [noFaults, flow_bind_apply, Session.repoAt, Session.commitAt, Connection.execute, pure, hn]

/-- With no fault, `bookUnreliable` settles as `book` does. -/
theorem bookUnreliable_noFaults (eventId userId : JsValue) (db : Store) :
    (BookingService.bookUnreliable noFaults eventId userId db).result
        = (BookingService.book eventId userId db).result ∧
    (BookingService.bookUnreliable noFaults eventId userId db).db
        = (BookingService.book eventId userId db).db ∧
    (BookingService.bookUnreliable noFaults eventId userId db).calls
        = (BookingService.book eventId userId db).calls := by
  unfold BookingService.bookUnreliable BookingService.book
  split
  · exact ⟨rfl, rfl, rfl⟩
  · split
    · exact ⟨rfl, rfl, rfl⟩
    · have h := bookTryUnreliable_noFaults eventId userId
        { connection := (pool.getConnection db).beginTransaction, repoCalls := [] }
      simp only at h ⊢
      rw [← h]
      simp only [BookingService.bookFlow, flow_bind_apply, Session.getConnectionAt,
        Session.beginTransactionAt, noFaults, Session.idle, Flow.tryFinally, Flow.tryCatch]
      simp only [List.nil_append]
      rw [show ({ committed := db, work := db, calls := [ConnCall.getConnection] }
        : Connection) = pool.getConnection db from rfl]
      cases hr : (BookingService.bookTryUnreliable noFaults eventId userId
          { connection := (pool.getConnection db).beginTransaction, repoCalls := [] }) with
      | mk r t =>
        cases r <;>
          simp [TracedOutcome.settle, Outcome.settle, Session.release, Session.rollbackAt,
            Flow.throw, flow_bind_apply, noFaults, Connection.rollback, Connection.release]

/-- With no fault, `cancelUnreliable` settles as `cancel` does. -/
theorem cancelUnreliable_noFaults (bookingId : JsValue) (db : Store) :
    (BookingService.cancelUnreliable noFaults bookingId db).result
        = (BookingService.cancel bookingId db).result ∧
    (BookingService.cancelUnreliable noFaults bookingId db).db
        = (BookingService.cancel bookingId db).db ∧
    (BookingService.cancelUnreliable noFaults bookingId db).calls
        = (BookingService.cancel bookingId db).calls := by
  unfold BookingService.cancelUnreliable BookingService.cancel
  split
  · exact ⟨rfl, rfl, rfl⟩
  · have h := cancelTryUnreliable_noFaults bookingId
      { connection := (pool.getConnection db).beginTransaction, repoCalls := [] }
    simp only at h ⊢
    rw [← h]
    simp only [BookingService.cancelFlow, flow_bind_apply, Session.getConnectionAt,
      Session.beginTransactionAt, noFaults, Session.idle, Flow.tryFinally, Flow.tryCatch]
    simp only [List.nil_append]
    rw [show ({ committed := db, work := db, calls := [ConnCall.getConnection] }
      : Connection) = pool.getConnection db from rfl]
    cases hr : (BookingService.cancelTryUnreliable noFaults bookingId
        { connection := (pool.getConnection db).beginTransaction, repoCalls := [] }) with
    | mk r t =>
      cases r <;>
        simp [TracedOutcome.settle, Outcome.settle, Session.release, Session.rollbackAt,
          Flow.throw, flow_bind_apply, noFaults, Connection.rollback, Connection.release]

/-! ## Failures after the transaction has begun: facts -/

theorem orderly_repo_bind {α β : Type} (faults : Faults) (own : AppError → Prop)
    (method : String) (stmt : Store → α × Store) (f : α → Flow β)
    (hf : ∀ a, Flow.orderly faults own (f a)) :
    Flow.orderly faults own (Session.repoAt faults method stmt >>= f) := by
  intro s e t hpre h
  rw [flow_bind_apply] at h
  unfold Session.repoAt at h
  cases h0 : faults s.made with
  | some e0 =>
    simp only [h0] at h
    cases h
    exact ⟨rfl, Or.inl ⟨rfl, s.made, h0, hpre⟩⟩
  | none =>
    simp only [h0] at h
    have hpre2 : ∀ j, j < Session.made
        { connection := { s.connection with work := (stmt s.connection.work).2 },
          repoCalls := s.repoCalls ++ [method] } → faults j = none := by
      intro j hj
      simp only [Session.made, List.length_append, List.length_singleton] at hj
      by_cases hjs : j < s.made
      · exact hpre j hjs
      · have : j = s.made := by simp only [Session.made] at hjs ⊢; omega
        rw [this]; exact h0
    have key := hf _ _ e t hpre2 h
    exact key

theorem orderly_rollback_throw {α : Type} (faults : Faults) (own : AppError → Prop)
    (e : AppError) (he : own e) :
    Flow.orderly faults own
      (Session.rollbackAt faults >>= fun _ => (Flow.throw e : Flow α)) := by
  intro s e1 t hpre h
  rw [flow_bind_apply] at h
  unfold Session.rollbackAt at h
  cases h0 : faults s.made with
  | some e0 =>
    simp only [h0] at h
    cases h
    exact ⟨rfl, Or.inr (Or.inl ⟨rfl, Or.inr ⟨s.made, h0, hpre⟩⟩)⟩
  | none =>
    simp only [h0, Flow.throw] at h
    cases h
    exact ⟨rfl, Or.inr (Or.inl ⟨rfl, Or.inl he⟩)⟩

theorem orderly_commit_pure {α : Type} (faults : Faults) (own : AppError → Prop) (a : α) :
    Flow.orderly faults own (Session.commitAt faults >>= fun _ => (pure a : Flow α)) := by
  intro s e1 t hpre h
  rw [flow_bind_apply] at h
  unfold Session.commitAt at h
  cases h0 : faults s.made with
  | some e0 =>
    simp only [h0] at h
    cases h
    exact ⟨rfl, Or.inr (Or.inr ⟨rfl, s.made, h0, hpre⟩)⟩
  | none =>
    simp only [h0] at h
    cases h

theorem bookTryUnreliable_orderly (faults : Faults) (eventId userId : JsValue) :
    Flow.orderly faults bookOwnError
      (BookingService.bookTryUnreliable faults eventId userId) := by
  unfold BookingService.bookTryUnreliable
  refine orderly_repo_bind _ _ _ _ _ (fun event => ?_)
  cases event with
  | none => exact orderly_rollback_throw _ _ _ (Or.inl rfl)
  | some event =>
    refine orderly_repo_bind _ _ _ _ _ (fun existingBooking => ?_)
    cases existingBooking with
    | some b => exact orderly_rollback_throw _ _ _ (Or.inr (Or.inl rfl))
    | none =>
      refine orderly_repo_bind _ _ _ _ _ (fun existingWaitingList => ?_)
      cases existingWaitingList with
      | some w => exact orderly_rollback_throw _ _ _ (Or.inr (Or.inr rfl))
      | none =>
        show Flow.orderly faults bookOwnError (if event.available_tickets > 0 then _ else _)
        split
        · exact orderly_repo_bind _ _ _ _ _ (fun _ =>
            orderly_repo_bind _ _ _ _ _ (fun _ => orderly_commit_pure _ _ _))
        · exact orderly_repo_bind _ _ _ _ _ (fun _ => orderly_commit_pure _ _ _)

theorem cancelTryUnreliable_orderly (faults : Faults) (bookingId : JsValue) :
    Flow.orderly faults cancelOwnError
      (BookingService.cancelTryUnreliable faults bookingId) := by
  unfold BookingService.cancelTryUnreliable
  refine orderly_repo_bind _ _ _ _ _ (fun booking => ?_)
  cases booking with
  | none => exact orderly_rollback_throw _ _ _ (Or.inl rfl)
  | some booking =>
    show Flow.orderly faults cancelOwnError (if booking.status = .cancelled then _ else _)
    split
    · exact orderly_rollback_throw _ _ _ (Or.inr rfl)
    · refine orderly_repo_bind _ _ _ _ _ (fun _ =>
        orderly_repo_bind _ _ _ _ _ (fun nextInLine => ?_))
      cases nextInLine with
      | some w =>
        exact orderly_repo_bind _ _ _ _ _ (fun _ =>
          orderly_repo_bind _ _ _ _ _ (fun _ => orderly_commit_pure _ _ _))
      | none =>
        exact orderly_repo_bind _ _ _ _ _ (fun _ => orderly_commit_pure _ _ _)

/-- When `getConnection` and `beginTransaction` return, what follows them starts
in the session `Session.begun`. -/
theorem flow_begun {α : Type} (faults : Faults) (rest : Flow α) (db : Store)
    (h0 : faults 0 = none) (h1 : faults 1 = none) :
    (Session.getConnectionAt faults >>= fun _ =>
      Session.beginTransactionAt faults >>= fun _ => rest) (Session.idle db)
      = rest (Session.begun db) := by
  simp [flow_bind_apply, Session.getConnectionAt, Session.beginTransactionAt, Session.idle,
    Session.made, h0, h1, Session.begun, pool.getConnection]

/-- When `getConnection` throws, nothing else is called. -/
theorem flow_get_throws {α : Type} (faults : Faults) (rest : Unit → Flow α) (db : Store)
    (e : AppError) (h0 : faults 0 = some e) :
    (Session.getConnectionAt faults >>= rest) (Session.idle db)
      = (.error e,
         { connection := { committed := db, work := db, calls := [.getConnection] },
           repoCalls := [] }) := by
  simp [flow_bind_apply, Session.getConnectionAt, Session.idle, Session.made, h0]

/-- A `try` block that fails, with its `catch` (roll back, rethrow) and its
`finally` (release), started once the transaction has begun. -/
theorem guarded_error {α : Type} (faults : Faults) (own : AppError → Prop) (body : Flow α)
    (db : Store) (hbody : Flow.orderly faults own body)
    (h0 : faults 0 = none) (h1 : faults 1 = none) (err : AppError)
    (h : (Flow.tryFinally (Flow.tryCatch body
            (fun error => Session.rollbackAt faults >>= fun _ => Flow.throw error))
          Session.release (Session.begun db)).1 = .error err) :
    ∃ orig t,
      body (Session.begun db) = (.error orig, t) ∧
      ((t.connection.calls = [.getConnection, .beginTransaction] ∧
          ∃ i, faults i = some orig ∧ ∀ j, j < i → faults j = none) ∨
       (t.connection.calls = [.getConnection, .beginTransaction, .rollback] ∧
          (own orig ∨ ∃ i, faults i = some orig ∧ ∀ j, j < i → faults j = none)) ∨
       (t.connection.calls = [.getConnection, .beginTransaction, .commit] ∧
          ∃ i, faults i = some orig ∧ ∀ j, j < i → faults j = none)) ∧
      (faults t.made = none → err = orig) ∧
      (∀ e, faults t.made = some e → err = e) ∧
      (Flow.tryFinally (Flow.tryCatch body
            (fun error => Session.rollbackAt faults >>= fun _ => Flow.throw error))
          Session.release (Session.begun db)).2.connection.calls
        = t.connection.calls ++ [.rollback, .release] ∧
      (Flow.tryFinally (Flow.tryCatch body
            (fun error => Session.rollbackAt faults >>= fun _ => Flow.throw error))
          Session.release (Session.begun db)).2.repoCalls = t.repoCalls ∧
      (Flow.tryFinally (Flow.tryCatch body
            (fun error => Session.rollbackAt faults >>= fun _ => Flow.throw error))
          Session.release (Session.begun db)).2.connection.committed = db := by
  have hpre : ∀ j, j < (Session.begun db).made → faults j = none := by
    intro j hj
    have hj2 : j < 2 := hj
    rcases (by omega : j = 0 ∨ j = 1) with rfl | rfl
    · exact h0
    · exact h1
  cases hb : body (Session.begun db) with
  | mk r t =>
    cases r with
    | ok a =>
      simp [Flow.tryFinally, Flow.tryCatch, hb] at h
    | error orig =>
      obtain ⟨hc, hcalls⟩ := hbody _ _ _ hpre hb
      have hc2 : t.connection.committed = db := hc
      have hcalls2 :
          (t.connection.calls = [.getConnection, .beginTransaction] ∧
              ∃ i, faults i = some orig ∧ ∀ j, j < i → faults j = none) ∨
          (t.connection.calls = [.getConnection, .beginTransaction, .rollback] ∧
              (own orig ∨ ∃ i, faults i = some orig ∧ ∀ j, j < i → faults j = none)) ∨
          (t.connection.calls = [.getConnection, .beginTransaction, .commit] ∧
              ∃ i, faults i = some orig ∧ ∀ j, j < i → faults j = none) := hcalls
      refine ⟨orig, t, rfl, hcalls2, ?_⟩
      cases hf : faults t.made with
      | none =>
        simp [Flow.tryFinally, Flow.tryCatch, hb, flow_bind_apply, Session.rollbackAt, hf,
          Flow.throw, Session.release, Connection.release, Connection.rollback] at h ⊢
        exact ⟨h.symm, hc2⟩
      | some e2 =>
        simp [Flow.tryFinally, Flow.tryCatch, hb, flow_bind_apply, Session.rollbackAt, hf,
          Flow.throw, Session.release, Connection.release] at h ⊢
        exact ⟨h.symm, hc2⟩

/-- Past validation, `bookUnreliable` settles as its body leaves the session. -/
theorem bookUnreliable_valid (faults : Faults) (eventId userId : JsValue) (db : Store)
    (hE : passesValidation eventId) (hU : passesValidation userId) :
    BookingService.bookUnreliable faults eventId userId db
      = TracedOutcome.settle
          (BookingService.bookFlow faults eventId userId (Session.idle db)).1
          (BookingService.bookFlow faults eventId userId (Session.idle db)).2 := by
  obtain ⟨e0, he0, rfl⟩ := (passesValidation_iff eventId).1 hE
  obtain ⟨u0, hu0, rfl⟩ := (passesValidation_iff userId).1 hU
  simp [BookingService.bookUnreliable, JsValue.truthy, JsValue.isNumber, he0, hu0]

/-- Past validation, `cancelUnreliable` settles as its body leaves the session. -/
theorem cancelUnreliable_valid (faults : Faults) (bookingId : JsValue) (db : Store)
    (hK : passesValidation bookingId) :
    BookingService.cancelUnreliable faults bookingId db
      = TracedOutcome.settle
          (BookingService.cancelFlow faults bookingId (Session.idle db)).1
          (BookingService.cancelFlow faults bookingId (Session.idle db)).2 := by
  obtain ⟨k0, hk0, rfl⟩ := (passesValidation_iff bookingId).1 hK
  simp [BookingService.cancelUnreliable, JsValue.truthy, JsValue.isNumber, hk0]

/-- When the guard of `book` fires: `ValidationError`, nothing called, store as
before. -/
theorem bookUnreliable_invalid (faults : Faults) (eventId userId : JsValue) (db : Store)
    (h : ¬ (passesValidation eventId ∧ passesValidation userId)) :
    (∃ m, (BookingService.bookUnreliable faults eventId userId db).result
        = .error ⟨.ValidationError, m⟩) ∧
    (BookingService.bookUnreliable faults eventId userId db).calls = [] ∧
    (BookingService.bookUnreliable faults eventId userId db).repoCalls = [] ∧
    (BookingService.bookUnreliable faults eventId userId db).db = db := by
  unfold BookingService.bookUnreliable
  by_cases hE : passesValidation eventId
  · have hU : ¬ passesValidation userId := fun hU => h ⟨hE, hU⟩
    have g1 : (!eventId.truthy || !eventId.isNumber) = false := by
      simp [passesValidation] at hE; simp [hE]
    have g2 : (!userId.truthy || !userId.isNumber) = true := by
      simp only [passesValidation] at hU
      cases h1 : userId.truthy <;> cases h2 : userId.isNumber <;> simp_all
    simp [g1, g2]
  · have g1 : (!eventId.truthy || !eventId.isNumber) = true := by
      simp only [passesValidation] at hE
      cases h1 : eventId.truthy <;> cases h2 : eventId.isNumber <;> simp_all
    simp [g1]

/-- When the guard of `cancel` fires: `ValidationError`, nothing called, store as
before. -/
theorem cancelUnreliable_invalid (faults : Faults) (bookingId : JsValue) (db : Store)
    (h : ¬ passesValidation bookingId) :
    (∃ m, (BookingService.cancelUnreliable faults bookingId db).result
        = .error ⟨.ValidationError, m⟩) ∧
    (BookingService.cancelUnreliable faults bookingId db).calls = [] ∧
    (BookingService.cancelUnreliable faults bookingId db).repoCalls = [] ∧
    (BookingService.cancelUnreliable faults bookingId db).db = db := by
  unfold BookingService.cancelUnreliable
  have g1 : (!bookingId.truthy || !bookingId.isNumber) = true := by
    simp only [passesValidation] at h
    cases h1 : bookingId.truthy <;> cases h2 : bookingId.isNumber <;> simp_all
  simp [g1]

/-- A failure of `bookUnreliable` once the transaction has begun: how the `try`
block was left, what the `catch` made of it, and what the call leaves behind. -/
theorem bookUnreliable_error (faults : Faults) (eventId userId : JsValue) (db : Store)
    (hE : passesValidation eventId) (hU : passesValidation userId)
    (h0 : faults 0 = none) (h1 : faults 1 = none) (err : AppError)
    (h : (BookingService.bookUnreliable faults eventId userId db).result = .error err) :
    ∃ orig t,
      BookingService.bookTryUnreliable faults eventId userId (Session.begun db)
        = (.error orig, t) ∧
      ((t.connection.calls = [.getConnection, .beginTransaction] ∧
          ∃ i, faults i = some orig ∧ ∀ j, j < i → faults j = none) ∨
       (t.connection.calls = [.getConnection, .beginTransaction, .rollback] ∧
          (bookOwnError orig ∨ ∃ i, faults i = some orig ∧ ∀ j, j < i → faults j = none)) ∨
       (t.connection.calls = [.getConnection, .beginTransaction, .commit] ∧
          ∃ i, faults i = some orig ∧ ∀ j, j < i → faults j = none)) ∧
      (faults t.made = none → err = orig) ∧
      (∀ e, faults t.made = some e → err = e) ∧
      (BookingService.bookUnreliable faults eventId userId db).calls
        = t.connection.calls ++ [.rollback, .release] ∧
      (BookingService.bookUnreliable faults eventId userId db).repoCalls = t.repoCalls ∧
      (BookingService.bookUnreliable faults eventId userId db).db = db := by
  rw [bookUnreliable_valid faults eventId userId db hE hU] at h ⊢
  have hflow : BookingService.bookFlow faults eventId userId (Session.idle db)
      = Flow.tryFinally (Flow.tryCatch
          (BookingService.bookTryUnreliable faults eventId userId)
          (fun error => Session.rollbackAt faults >>= fun _ => Flow.throw error))
          Session.release (Session.begun db) :=
    flow_begun faults _ db h0 h1
  rw [hflow] at h ⊢
  exact guarded_error faults bookOwnError _ db (bookTryUnreliable_orderly _ _ _) h0 h1 err h

/-- A failure of `cancelUnreliable` once the transaction has begun: how the `try`
block was left, what the `catch` made of it, and what the call leaves behind. -/
theorem cancelUnreliable_error (faults : Faults) (bookingId : JsValue) (db : Store)
    (hK : passesValidation bookingId)
    (h0 : faults 0 = none) (h1 : faults 1 = none) (err : AppError)
    (h : (BookingService.cancelUnreliable faults bookingId db).result = .error err) :
    ∃ orig t,
      BookingService.cancelTryUnreliable faults bookingId (Session.begun db)
        = (.error orig, t) ∧
      ((t.connection.calls = [.getConnection, .beginTransaction] ∧
          ∃ i, faults i = some orig ∧ ∀ j, j < i → faults j = none) ∨
       (t.connection.calls = [.getConnection, .beginTransaction, .rollback] ∧
          (cancelOwnError orig ∨
            ∃ i, faults i = some orig ∧ ∀ j, j < i → faults j = none)) ∨
       (t.connection.calls = [.getConnection, .beginTransaction, .commit] ∧
          ∃ i, faults i = some orig ∧ ∀ j, j < i → faults j = none)) ∧
      (faults t.made = none → err = orig) ∧
      (∀ e, faults t.made = some e → err = e) ∧
      (BookingService.cancelUnreliable faults bookingId db).calls
        = t.connection.calls ++ [.rollback, .release] ∧
      (BookingService.cancelUnreliable faults bookingId db).repoCalls = t.repoCalls ∧
      (BookingService.cancelUnreliable faults bookingId db).db = db := by
  rw [cancelUnreliable_valid faults bookingId db hK] at h ⊢
  have hflow : BookingService.cancelFlow faults bookingId (Session.idle db)
      = Flow.tryFinally (Flow.tryCatch
          (BookingService.cancelTryUnreliable faults bookingId)
          (fun error => Session.rollbackAt faults >>= fun _ => Flow.throw error))
          Session.release (Session.begun db) :=
    flow_begun faults _ db h0 h1
  rw [hflow] at h ⊢
  exact guarded_error faults cancelOwnError _ db (cancelTryUnreliable_orderly _ _) h0 h1 err h

/-- Past validation, an error of `bookUnreliable` is one of the service's own or
was thrown by an awaited call. -/
theorem bookUnreliable_error_origin (faults : Faults) (eventId userId : JsValue)
    (db : Store) (hE : passesValidation eventId) (hU : passesValidation userId)
    (err : AppError)
    (h : (BookingService.bookUnreliable faults eventId userId db).result = .error err) :
    bookOwnError err ∨ ∃ i, faults i = some err := by
  cases h0 : faults 0 with
  | some e =>
    rw [bookUnreliable_valid faults eventId userId db hE hU] at h
    have := flow_get_throws faults (fun _ => Session.beginTransactionAt faults >>= fun _ =>
      Flow.tryFinally (Flow.tryCatch
        (BookingService.bookTryUnreliable faults eventId userId)
        (fun error => Session.rollbackAt faults >>= fun _ => Flow.throw error))
        Session.release) db e h0
    have hf : BookingService.bookFlow faults eventId userId (Session.idle db) = _ := this
    rw [hf] at h
    simp only [TracedOutcome.settle] at h
    cases h
    exact Or.inr ⟨0, h0⟩
  | none =>
    cases h1 : faults 1 with
    | some e =>
      rw [bookUnreliable_valid faults eventId userId db hE hU] at h
      have := flow_begin_throws faults (Flow.tryFinally (Flow.tryCatch
        (BookingService.bookTryUnreliable faults eventId userId)
        (fun error => Session.rollbackAt faults >>= fun _ => Flow.throw error))
        Session.release) db e h0 h1
      have hf : BookingService.bookFlow faults eventId userId (Session.idle db) = _ := this
      rw [hf] at h
      simp only [TracedOutcome.settle] at h
      cases h
      exact Or.inr ⟨1, h1⟩
    | none =>
      obtain ⟨orig, t, -, hcalls, hn, hs, -⟩ :=
        bookUnreliable_error faults eventId userId db hE hU h0 h1 err h
      cases hf : faults t.made with
      | some e2 =>
        rw [hs e2 hf]
        exact Or.inr ⟨t.made, hf⟩
      | none =>
        rw [hn hf]
        rcases hcalls with ⟨-, i, hi, -⟩ | ⟨-, ho | ⟨i, hi, -⟩⟩ | ⟨-, i, hi, -⟩
        · exact Or.inr ⟨i, hi⟩
        · exact Or.inl ho
        · exact Or.inr ⟨i, hi⟩
        · exact Or.inr ⟨i, hi⟩

/-- Past validation, an error of `cancelUnreliable` is one of the service's own
or was thrown by an awaited call. -/
theorem cancelUnreliable_error_origin (faults : Faults) (bookingId : JsValue)
    (db : Store) (hK : passesValidation bookingId) (err : AppError)
    (h : (BookingService.cancelUnreliable faults bookingId db).result = .error err) :
    cancelOwnError err ∨ ∃ i, faults i = some err := by
  cases h0 : faults 0 with
  | some e =>
    rw [cancelUnreliable_valid faults bookingId db hK] at h
    have := flow_get_throws faults (fun _ => Session.beginTransactionAt faults >>= fun _ =>
      Flow.tryFinally (Flow.tryCatch
        (BookingService.cancelTryUnreliable faults bookingId)
        (fun error => Session.rollbackAt faults >>= fun _ => Flow.throw error))
        Session.release) db e h0
    have hf : BookingService.cancelFlow faults bookingId (Session.idle db) = _ := this
    rw [hf] at h
    simp only [TracedOutcome.settle] at h
    cases h
    exact Or.inr ⟨0, h0⟩
  | none =>
    cases h1 : faults 1 with
    | some e =>
      rw [cancelUnreliable_valid faults bookingId db hK] at h
      have := flow_begin_throws faults (Flow.tryFinally (Flow.tryCatch
        (BookingService.cancelTryUnreliable faults bookingId)
        (fun error => Session.rollbackAt faults >>= fun _ => Flow.throw error))
        Session.release) db e h0 h1
      have hf : BookingService.cancelFlow faults bookingId (Session.idle db) = _ := this
      rw [hf] at h
      simp only [TracedOutcome.settle] at h
      cases h
      exact Or.inr ⟨1, h1⟩
    | none =>
      obtain ⟨orig, t, -, hcalls, hn, hs, -⟩ :=
        cancelUnreliable_error faults bookingId db hK h0 h1 err h
      cases hf : faults t.made with
      | some e2 =>
        rw [hs e2 hf]
        exact Or.inr ⟨t.made, hf⟩
      | none =>
        rw [hn hf]
        rcases hcalls with ⟨-, i, hi, -⟩ | ⟨-, ho | ⟨i, hi, -⟩⟩ | ⟨-, i, hi, -⟩
        · exact Or.inr ⟨i, hi⟩
        · exact Or.inl ho
        · exact Or.inr ⟨i, hi⟩
        · exact Or.inr ⟨i, hi⟩

/-- C11 (amended). `book` fails with `ValidationError` exactly when `eventId` or
`userId` is not a nonzero number (missing, not a number, `NaN`, or zero), and
`cancel` exactly when `bookingId` is not a nonzero number; so every nonzero
number, every positive integer among them, passes validation. -/
theorem validation_rejects_exactly_non_numbers_and_zero
    (eventId userId bookingId : JsValue) (db : Store) :
    ((∃ m, (BookingService.book eventId userId db).result = .error ⟨.ValidationError, m⟩) ↔
      ¬ ((∃ n : Int, n ≠ 0 ∧ eventId = .number n) ∧
         (∃ n : Int, n ≠ 0 ∧ userId = .number n))) ∧
    ((∃ m, (BookingService.cancel bookingId db).result = .error ⟨.ValidationError, m⟩) ↔
      ¬ (∃ n : Int, n ≠ 0 ∧ bookingId = .number n)) := by
  rw [← passesValidation_iff, ← passesValidation_iff, ← passesValidation_iff,
    ← (bookUnreliable_noFaults eventId userId db).1,
    ← (cancelUnreliable_noFaults bookingId db).1]
  constructor
  · constructor
    · rintro ⟨m, hm⟩ ⟨hE, hU⟩
      rcases bookUnreliable_error_origin noFaults eventId userId db hE hU _ hm with
        (h | h | h) | ⟨i, hi⟩
      · cases h
      · cases h
      · cases h
      · simp [noFaults] at hi
    · intro h
      exact (bookUnreliable_invalid noFaults eventId userId db h).1
  · constructor
    · rintro ⟨m, hm⟩ hK
      rcases cancelUnreliable_error_origin noFaults bookingId db hK _ hm with
        (h | h) | ⟨i, hi⟩
      · cases h
      · cases h
      · simp [noFaults] at hi
    · intro h
      exact (cancelUnreliable_invalid noFaults bookingId db h).1

/-- C12. Whenever `book` or `cancel` fails with `ValidationError` (the awaited
calls themselves throwing none), nothing was called on the pool or a connection
(no `getConnection`, `beginTransaction`, `commit`, `rollback`), no repository
method was called, and the store is as before. -/
theorem validation_error_touches_nothing (faults : Faults)
    (hf : ∀ i e, faults i = some e → e.kind ≠ .ValidationError)
    (eventId userId bookingId : JsValue) (db : Store) :
    (∀ err : AppError,
      (BookingService.bookUnreliable faults eventId userId db).result = .error err →
      err.kind = .ValidationError →
        (BookingService.bookUnreliable faults eventId userId db).calls = [] ∧
        (BookingService.bookUnreliable faults eventId userId db).repoCalls = [] ∧
        (BookingService.bookUnreliable faults eventId userId db).db = db) ∧
    (∀ err : AppError,
      (BookingService.cancelUnreliable faults bookingId db).result = .error err →
      err.kind = .ValidationError →
        (BookingService.cancelUnreliable faults bookingId db).calls = [] ∧
        (BookingService.cancelUnreliable faults bookingId db).repoCalls = [] ∧
        (BookingService.cancelUnreliable faults bookingId db).db = db) ∧
    (∀ err : AppError,
      (BookingService.book eventId userId db).result = .error err →
      err.kind = .ValidationError →
        (BookingService.book eventId userId db).calls = [] ∧
        (BookingService.book eventId userId db).db = db) ∧
    (∀ err : AppError,
      (BookingService.cancel bookingId db).result = .error err →
      err.kind = .ValidationError →
        (BookingService.cancel bookingId db).calls = [] ∧
        (BookingService.cancel bookingId db).db = db) := by
  have hbook : ∀ fl : Faults, (∀ i e, fl i = some e → e.kind ≠ .ValidationError) →
      ∀ err : AppError,
      (BookingService.bookUnreliable fl eventId userId db).result = .error err →
      err.kind = .ValidationError →
      (BookingService.bookUnreliable fl eventId userId db).calls = [] ∧
      (BookingService.bookUnreliable fl eventId userId db).repoCalls = [] ∧
      (BookingService.bookUnreliable fl eventId userId db).db = db := by
    intro fl hfl err h hk
    by_cases hv : passesValidation eventId ∧ passesValidation userId
    · rcases bookUnreliable_error_origin fl eventId userId db hv.1 hv.2 _ h with
        (h1 | h1 | h1) | ⟨i, hi⟩
      · subst h1; cases hk
      · subst h1; cases hk
      · subst h1; cases hk
      · exact absurd hk (hfl i _ hi)
    · exact (bookUnreliable_invalid fl eventId userId db hv).2
  have hcancel : ∀ fl : Faults, (∀ i e, fl i = some e → e.kind ≠ .ValidationError) →
      ∀ err : AppError,
      (BookingService.cancelUnreliable fl bookingId db).result = .error err →
      err.kind = .ValidationError →
      (BookingService.cancelUnreliable fl bookingId db).calls = [] ∧
      (BookingService.cancelUnreliable fl bookingId db).repoCalls = [] ∧
      (BookingService.cancelUnreliable fl bookingId db).db = db := by
    intro fl hfl err h hk
    by_cases hv : passesValidation bookingId
    · rcases cancelUnreliable_error_origin fl bookingId db hv _ h with
        (h1 | h1) | ⟨i, hi⟩
      · subst h1; cases hk
      · subst h1; cases hk
      · exact absurd hk (hfl i _ hi)
    · exact (cancelUnreliable_invalid fl bookingId db hv).2
  have hnone : ∀ i e, noFaults i = some e → e.kind ≠ .ValidationError := by
    intro i e hi; simp [noFaults] at hi
  refine ⟨hbook faults hf, hcancel faults hf, ?_, ?_⟩
  · intro err h hk
    obtain ⟨h1, h2, h3⟩ := bookUnreliable_noFaults eventId userId db
    rw [← h1] at h
    obtain ⟨g1, -, g3⟩ := hbook noFaults hnone err h hk
    exact ⟨by rw [← h3]; exact g1, by rw [← h2]; exact g3⟩
  · intro err h hk
    obtain ⟨h1, h2, h3⟩ := cancelUnreliable_noFaults bookingId db
    rw [← h1] at h
    obtain ⟨g1, -, g3⟩ := hcancel noFaults hnone err h hk
    exact ⟨by rw [← h3]; exact g1, by rw [← h2]; exact g3⟩

/-- Witness for C12: a missing event id for `book` and booking id 0 for
`cancel`, with a fault plan that would throw at the fifth call. -/
theorem validation_error_touches_nothing_witness :
    ((BookingService.bookUnreliable sampleFaults .undefined (.number 7) queuedStore).calls
        = [] ∧
      (BookingService.bookUnreliable sampleFaults .undefined (.number 7)
        queuedStore).repoCalls = [] ∧
      (BookingService.bookUnreliable sampleFaults .undefined (.number 7) queuedStore).db
        = queuedStore) ∧
    ((BookingService.cancelUnreliable sampleFaults (.number 0) queuedStore).calls = [] ∧
      (BookingService.cancelUnreliable sampleFaults (.number 0) queuedStore).repoCalls
        = [] ∧
      (BookingService.cancelUnreliable sampleFaults (.number 0) queuedStore).db
        = queuedStore) ∧
    ((BookingService.book .undefined (.number 7) queuedStore).calls = [] ∧
      (BookingService.book .undefined (.number 7) queuedStore).db = queuedStore) ∧
    ((BookingService.cancel (.number 0) queuedStore).calls = [] ∧
      (BookingService.cancel (.number 0) queuedStore).db = queuedStore) :=
  have h := validation_error_touches_nothing sampleFaults
    (fun i e hi => by
      simp only [sampleFaults] at hi
      split at hi
      · cases hi; decide
      · cases hi)
    .undefined (.number 7) (.number 0) queuedStore
  ⟨h.1 ⟨.ValidationError, "Valid event ID is required"⟩ rfl rfl,
   h.2.1 ⟨.ValidationError, "Valid booking ID is required"⟩ rfl rfl,
   h.2.2.1 ⟨.ValidationError, "Valid event ID is required"⟩ rfl rfl,
   h.2.2.2 ⟨.ValidationError, "Valid booking ID is required"⟩ rfl rfl⟩

/-- C20 (counterexample). A repository call throws after the booking row was
created (`book`) or after the booking was marked cancelled and its replacement
created (`cancel`), and the `rollback` of the `catch` block then throws too: the
`try` block was left with the error "connection lost", yet the call settles with
the error of the `rollback`, "rollback failed". -/
theorem rollback_error_replaces_original :
    ((BookingService.bookTryUnreliable rollbackFails (.number 1) (.number 8)
        (Session.begun openStore)).1 = .error ⟨.TypeError, "connection lost"⟩ ∧
      (BookingService.bookUnreliable rollbackFails (.number 1) (.number 8) openStore).result
        = .error ⟨.TypeError, "rollback failed"⟩ ∧
      (BookingService.bookUnreliable rollbackFails (.number 1) (.number 8) openStore).calls
        = [.getConnection, .beginTransaction, .rollback, .release] ∧
      (BookingService.bookUnreliable rollbackFails (.number 1) (.number 8)
        openStore).repoCalls
        = ["EventRepository.findByIdForUpdate",
           "BookingRepository.findActiveByEventAndUser",
           "WaitingListRepository.findByEventAndUser",
           "BookingRepository.create",
           "EventRepository.decrementAvailableTickets"]) ∧
    ((BookingService.cancelTryUnreliable rollbackFails (.number 2)
        (Session.begun queuedStore)).1 = .error ⟨.TypeError, "connection lost"⟩ ∧
      (BookingService.cancelUnreliable rollbackFails (.number 2) queuedStore).result
        = .error ⟨.TypeError, "rollback failed"⟩ ∧
      (BookingService.cancelUnreliable rollbackFails (.number 2) queuedStore).calls
        = [.getConnection, .beginTransaction, .rollback, .release] ∧
      (BookingService.cancelUnreliable rollbackFails (.number 2) queuedStore).repoCalls
        = ["BookingRepository.findByIdForUpdate",
           "BookingRepository.cancel",
           "WaitingListRepository.findNextInLine",
           "BookingRepository.create",
           "WaitingListRepository.promote"]) := by
  refine ⟨⟨?_, ?_, ?_, ?_⟩, ⟨?_, ?_, ?_, ?_⟩⟩ <;> rfl

/-- C20 (amended). Let `book` or `cancel` fail after its connection was obtained
and its transaction begun, the `try` block being left with the error `orig`.
Then `orig` is the error of the first awaited call that threw, or the service's
own `NotFoundError` or `ConflictError` thrown after its `rollback`; `commit` was
called only if it is the call that threw `orig`; the `catch` block calls
`rollback`, then `release` is called, and the committed store equals the store
before the call. The error that propagates is `orig` when the `rollback` of the
`catch` block returns, and the error of that `rollback` when it throws. -/
theorem failure_after_begin_rolls_back (faults : Faults) (db : Store)
    (h0 : faults 0 = none) (h1 : faults 1 = none) :
    (∀ (eventId userId : JsValue) (err : AppError),
      passesValidation eventId → passesValidation userId →
      (BookingService.bookUnreliable faults eventId userId db).result = .error err →
        ConnCall.rollback ∈ (BookingService.bookUnreliable faults eventId userId db).calls ∧
        (BookingService.bookUnreliable faults eventId userId db).db = db ∧
        ∃ orig t,
          BookingService.bookTryUnreliable faults eventId userId (Session.begun db)
            = (.error orig, t) ∧
          ((t.connection.calls = [.getConnection, .beginTransaction] ∧
              ∃ i, faults i = some orig ∧ ∀ j, j < i → faults j = none) ∨
           (t.connection.calls = [.getConnection, .beginTransaction, .rollback] ∧
              (bookOwnError orig ∨
                ∃ i, faults i = some orig ∧ ∀ j, j < i → faults j = none)) ∨
           (t.connection.calls = [.getConnection, .beginTransaction, .commit] ∧
              ∃ i, faults i = some orig ∧ ∀ j, j < i → faults j = none)) ∧
          (BookingService.bookUnreliable faults eventId userId db).calls
            = t.connection.calls ++ [.rollback, .release] ∧
          (faults t.made = none → err = orig) ∧
          (∀ e, faults t.made = some e → err = e)) ∧
    (∀ (bookingId : JsValue) (err : AppError),
      passesValidation bookingId →
      (BookingService.cancelUnreliable faults bookingId db).result = .error err →
        ConnCall.rollback ∈ (BookingService.cancelUnreliable faults bookingId db).calls ∧
        (BookingService.cancelUnreliable faults bookingId db).db = db ∧
        ∃ orig t,
          BookingService.cancelTryUnreliable faults bookingId (Session.begun db)
            = (.error orig, t) ∧
          ((t.connection.calls = [.getConnection, .beginTransaction] ∧
              ∃ i, faults i = some orig ∧ ∀ j, j < i → faults j = none) ∨
           (t.connection.calls = [.getConnection, .beginTransaction, .rollback] ∧
              (cancelOwnError orig ∨
                ∃ i, faults i = some orig ∧ ∀ j, j < i → faults j = none)) ∨
           (t.connection.calls = [.getConnection, .beginTransaction, .commit] ∧
              ∃ i, faults i = some orig ∧ ∀ j, j < i → faults j = none)) ∧
          (BookingService.cancelUnreliable faults bookingId db).calls
            = t.connection.calls ++ [.rollback, .release] ∧
          (faults t.made = none → err = orig) ∧
          (∀ e, faults t.made = some e → err = e)) := by
  constructor
  · intro eventId userId err hE hU h
    obtain ⟨orig, t, htry, hcalls, hn, hs, hc, -, hdb⟩ :=
      bookUnreliable_error faults eventId userId db hE hU h0 h1 err h
    exact ⟨by rw [hc]; simp, hdb, orig, t, htry, hcalls, hc, hn, hs⟩
  · intro bookingId err hK h
    obtain ⟨orig, t, htry, hcalls, hn, hs, hc, -, hdb⟩ :=
      cancelUnreliable_error faults bookingId db hK h0 h1 err h
    exact ⟨by rw [hc]; simp, hdb, orig, t, htry, hcalls, hc, hn, hs⟩

/-- Witness for C20: with the seventh call throwing, `book` fails after the
booking row was created and `cancel` fails after the booking was marked
cancelled and its replacement created; both roll back, propagate that error and
leave the store as it was. -/
theorem failure_after_begin_rolls_back_witness :
    ((BookingService.bookUnreliable lateFault (.number 1) (.number 8) openStore).result
        = .error ⟨.TypeError, "connection lost"⟩ ∧
      (BookingService.bookUnreliable lateFault (.number 1) (.number 8) openStore).calls
        = [.getConnection, .beginTransaction, .rollback, .release] ∧
      (BookingService.bookUnreliable lateFault (.number 1) (.number 8)
        openStore).repoCalls.length = 5 ∧
      (BookingService.bookUnreliable lateFault (.number 1) (.number 8) openStore).db
        = openStore) ∧
    ((BookingService.cancelUnreliable lateFault (.number 2) queuedStore).result
        = .error ⟨.TypeError, "connection lost"⟩ ∧
      (BookingService.cancelUnreliable lateFault (.number 2) queuedStore).calls
        = [.getConnection, .beginTransaction, .rollback, .release] ∧
      (BookingService.cancelUnreliable lateFault (.number 2) queuedStore).repoCalls.length
        = 5 ∧
      (BookingService.cancelUnreliable lateFault (.number 2) queuedStore).db
        = queuedStore) ∧
    (ConnCall.rollback ∈
        (BookingService.bookUnreliable lateFault (.number 1) (.number 8) openStore).calls ∧
      ConnCall.rollback ∈
        (BookingService.cancelUnreliable lateFault (.number 2) queuedStore).calls) :=
  have hb := (failure_after_begin_rolls_back lateFault openStore rfl rfl).1
    (.number 1) (.number 8) ⟨.TypeError, "connection lost"⟩ (by decide) (by decide) rfl
  have hc := (failure_after_begin_rolls_back lateFault queuedStore rfl rfl).2
    (.number 2) ⟨.TypeError, "connection lost"⟩ (by decide) rfl
  ⟨⟨rfl, rfl, rfl, hb.2.1⟩, ⟨rfl, rfl, rfl, hc.2.1⟩, ⟨hb.1, hc.1⟩⟩

/-- The `try` block that keeps the decrement's value is the `try` block of
`book`; the decrement is called exactly on the path that confirms, there it
returns `true`, and the locked event row shows a free ticket. -/
theorem bookTryObserved_spec (eventId userId : JsValue) (connection : Connection) :
    (BookingService.bookTryObserved eventId userId connection).1
      = BookingService.bookTry eventId userId connection ∧
    ((BookingService.bookTryObserved eventId userId connection).2 = none ∨
      (BookingService.bookTryObserved eventId userId connection).2 = some true) ∧
    ((BookingService.bookTryObserved eventId userId connection).2 = some true ↔
      ∃ id e u st, (BookingService.bookTry eventId userId connection).1
        = .ok (.booked id e u st)) ∧
    ((BookingService.bookTryObserved eventId userId connection).2 = some true →
      ∃ ev, EventRepository.findByIdForUpdate eventId.sqlInt connection.work = some ev ∧
        0 < ev.available_tickets) := by
  unfold BookingService.bookTryObserved BookingService.bookTry
  cases hev : EventRepository.findByIdForUpdate eventId.sqlInt connection.work with
  | none => simp
  | some ev =>
    cases hb : BookingRepository.findActiveByEventAndUser eventId.sqlInt userId.sqlInt
        connection.work with
    | some b => simp
    | none =>
      cases hw : WaitingListRepository.findByEventAndUser eventId.sqlInt userId.sqlInt
          connection.work with
      | some w => simp
      | none =>
        by_cases hav : ev.available_tickets > 0
        · obtain ⟨hevm, hevid⟩ := findEvent_some hev
          have hdec : (EventRepository.decrementAvailableTickets eventId.sqlInt
              (BookingRepository.create eventId.sqlInt userId.sqlInt
                connection.work).2).1 = true := by
            simp only [EventRepository.decrementAvailableTickets, BookingRepository.create,
              List.any_eq_true]
            exact ⟨ev, hevm, by simp [hevid, hav]⟩
          simp [hav, Connection.execute, hdec]
        · simp [hav, Connection.execute]

/-- Method `bookObserved` is `book` with the decrement's value kept. -/
theorem bookObserved_spec (eventId userId : JsValue) (db : Store) :
    (BookingService.bookObserved eventId userId db).1
      = BookingService.book eventId userId db ∧
    ((BookingService.bookObserved eventId userId db).2 = none ∨
      (BookingService.bookObserved eventId userId db).2 = some true) ∧
    ((BookingService.bookObserved eventId userId db).2 = some true ↔
      ∃ id e u st, (BookingService.book eventId userId db).result
        = .ok (.booked id e u st)) ∧
    ((BookingService.bookObserved eventId userId db).2 = some true →
      ∃ ev, EventRepository.findByIdForUpdate eventId.sqlInt db = some ev ∧
        0 < ev.available_tickets) := by
  unfold BookingService.bookObserved BookingService.book
  split
  · simp
  · split
    · simp
    · obtain ⟨h1, h2, h3, h4⟩ := bookTryObserved_spec eventId userId
        (pool.getConnection db).beginTransaction
      simp only
      cases hobs : BookingService.bookTryObserved eventId userId
          (pool.getConnection db).beginTransaction with
      | mk rc d =>
        rw [hobs] at h1 h2 h3 h4
        simp only at h1 h2 h3 h4
        rw [← h1]
        cases rc with
        | mk r c =>
          rw [← h1] at h3
          cases r with
          | ok v =>
            simp only [Outcome.settle]
            exact ⟨trivial, h2, h3, h4⟩
          | error e =>
            simp only [Outcome.settle]
            exact ⟨trivial, h2, h3, h4⟩

/-- C29. In every reachable store an event that has a waiting-list entry with
status 'waiting' has `available_tickets = 0`. And in `book` run on such a store,
`decrementAvailableTickets` is called exactly when the call returns a confirmed
booking, and the value it returns to `book` is `true`: the event row of that id
shows `available_tickets > 0`, so the guard of the update holds, and nobody is
waiting for the event. -/
theorem nobody_waits_while_a_ticket_is_free (s : Store) (h : Reachable s) :
    (∀ e ∈ s.events,
      (∃ w ∈ s.waiting_list, w.event_id = e.id ∧ w.status = .waiting) →
        e.available_tickets = 0) ∧
    (∀ eventId userId : JsValue,
      (BookingService.bookObserved eventId userId s).1
        = BookingService.book eventId userId s ∧
      ((BookingService.bookObserved eventId userId s).2 = none ∨
        (BookingService.bookObserved eventId userId s).2 = some true) ∧
      ((BookingService.bookObserved eventId userId s).2 = some true ↔
        ∃ id e u st, (BookingService.book eventId userId s).result
          = .ok (.booked id e u st)) ∧
      ((BookingService.bookObserved eventId userId s).2 = some true →
        (∃ ev ∈ s.events, ev.id = eventId.sqlInt) ∧
        (∀ ev ∈ s.events, ev.id = eventId.sqlInt → 0 < ev.available_tickets) ∧
        (∀ w ∈ s.waiting_list, ¬ (w.event_id = eventId.sqlInt ∧ w.status = .waiting)))) := by
  have hidle := reachable_noIdleTicket h
  have hwf := reachable_wellFormed h
  refine ⟨hidle, ?_⟩
  intro eventId userId
  obtain ⟨h1, h2, h3, h4⟩ := bookObserved_spec eventId userId s
  refine ⟨h1, h2, h3, ?_⟩
  intro hd
  obtain ⟨ev, hev, hav⟩ := h4 hd
  obtain ⟨hevm, hevid⟩ := findEvent_some hev
  refine ⟨⟨ev, hevm, hevid⟩, ?_, ?_⟩
  · intro ev2 hev2 hid2
    have : ev2 = ev := keysOk_unique s.events (fun x => x.id) _ hwf.1 hev2 hevm
      (by simp [hid2, hevid])
    rw [this]; exact hav
  · rintro w hw ⟨hwe, hws⟩
    have := hidle ev hevm ⟨w, hw, by rw [hevid]; exact hwe, hws⟩
    omega

/-- Witness for C29: `queuedStore` has somebody waiting and no ticket free; in
`openStore` a `book` confirms, and the decrement it called returned `true`. -/
theorem nobody_waits_while_a_ticket_is_free_witness :
    (∀ e ∈ queuedStore.events,
      (∃ w ∈ queuedStore.waiting_list, w.event_id = e.id ∧ w.status = .waiting) →
        e.available_tickets = 0) ∧
    (BookingService.bookObserved (.number 1) (.number 8) openStore).2 = some true ∧
    (BookingService.bookObserved (.number 1) (.number 8) openStore).1.result
      = .ok (.booked 2 (.number 1) (.number 8) "confirmed") ∧
    (BookingService.bookObserved (.number 1) (.number 9) queuedStore).2 = none ∧
    ((∃ ev ∈ openStore.events, ev.id = 1) ∧
      (∀ ev ∈ openStore.events, ev.id = 1 → 0 < ev.available_tickets) ∧
      (∀ w ∈ openStore.waiting_list, ¬ (w.event_id = 1 ∧ w.status = .waiting))) :=
  ⟨(nobody_waits_while_a_ticket_is_free queuedStore queuedStore_reachable).1,
   rfl, rfl, rfl,
   ((nobody_waits_while_a_ticket_is_free openStore
      ⟨[.initializeEvent (.string "Concert") (.number 2), .book (.number 1) (.number 7)],
        by decide⟩).2 (.number 1) (.number 8)).2.2.2 rfl⟩

/-- On a whole number that the column takes unchanged, `initializeFraction` is
`initialize` on that integer. -/
theorem initializeFraction_whole (column : ℚ → Int) (name : JsValue) (n : Int) (db : Store)
    (hcol : column (n : ℚ) = n) :
    EventService.initializeFraction column name (n : ℚ) db
      = EventService.initializeEvent name (.number n) db := by
  unfold EventService.initializeFraction EventService.initializeEvent
  by_cases hname : (!name.truthy || !name.isString) = true
  · simp [hname]
  · by_cases hn : 0 < n
    · have h1 : ¬ n = 0 := by omega
      have h2 : ¬ n ≤ 0 := by omega
      simp [hname, JsValue.truthy, JsValue.isNumber, JsValue.numLe, JsValue.sqlInt, hcol,
        h1, h2]
    · have h2 : n ≤ 0 := by omega
      simp [hname, JsValue.truthy, JsValue.isNumber, JsValue.numLe, h2]

/-- C22 (counterexample). The number 2.5 is positive and passes the guard of
`initialize`: in `queuedStore` one event is created and returned. Its
`total_tickets` and `available_tickets` are the integer the column takes for
2.5, whichever that is, and so are not equal to `totalTickets`. -/
theorem fractional_tickets_are_not_stored :
    Reachable queuedStore ∧
    ∀ column : ℚ → Int,
      (EventService.initializeFraction column (.string "Play") (5 / 2) queuedStore).result
        = .ok { eventId := 2, name := "Play", totalTickets := column (5 / 2),
                availableTickets := column (5 / 2) } ∧
      (EventService.initializeFraction column (.string "Play") (5 / 2) queuedStore).db.events
        = queuedStore.events ++ [{ id := 2, name := "Play", total_tickets := column (5 / 2),
                                   available_tickets := column (5 / 2) }] ∧
      ((column (5 / 2) : ℚ) ≠ 5 / 2) := by
  refine ⟨queuedStore_reachable, fun column => ?_⟩
  have hq0 : ¬ ((5 / 2 : ℚ) = 0) := by norm_num
  have hq1 : ¬ ((5 / 2 : ℚ) ≤ 0) := by norm_num
  have hne : ((column (5 / 2) : ℚ) ≠ 5 / 2) := by
    intro h
    have h2 : ((2 * column (5 / 2) : Int) : ℚ) = ((5 : Int) : ℚ) := by
      push_cast
      linarith
    have h3 : 2 * column (5 / 2) = 5 := by exact_mod_cast h2
    omega
  have hrun : EventService.initializeFraction column (.string "Play") (5 / 2) queuedStore
      = { result := .ok { eventId := 2, name := "Play", totalTickets := column (5 / 2),
                          availableTickets := column (5 / 2) },
          db := (EventRepository.create "Play" (column (5 / 2)) queuedStore).2,
          calls := [] } := by
    unfold EventService.initializeFraction
    simp [JsValue.truthy, JsValue.isString, JsValue.sqlText, hq0, hq1,
      EventRepository.create, EventRepository.findById, queuedStore]
  rw [hrun]
  exact ⟨rfl, rfl, hne⟩

/-- C22 (amended). In a reachable store, `initialize` with a non-empty string
`name` and a positive integer `n` appends exactly one event row, with a fresh id and with
`total_tickets = available_tickets = n`, leaves bookings and waiting list as
they are, none of which belongs to the new event, and returns
`{eventId, name, totalTickets: n, availableTickets: n}` with the new id. -/
theorem initialize_creates_full_event (s : Store) (h : Reachable s) (name : String)
    (hname : name ≠ "") (n : Int) (hn : 0 < n) :
    (EventService.initializeEvent (.string name) (.number n) s).result
      = .ok { eventId := s.nextEventId, name := name, totalTickets := n,
              availableTickets := n } ∧
    (EventService.initializeEvent (.string name) (.number n) s).db.events
      = s.events ++ [{ id := s.nextEventId, name := name, total_tickets := n,
                       available_tickets := n }] ∧
    (∀ e ∈ s.events, e.id ≠ s.nextEventId) ∧
    (EventService.initializeEvent (.string name) (.number n) s).db.bookings = s.bookings ∧
    (EventService.initializeEvent (.string name) (.number n) s).db.waiting_list
      = s.waiting_list ∧
    (∀ b ∈ s.bookings, b.event_id ≠ s.nextEventId) ∧
    (∀ w ∈ s.waiting_list, w.event_id ≠ s.nextEventId) := by
  have hs := reachable_inv h
  have hnoE : ∀ e ∈ s.events, e.id ≠ s.nextEventId := by
    intro e he hid
    have := (hs.eventKeys.2.1 e.id (List.mem_map.2 ⟨e, he, rfl⟩)).2
    omega
  have hnoB : ∀ b ∈ s.bookings, b.event_id ≠ s.nextEventId := by
    intro b hb hid
    obtain ⟨e, he, heid⟩ := hs.bookingRefs b hb
    exact hnoE e he (by rw [heid, hid])
  have hnoW : ∀ w ∈ s.waiting_list, w.event_id ≠ s.nextEventId := by
    intro w hw hid
    obtain ⟨e, he, heid⟩ := hs.waitingRefs w hw
    exact hnoE e he (by rw [heid, hid])
  have hfind : EventRepository.findById s.nextEventId (EventRepository.create name n s).2
      = some { id := s.nextEventId, name := name, total_tickets := n,
               available_tickets := n } := by
    simp only [EventRepository.findById, EventRepository.create]
    rw [List.find?_append]
    have : s.events.find? (fun e => decide (e.id = s.nextEventId)) = none := by
      rw [List.find?_eq_none]
      intro e he; simpa using hnoE e he
    rw [this]
    simp
  have hn2 : ¬ n ≤ 0 := by omega
  have hn3 : ¬ n = 0 := by omega
  have hrun : EventService.initializeEvent (.string name) (.number n) s
      = { result := .ok { eventId := s.nextEventId, name := name, totalTickets := n,
                          availableTickets := n },
          db := (EventRepository.create name n s).2, calls := [] } := by
    unfold EventService.initializeEvent
    simp only [JsValue.truthy, JsValue.isString, JsValue.isNumber, JsValue.numLe,
      JsValue.sqlText, JsValue.sqlInt]
    simp [hname, hn2, hn3]
    have hfst : (EventRepository.create name n s).1 = s.nextEventId := rfl
    rw [hfst, hfind]
  rw [hrun]
  exact ⟨rfl, rfl, hnoE, rfl, rfl, hnoB, hnoW⟩

/-- Witness for C22: a second event is initialized in `queuedStore`. -/
theorem initialize_creates_full_event_witness :
    (EventService.initializeEvent (.string "Play") (.number 3) queuedStore).result
      = .ok { eventId := 2, name := "Play", totalTickets := 3, availableTickets := 3 } ∧
    (EventService.initializeEvent (.string "Play") (.number 3) queuedStore).db.events
      = queuedStore.events ++ [{ id := 2, name := "Play", total_tickets := 3,
                                 available_tickets := 3 }] ∧
    (∀ e ∈ queuedStore.events, e.id ≠ 2) ∧
    (EventService.initializeEvent (.string "Play") (.number 3) queuedStore).db.bookings
      = queuedStore.bookings ∧
    (EventService.initializeEvent (.string "Play") (.number 3) queuedStore).db.waiting_list
      = queuedStore.waiting_list ∧
    (∀ b ∈ queuedStore.bookings, b.event_id ≠ 2) ∧
    (∀ w ∈ queuedStore.waiting_list, w.event_id ≠ 2) :=
  initialize_creates_full_event queuedStore queuedStore_reachable "Play" (by decide) 3
    (by decide)

end Ticketing
